import Mathlib

/-!
Verification of the simpleCnc geometry/toolpath/G-code engine.

This file shallowly embeds the engine's core algorithms over the real
numbers (JavaScript `number` arithmetic idealized as `ℝ`, `Math.sqrt` as
`Real.sqrt`, `-Infinity` sentinel values as `Option ℝ` with `none` playing
the role of `-Infinity`), and proves or refutes the specification claims
about them.  Field/function names follow the TypeScript source.
-/

namespace SimpleCnc

noncomputable section

open Real

open scoped Classical

/-! ## Geometric primitives (`src/lib/types/geometry.ts`, `src/lib/utils/math.ts`) -/

/-- 2D point (value semantics). -/
structure Point2D where
  x : ℝ
  y : ℝ


/-- 3D point (value semantics). -/
structure Point3D where
  x : ℝ
  y : ℝ
  z : ℝ


/-- A polyline: ordered points plus a closed flag. -/
structure Polyline where
  points : List Point2D
  closed : Bool

/-- `distance2D` from `utils/math.ts`: Euclidean distance. -/
def distance2D (a b : Point2D) : ℝ :=
  Real.sqrt ((b.x - a.x) * (b.x - a.x) + (b.y - a.y) * (b.y - a.y))

/-- `distance3D` / the local `dist3D` helpers. -/
def distance3D (a b : Point3D) : ℝ :=
  Real.sqrt ((b.x - a.x) * (b.x - a.x) + (b.y - a.y) * (b.y - a.y) +
    (b.z - a.z) * (b.z - a.z))

/-- `degToRad` from `utils/math.ts`. -/
def degToRad (deg : ℝ) : ℝ := deg * Real.pi / 180

/-- Placeholder point used to model JavaScript's out-of-bounds array read.
All theorems below carry hypotheses ruling the placeholder out. -/
def dummyPt2 : Point2D := ⟨0, 0⟩

/-- On points of the x-axis, `distance2D` is the absolute coordinate gap. -/
theorem distance2D_axis (a b : ℝ) :
    distance2D ⟨a, 0⟩ ⟨b, 0⟩ = |b - a| := by
  simp only [distance2D]
  rw [show (b - a) * (b - a) + (0 - 0) * (0 - 0) = (b - a) * (b - a) by ring]
  exact Real.sqrt_mul_self_eq_abs (b - a)

/-! ## Curve discretizer (`src/lib/engine/svg/discretizer.ts`) -/

/-- `perpendicularDistance`: distance from `point` to the infinite line
through `lineStart`/`lineEnd` (falling back to point distance when the
segment is degenerate). -/
def perpendicularDistance (point lineStart lineEnd : Point2D) : ℝ :=
  let dx := lineEnd.x - lineStart.x
  let dy := lineEnd.y - lineStart.y
  let lenSq := dx * dx + dy * dy
  if lenSq = 0 then distance2D point lineStart
  else
    |dy * point.x - dx * point.y + lineEnd.x * lineStart.y -
      lineEnd.y * lineStart.x| / Real.sqrt lenSq

/-- The interior scan of `douglasPeucker`: fold computing the maximal
perpendicular distance (and its index) over indices `1 .. points.length-2`,
starting from `(0, 0)` and updating on strict improvement. -/
def dpMaxScan (points : List Point2D) (first last : Point2D) : ℝ × ℕ :=
  (List.range (points.length - 2)).foldl
    (fun acc k =>
      let i := k + 1
      let dist := perpendicularDistance (points.getD i dummyPt2) first last
      if dist > acc.1 then (dist, i) else acc)
    (0, 0)

/-- `douglasPeucker`, with explicit recursion fuel standing in for the
unbounded JavaScript recursion (the fuel is sufficient for every
terminating run; `simplifyPolyline` supplies `points.length`). -/
def douglasPeucker (fuel : ℕ) (points : List Point2D) (epsilon : ℝ) :
    List Point2D :=
  match fuel with
  | 0 => points
  | fuel + 1 =>
    if points.length ≤ 2 then points
    else
      let first := points.getD 0 dummyPt2
      let last := points.getD (points.length - 1) dummyPt2
      let scan := dpMaxScan points first last
      let maxDist := scan.1
      let maxIndex := scan.2
      if maxDist > epsilon then
        let left := douglasPeucker fuel (points.take (maxIndex + 1)) epsilon
        let right := douglasPeucker fuel (points.drop maxIndex) epsilon
        left.dropLast ++ right
      else [first, last]

/-- `simplifyPolyline`: Douglas-Peucker simplification keeping the closed
flag. -/
def simplifyPolyline (polyline : Polyline) (epsilon : ℝ) : Polyline :=
  if polyline.points.length ≤ 2 then polyline
  else
    { points := douglasPeucker polyline.points.length polyline.points epsilon
      closed := polyline.closed }

/-! ## Offset engine (`src/lib/engine/svg/offset.ts`) -/

/-- `bisectNormals`. -/
def bisectNormals (n1 n2 : Point2D) : Point2D :=
  let bx := n1.x + n2.x
  let by' := n1.y + n2.y
  let d := Real.sqrt (bx * bx + by' * by')
  if d < 0.0001 then n1 else ⟨bx / d, by' / d⟩

/-- `computeEdgeNormals`: one left-hand normal per edge (zero normal for
zero-length edges). -/
def computeEdgeNormals (points : List Point2D) (closed : Bool) :
    List Point2D :=
  let len := if closed then points.length else points.length - 1
  (List.range len).map fun i =>
    let next := (i + 1) % points.length
    let dx := (points.getD next dummyPt2).x - (points.getD i dummyPt2).x
    let dy := (points.getD next dummyPt2).y - (points.getD i dummyPt2).y
    let d := Real.sqrt (dx * dx + dy * dy)
    if d > 0 then ⟨-dy / d, dx / d⟩ else ⟨0, 0⟩

/-- Miter offset of one vertex along the bisector of two adjacent
normals. -/
def miterPoint (p n1 n2 : Point2D) (offset : ℝ) : Point2D :=
  let bisector := bisectNormals n1 n2
  let dot := n1.x * bisector.x + n1.y * bisector.y
  let miterLen := if dot ≠ 0 then offset / dot else offset
  ⟨p.x + bisector.x * miterLen, p.y + bisector.y * miterLen⟩

/-- `offsetClosedPolyline`. -/
def offsetClosedPolyline (polyline : Polyline) (offset : ℝ) :
    List Polyline :=
  let points := polyline.points
  if points.length < 3 then [polyline]
  else
    let pts :=
      if points.length > 1 ∧
          |(points.getD 0 dummyPt2).x -
            (points.getD (points.length - 1) dummyPt2).x| < 0.001 ∧
          |(points.getD 0 dummyPt2).y -
            (points.getD (points.length - 1) dummyPt2).y| < 0.001 then
        points.dropLast
      else points
    if pts.length < 3 then [polyline]
    else
      let normals := computeEdgeNormals pts true
      let offsetPoints := (List.range pts.length).map fun i =>
        let prev := (i - 1 + pts.length) % pts.length
        miterPoint (pts.getD i dummyPt2) (normals.getD prev dummyPt2)
          (normals.getD i dummyPt2) offset
      [{ points := offsetPoints ++ [offsetPoints.getD 0 dummyPt2]
         closed := true }]

/-- `offsetOpenPolyline`. -/
def offsetOpenPolyline (polyline : Polyline) (offset : ℝ) : List Polyline :=
  let points := polyline.points
  if points.length < 2 then [polyline]
  else
    let normals := computeEdgeNormals points false
    let firstN := normals.getD 0 dummyPt2
    let firstPt := points.getD 0 dummyPt2
    let first : Point2D :=
      ⟨firstPt.x + firstN.x * offset, firstPt.y + firstN.y * offset⟩
    let interior := (List.range (points.length - 2)).map fun k =>
      let i := k + 1
      miterPoint (points.getD i dummyPt2) (normals.getD (i - 1) dummyPt2)
        (normals.getD i dummyPt2) offset
    let lastIdx := points.length - 1
    let lastN := normals.getD (normals.length - 1) dummyPt2
    let lastPt := points.getD lastIdx dummyPt2
    let last : Point2D :=
      ⟨lastPt.x + lastN.x * offset, lastPt.y + lastN.y * offset⟩
    [{ points := first :: interior ++ [last], closed := false }]

/-- `offsetPolyline`: zero offset or degenerate input passes through. -/
def offsetPolyline (polyline : Polyline) (offset : ℝ) : List Polyline :=
  if offset = 0 then [polyline]
  else if polyline.points.length < 2 then [polyline]
  else if polyline.closed then offsetClosedPolyline polyline offset
  else offsetOpenPolyline polyline offset

/-- `offsetForTool`: offset every polyline by the tool radius. -/
def offsetForTool (polylines : List Polyline) (toolRadius : ℝ) :
    List Polyline :=
  if toolRadius = 0 then polylines
  else polylines.flatMap fun polyline => offsetPolyline polyline toolRadius

/-! ## Claim C6: zero offset is the identity -/

/-- **C6**: offsetting any polyline by distance 0 yields exactly `[P]`,
and `offsetForTool` with tool radius 0 returns the input list unchanged. -/
theorem C6_offset_zero_identity :
    (∀ P : Polyline, offsetPolyline P 0 = [P]) ∧
      (∀ ps : List Polyline, offsetForTool ps 0 = ps) := by
  constructor
  · intro P; simp [offsetPolyline]
  · intro ps; simp [offsetForTool]

/-! ## Claim C7: collinear polylines simplify to their endpoints -/

/-- The max-scan of `douglasPeucker` stays below `ε` when every interior
point is within `ε` of the end chord. -/
theorem dpMaxScan_le (points : List Point2D) (first last : Point2D) (ε : ℝ)
    (hε : 0 ≤ ε)
    (h : ∀ i, 1 ≤ i → i ≤ points.length - 2 →
      perpendicularDistance (points.getD i dummyPt2) first last ≤ ε) :
    (dpMaxScan points first last).1 ≤ ε := by
  unfold dpMaxScan
  have key : ∀ (l : List ℕ) (acc : ℝ × ℕ), acc.1 ≤ ε →
      (∀ k ∈ l, perpendicularDistance (points.getD (k + 1) dummyPt2)
        first last ≤ ε) →
      (l.foldl (fun acc k =>
        let i := k + 1
        let dist := perpendicularDistance (points.getD i dummyPt2) first last
        if dist > acc.1 then (dist, i) else acc) acc).1 ≤ ε := by
    intro l
    induction l with
    | nil => intro acc hacc _; simpa using hacc
    | cons k rest ih =>
      intro acc hacc hall
      simp only [List.foldl_cons]
      apply ih
      · dsimp only
        by_cases hgt : perpendicularDistance (points.getD (k + 1) dummyPt2)
            first last > acc.1
        · rw [if_pos hgt]
          exact hall k (List.mem_cons_self k rest)
        · rw [if_neg hgt]
          exact hacc
      · intro k' hk'; exact hall k' (by simp [hk'])
  apply key _ _ hε
  intro k hk
  rw [List.mem_range] at hk
  exact h (k + 1) (by omega) (by omega)

/-- **C7**: a polyline whose interior points all lie within `ε` of the
chord joining its endpoints simplifies to exactly those two endpoints,
regardless of how many points the input has. -/
theorem C7_collinear_simplifies (P : Polyline) (ε : ℝ) (hε : 0 ≤ ε)
    (hlen : 2 ≤ P.points.length)
    (h : ∀ i, 1 ≤ i → i ≤ P.points.length - 2 →
      perpendicularDistance (P.points.getD i dummyPt2)
        (P.points.getD 0 dummyPt2)
        (P.points.getD (P.points.length - 1) dummyPt2) ≤ ε) :
    simplifyPolyline P ε =
      { points := [P.points.getD 0 dummyPt2,
          P.points.getD (P.points.length - 1) dummyPt2]
        closed := P.closed } := by
  unfold simplifyPolyline
  by_cases hle : P.points.length ≤ 2
  · rw [if_pos hle]
    have h2 : P.points.length = 2 := le_antisymm hle hlen
    obtain ⟨pts, cl⟩ := P
    simp only at h2 ⊢
    match pts, h2 with
    | [a, b], _ => simp [List.getD]
  · rw [if_neg hle]
    have hscan := dpMaxScan_le P.points (P.points.getD 0 dummyPt2)
      (P.points.getD (P.points.length - 1) dummyPt2) ε hε h
    have key : douglasPeucker P.points.length P.points ε =
        [P.points.getD 0 dummyPt2,
          P.points.getD (P.points.length - 1) dummyPt2] := by
      obtain ⟨m, hm⟩ : ∃ m, P.points.length = m + 1 :=
        ⟨P.points.length - 1, by omega⟩
      conv in douglasPeucker P.points.length => rw [hm]
      simp only [douglasPeucker]
      rw [if_neg hle, if_neg (not_lt.mpr hscan)]
    rw [key]

/-! ## Travel optimizer (`src/lib/engine/path/optimizer.ts`) -/

/-- Placeholder polyline modeling an out-of-bounds array read. -/
def dummyPoly : Polyline := ⟨[], false⟩

/-- Machine home `(0, 0)`. -/
def origin2 : Point2D := ⟨0, 0⟩

/-- `startOf`: where the rapid approaches (`poly.points[0]`). -/
def startOf (poly : Polyline) : Point2D := poly.points.getD 0 dummyPt2

/-- `endOf`: where the tool finishes
(`poly.points[poly.points.length - 1]`). -/
def endOf (poly : Polyline) : Point2D :=
  poly.points.getD (poly.points.length - 1) dummyPt2

/-- `computeRapidDistance`: total rapid travel distance from machine home
`(0,0)`, end of each polyline to start of the next, skipping polylines
with no points. -/
def computeRapidDistance (polylines : List Polyline) : ℝ :=
  (polylines.foldl
    (fun acc poly =>
      if poly.points.length = 0 then acc
      else (acc.1 + distance2D acc.2 (startOf poly), endOf poly))
    ((0 : ℝ), origin2)).1

/-- `d < bestDist` where `none` stands for the initial `Infinity`. -/
def ltInf (d : ℝ) (m : Option ℝ) : Prop :=
  match m with
  | none => True
  | some v => d < v

/-- Greedy scan state: best candidate index (`none` = `-1`), its distance
(`none` = `Infinity`) and whether it is taken reversed. -/
structure BestSel where
  bestIdx : Option ℕ
  bestDist : Option ℝ
  bestReversed : Bool

/-- One iteration of the greedy inner scan of `optimizePathOrder`:
consider polyline `i` (skipped when used or empty) by its start, and, for
open polylines, by its reversed start. -/
def greedyScanStep (polylines : List Polyline) (used : List Bool)
    (currentEnd : Point2D) (acc : BestSel) (i : ℕ) : BestSel :=
  if used.getD i false then acc
  else
    let poly := polylines.getD i dummyPoly
    if poly.points.length = 0 then acc
    else
      let distToStart := distance2D currentEnd (startOf poly)
      let acc1 := if ltInf distToStart acc.bestDist then
          ⟨some i, some distToStart, false⟩ else acc
      let distToEnd := distance2D currentEnd (endOf poly)
      if poly.closed = false ∧ ltInf distToEnd acc1.bestDist then
        ⟨some i, some distToEnd, true⟩ else acc1

/-- The full greedy inner scan over all polyline indices. -/
def greedyScan (polylines : List Polyline) (used : List Bool)
    (currentEnd : Point2D) : BestSel :=
  (List.range polylines.length).foldl
    (greedyScanStep polylines used currentEnd) ⟨none, none, false⟩

/-- The greedy outer loop of `optimizePathOrder` (phase 1); the fuel is
the step count `polylines.length`. -/
def greedyLoop (polylines : List Polyline) :
    ℕ → List Bool → List Polyline → Point2D → List Polyline
  | 0, _, result, _ => result
  | fuel + 1, used, result, currentEnd =>
    let sel := greedyScan polylines used currentEnd
    match sel.bestIdx with
    | none => result
    | some bi =>
      let poly0 := polylines.getD bi dummyPoly
      let poly := if sel.bestReversed then
          (⟨poly0.points.reverse, poly0.closed⟩ : Polyline) else poly0
      greedyLoop polylines fuel (used.set bi true) (result ++ [poly])
        (endOf poly)

/-- Phase 1 of `optimizePathOrder`: greedy nearest-neighbor ordering. -/
def greedyOrder (polylines : List Polyline) : List Polyline :=
  greedyLoop polylines polylines.length
    (List.replicate polylines.length false) [] origin2

/-- `reverseSubPoly`: reversed-direction version for cost calculation
(closed polylines keep their winding). -/
def reverseSubPoly (poly : Polyline) : Polyline :=
  if poly.closed then poly else ⟨poly.points.reverse, false⟩

/-- `segmentTravelCost`: travel cost inside the sub-sequence `[i..j]`. -/
def segmentTravelCost (order : List Polyline) (i j : ℕ) : ℝ :=
  ((List.range (j - i)).map fun k =>
    distance2D (endOf (order.getD (i + k) dummyPoly))
      (startOf (order.getD (i + k + 1) dummyPoly))).sum

/-- `segmentTravelCostReversed`: travel cost inside the reversed
sub-sequence (`order[j]` first, each open polyline itself reversed). -/
def segmentTravelCostReversed (order : List Polyline) (i j : ℕ) : ℝ :=
  ((List.range (j - i)).map fun k =>
    distance2D (endOf (reverseSubPoly (order.getD (j - k) dummyPoly)))
      (startOf (reverseSubPoly (order.getD (j - k - 1) dummyPoly)))).sum

/-- `reverseSubSequence`: reverse the order of `order[i..j]`, also
reversing each open polyline's own point order. -/
def reverseSubSequence (order : List Polyline) (i j : ℕ) : List Polyline :=
  order.take i ++ ((order.drop i).take (j - i + 1)).reverse.map reverseSubPoly
    ++ order.drop (j + 1)

/-- The broken-edge costs computed by the 2-opt inner loop for the pair
`(i, j)`: current cost and cost after reversing `[i..j]`. -/
def twoOptCosts (n : ℕ) (order : List Polyline) (ij : ℕ × ℕ) : ℝ × ℝ :=
  let i := ij.1
  let j := ij.2
  let prevEnd := if i = 0 then origin2 else endOf (order.getD (i - 1) dummyPoly)
  let nextStart : Option Point2D :=
    if j = n - 1 then none else some (startOf (order.getD (j + 1) dummyPoly))
  let currentCost :=
    distance2D prevEnd (startOf (order.getD i dummyPoly)) +
      segmentTravelCost order i j +
      (match nextStart with
       | none => 0
       | some p => distance2D (endOf (order.getD j dummyPoly)) p)
  let reversedCost :=
    distance2D prevEnd (startOf (reverseSubPoly (order.getD j dummyPoly))) +
      segmentTravelCostReversed order i j +
      (match nextStart with
       | none => 0
       | some p => distance2D (endOf (reverseSubPoly (order.getD i dummyPoly))) p)
  (currentCost, reversedCost)

/-- One index pair of a 2-opt pass: apply the reversal immediately when it
improves by more than `0.001`. -/
def twoOptPairStep (n : ℕ) (st : List Polyline × Bool) (ij : ℕ × ℕ) :
    List Polyline × Bool :=
  let c := twoOptCosts n st.1 ij
  if c.2 < c.1 - 0.001 then (reverseSubSequence st.1 ij.1 ij.2, true) else st

/-- All index pairs `(i, j)` with `i < j < n`, in scan order. -/
def pairList (n : ℕ) : List (ℕ × ℕ) :=
  (List.range (n - 1)).flatMap fun i =>
    (List.range (n - 1 - i)).map fun k => (i, i + 1 + k)

/-- One full 2-opt pass (the doubly nested `for` loops); returns the new
order and whether any move was applied. -/
def twoOptPass (n : ℕ) (order : List Polyline) : List Polyline × Bool :=
  (pairList n).foldl (twoOptPairStep n) (order, false)

/-- The `while (improved && passes < maxPasses)` loop of `twoOptRefine`. -/
def twoOptLoop (n : ℕ) : ℕ → List Polyline → List Polyline
  | 0, order => order
  | fuel + 1, order =>
    let res := twoOptPass n order
    if res.2 then twoOptLoop n fuel res.1 else res.1

/-- `twoOptRefine`: bounded 2-opt local search, at most
`min 20 order.length` passes. -/
def twoOptRefine (order : List Polyline) : List Polyline :=
  twoOptLoop order.length (min 20 order.length) order

/-- `optimizePathOrder`: greedy seed then (for more than 3 paths) 2-opt
refinement. -/
def optimizePathOrder (polylines : List Polyline) : List Polyline :=
  if polylines.length ≤ 1 then polylines
  else
    let result := greedyOrder polylines
    if result.length > 3 then twoOptRefine result else result

/-- Modelled from the spec: the claimed per-pass behavior "apply best
improving move per pass" — each pass evaluates all index pairs against the
pass-start order and applies only the single best reversal improving by
more than `0.001`, stopping when none improves; used only to compare with
the implemented `twoOptRefine`. -/
def twoOptBestMove (n : ℕ) (order : List Polyline) : Option (ℕ × ℕ) :=
  ((pairList n).foldl
    (fun best ij =>
      let c := twoOptCosts n order ij
      let gain := c.1 - c.2
      match best with
      | none => if gain > 0.001 then some (ij, gain) else none
      | some bg => if gain > bg.2 then some (ij, gain) else best)
    none).map Prod.fst

/-- Modelled from the spec: pass loop applying one best move per pass. -/
def twoOptSpecLoop (n : ℕ) : ℕ → List Polyline → List Polyline
  | 0, order => order
  | fuel + 1, order =>
    match twoOptBestMove n order with
    | none => order
    | some ij => twoOptSpecLoop n fuel (reverseSubSequence order ij.1 ij.2)

/-- Modelled from the spec: "apply best improving move per pass; stop
after no improvement or min(20,n) passes". -/
def twoOptRefineBestPerPass (order : List Polyline) : List Polyline :=
  twoOptSpecLoop order.length (min 20 order.length) order

/-! ### Cost bookkeeping for the 2-opt proofs -/

/-- Travel cost of a run of polylines starting from `prev`. -/
def costFrom (prev : Point2D) : List Polyline → ℝ
  | [] => 0
  | p :: rest => distance2D prev (startOf p) + costFrom (endOf p) rest

/-- The cursor position after running a list of polylines from `prev`. -/
def chainEnd (prev : Point2D) : List Polyline → Point2D
  | [] => prev
  | p :: rest => chainEnd (endOf p) rest

/-- Internal travel cost of a run (between consecutive members only). -/
def internalCost : List Polyline → ℝ
  | [] => 0
  | [_] => 0
  | p :: q :: rest => distance2D (endOf p) (startOf q) + internalCost (q :: rest)

theorem costFrom_append (l1 l2 : List Polyline) (prev : Point2D) :
    costFrom prev (l1 ++ l2) = costFrom prev l1 + costFrom (chainEnd prev l1) l2 := by
  induction l1 generalizing prev with
  | nil => simp [costFrom, chainEnd]
  | cons p rest ih => simp [costFrom, chainEnd, ih, add_assoc]

theorem chainEnd_ne_nil (l : List Polyline) (prev : Point2D) (h : l ≠ []) :
    chainEnd prev l = endOf (l.getD (l.length - 1) dummyPoly) := by
  induction l generalizing prev with
  | nil => exact absurd rfl h
  | cons p rest ih =>
    cases rest with
    | nil => simp [chainEnd, List.getD]
    | cons q r =>
      rw [chainEnd, ih _ (by simp)]
      simp [List.getD]

theorem costFrom_cons_internal (p : Polyline) (rest : List Polyline)
    (prev : Point2D) :
    costFrom prev (p :: rest) =
      distance2D prev (startOf p) + internalCost (p :: rest) := by
  rw [costFrom]
  congr 1
  induction rest generalizing p with
  | nil => simp [costFrom, internalCost]
  | cons q r ih => rw [costFrom, internalCost, ih q]

/-- `computeRapidDistance` agrees with `costFrom` from home whenever no
polyline is empty. -/
theorem computeRapidDistance_eq_costFrom (l : List Polyline)
    (h : ∀ p ∈ l, p.points ≠ []) :
    computeRapidDistance l = costFrom origin2 l := by
  have key : ∀ (l : List Polyline) (a : ℝ) (pt : Point2D),
      (∀ p ∈ l, p.points ≠ []) →
      (l.foldl (fun acc poly =>
        if poly.points.length = 0 then acc
        else (acc.1 + distance2D acc.2 (startOf poly), endOf poly))
        (a, pt)).1 = a + costFrom pt l := by
    intro l
    induction l with
    | nil => intro a pt _; simp [costFrom]
    | cons p rest ih =>
      intro a pt hall
      have hp : p.points ≠ [] := hall p (by simp)
      have hlen : ¬p.points.length = 0 := by simpa using hp
      simp only [List.foldl_cons, if_neg hlen]
      rw [ih _ _ (fun q hq => hall q (by simp [hq])), costFrom, add_assoc]
  unfold computeRapidDistance
  simpa using key l 0 origin2 h

theorem costFrom_ne_nil (l : List Polyline) (prev : Point2D) (h : l ≠ []) :
    costFrom prev l =
      distance2D prev (startOf (l.getD 0 dummyPoly)) + internalCost l := by
  cases l with
  | nil => exact absurd rfl h
  | cons p rest => rw [costFrom_cons_internal]; simp [List.getD]

theorem internalCost_cons (p : Polyline) (l : List Polyline) (h : l ≠ []) :
    internalCost (p :: l) =
      distance2D (endOf p) (startOf (l.getD 0 dummyPoly)) + internalCost l := by
  cases l with
  | nil => exact absurd rfl h
  | cons q rest => rw [internalCost]; simp [List.getD]

theorem slice_length (order : List Polyline) (i m : ℕ)
    (h : i + m < order.length) :
    ((order.drop i).take (m + 1)).length = m + 1 := by
  simp only [List.length_take, List.length_drop]
  omega

theorem slice_getD (order : List Polyline) (i m k : ℕ) (hk : k ≤ m)
    (h : i + m < order.length) :
    ((order.drop i).take (m + 1)).getD k dummyPoly =
      order.getD (i + k) dummyPoly := by
  have hk' : k < ((order.drop i).take (m + 1)).length := by
    rw [slice_length order i m h]; omega
  rw [List.getD_eq_getElem _ _ hk',
    List.getD_eq_getElem _ _ (by omega : i + k < order.length)]
  rw [List.getElem_take, List.getElem_drop]

theorem slice_cons (order : List Polyline) (i m : ℕ)
    (h : i + m + 1 < order.length) :
    (order.drop i).take (m + 2) =
      order.getD i dummyPoly :: (order.drop (i + 1)).take (m + 1) := by
  rw [List.getD_eq_getElem _ _ (by omega : i < order.length)]
  rw [List.drop_eq_getElem_cons (by omega : i < order.length)]
  rfl

theorem slice_one (order : List Polyline) (i : ℕ) (h : i < order.length) :
    (order.drop i).take 1 = [order.getD i dummyPoly] := by
  rw [List.getD_eq_getElem _ _ h, List.drop_eq_getElem_cons h]
  rfl

theorem segCost_rec (order : List Polyline) (i j : ℕ) (h : i < j) :
    segmentTravelCost order i j =
      distance2D (endOf (order.getD i dummyPoly))
          (startOf (order.getD (i + 1) dummyPoly)) +
        segmentTravelCost order (i + 1) j := by
  unfold segmentTravelCost
  obtain ⟨m, hm⟩ : ∃ m, j - i = m + 1 := ⟨j - i - 1, by omega⟩
  rw [hm, List.range_succ_eq_map]
  simp only [List.map_cons, List.map_map, List.sum_cons]
  have h2 : j - (i + 1) = m := by omega
  rw [h2]
  have hmap : ∀ k ∈ List.range m,
      ((fun k => distance2D (endOf (order.getD (i + k) dummyPoly))
        (startOf (order.getD (i + k + 1) dummyPoly))) ∘ Nat.succ) k =
      (fun k => distance2D (endOf (order.getD (i + 1 + k) dummyPoly))
        (startOf (order.getD (i + 1 + k + 1) dummyPoly))) k := by
    intro k _
    simp only [Function.comp_apply]
    rw [show i + (k + 1) = i + 1 + k from by omega]
  rw [List.map_congr_left hmap]
  norm_num

theorem segRev_rec (order : List Polyline) (i j : ℕ) (h : i < j) :
    segmentTravelCostReversed order i j =
      distance2D (endOf (reverseSubPoly (order.getD j dummyPoly)))
          (startOf (reverseSubPoly (order.getD (j - 1) dummyPoly))) +
        segmentTravelCostReversed order i (j - 1) := by
  unfold segmentTravelCostReversed
  obtain ⟨m, hm⟩ : ∃ m, j - i = m + 1 := ⟨j - i - 1, by omega⟩
  rw [hm, List.range_succ_eq_map]
  simp only [List.map_cons, List.map_map, List.sum_cons]
  have h2 : j - 1 - i = m := by omega
  rw [h2]
  have hmap : ∀ k ∈ List.range m,
      ((fun k => distance2D (endOf (reverseSubPoly (order.getD (j - k) dummyPoly)))
        (startOf (reverseSubPoly (order.getD (j - k - 1) dummyPoly)))) ∘
          Nat.succ) k =
      (fun k => distance2D
        (endOf (reverseSubPoly (order.getD (j - 1 - k) dummyPoly)))
        (startOf (reverseSubPoly (order.getD (j - 1 - k - 1) dummyPoly)))) k := by
    intro k _
    simp only [Function.comp_apply]
    rw [show j - (k + 1) = j - 1 - k from by omega]
  rw [List.map_congr_left hmap]
  norm_num

theorem internal_slice (order : List Polyline) :
    ∀ (m i : ℕ), i + m < order.length →
      segmentTravelCost order i (i + m) =
        internalCost ((order.drop i).take (m + 1)) := by
  intro m
  induction m with
  | zero =>
    intro i h
    rw [slice_one order i (by omega)]
    simp [segmentTravelCost, internalCost]
  | succ m ih =>
    intro i h
    rw [segCost_rec order i (i + (m + 1)) (by omega)]
    rw [slice_cons order i m (by omega)]
    have hm : i + (m + 1) = (i + 1) + m := by omega
    rw [hm, ih (i + 1) (by omega)]
    have hne : (order.drop (i + 1)).take (m + 1) ≠ [] := by
      have := slice_length order (i + 1) m (by omega)
      intro hc; rw [hc] at this; simp at this
    rw [internalCost_cons _ _ hne]
    rw [slice_getD order (i + 1) m 0 (by omega) (by omega)]

theorem reverse_map_getD (S : List Polyline) (k : ℕ) (h : k < S.length) :
    (S.reverse.map reverseSubPoly).getD k dummyPoly =
      reverseSubPoly (S.getD (S.length - 1 - k) dummyPoly) := by
  have h1 : k < (S.reverse.map reverseSubPoly).length := by simpa using h
  rw [List.getD_eq_getElem _ _ h1,
    List.getD_eq_getElem _ _ (by omega : S.length - 1 - k < S.length)]
  rw [List.getElem_map, List.getElem_reverse]

theorem internal_slice_rev (order : List Polyline) :
    ∀ (m j : ℕ), j < order.length → m ≤ j →
      segmentTravelCostReversed order (j - m) j =
        internalCost
          ((((order.drop (j - m)).take (m + 1)).reverse).map reverseSubPoly) := by
  intro m
  induction m with
  | zero =>
    intro j hj _
    rw [Nat.sub_zero, slice_one order j hj]
    simp [segmentTravelCostReversed, internalCost]
  | succ m ih =>
    intro j hj hm
    rw [segRev_rec order (j - (m + 1)) j (by omega)]
    have hi : j - (m + 1) = (j - 1) - m := by omega
    rw [hi, ih (j - 1) (by omega) (by omega)]
    -- slice of length m+2 ending at j splits off its last element
    have htake : (order.drop (j - 1 - m)).take (m + 2) =
        (order.drop (j - 1 - m)).take (m + 1) ++ [order.getD j dummyPoly] := by
      rw [show m + 2 = (m + 1) + 1 from rfl, List.take_add, List.drop_drop]
      rw [show j - 1 - m + (m + 1) = j from by omega]
      rw [slice_one order j hj]
    have hj1 : j - 1 - m + m < order.length := by omega
    rw [htake]
    rw [List.reverse_append, List.map_append]
    simp only [List.reverse_cons, List.reverse_nil, List.nil_append,
      List.map_cons, List.map_nil, List.cons_append, List.nil_append]
    have hne : (((order.drop (j - 1 - m)).take (m + 1)).reverse).map
        reverseSubPoly ≠ [] := by
      apply List.ne_nil_of_length_pos
      simp only [List.length_map, List.length_reverse]
      rw [slice_length order (j - 1 - m) m hj1]
      omega
    rw [internalCost_cons _ _ hne]
    congr 2
    rw [reverse_map_getD _ _
      (by rw [slice_length order (j - 1 - m) m hj1]; omega)]
    rw [slice_length order (j - 1 - m) m hj1]
    rw [show m + 1 - 1 - 0 = m from by omega]
    rw [slice_getD order (j - 1 - m) m m (le_refl m) hj1]
    rw [show j - 1 - m + m = j - 1 from by omega]

theorem getD_drop (order : List Polyline) (i : ℕ) (h : i < order.length) :
    (order.drop i).getD 0 dummyPoly = order.getD i dummyPoly := by
  have h0 : 0 < (order.drop i).length := by rw [List.length_drop]; omega
  rw [List.getD_eq_getElem _ _ h0, List.getD_eq_getElem _ _ h,
    List.getElem_drop]
  simp

theorem getD_take (order : List Polyline) (i k : ℕ) (hk : k < i)
    (h : k < order.length) :
    (order.take i).getD k dummyPoly = order.getD k dummyPoly := by
  have h0 : k < (order.take i).length := by rw [List.length_take]; omega
  rw [List.getD_eq_getElem _ _ h0, List.getD_eq_getElem _ _ h,
    List.getElem_take]

/-- Reversing `order[i..j]` (open polylines internally reversed) changes
the total travel cost by exactly `reversedCost - currentCost`, the local
quantities computed by the 2-opt inner loop. -/
theorem reversal_cost_identity (order : List Polyline) (i j : ℕ)
    (hij : i ≤ j) (hj : j < order.length) :
    costFrom origin2 (reverseSubSequence order i j) =
      costFrom origin2 order -
        (twoOptCosts order.length order (i, j)).1 +
        (twoOptCosts order.length order (i, j)).2 := by
  have hm : j - i + 1 = (j - i) + 1 := rfl
  set m := j - i with hmdef
  set A := order.take i with hA
  set S := (order.drop i).take (m + 1) with hS
  set B := order.drop (j + 1) with hB
  have him : i + m < order.length := by omega
  have hSlen : S.length = m + 1 := slice_length order i m him
  have hSne : S ≠ [] := List.ne_nil_of_length_pos (by omega)
  have hdecomp : order = A ++ (S ++ B) := by
    rw [hA, hS, hB]
    conv in List.drop (j + 1) order => rw [show j + 1 = i + (m + 1) from by omega]
    rw [← List.drop_drop, List.take_append_drop, List.take_append_drop]
  have hrev : reverseSubSequence order i j =
      A ++ (S.reverse.map reverseSubPoly ++ B) := by
    rw [reverseSubSequence, hA, hS, hB, hmdef, List.append_assoc]
  set S' := S.reverse.map reverseSubPoly with hS'
  have hS'len : S'.length = m + 1 := by
    rw [hS', List.length_map, List.length_reverse, hSlen]
  have hS'ne : S' ≠ [] := List.ne_nil_of_length_pos (by omega)
  set pA := chainEnd origin2 A with hpA
  -- the cursor entering the reversed block
  have hprev : pA = if i = 0 then origin2
      else endOf (order.getD (i - 1) dummyPoly) := by
    by_cases h0 : i = 0
    · simp [hpA, hA, h0, chainEnd]
    · rw [if_neg h0, hpA, chainEnd_ne_nil _ _ (by
        apply List.ne_nil_of_length_pos
        rw [hA, List.length_take]
        omega)]
      congr 1
      rw [hA]
      have hlen : (order.take i).length = i := by
        rw [List.length_take]; omega
      rw [hlen, getD_take order i (i - 1) (by omega) (by omega)]
  -- head/last elements of the two middle blocks
  have hheadS : S.getD 0 dummyPoly = order.getD i dummyPoly := by
    rw [hS, slice_getD order i m 0 (by omega) him]
    norm_num
  have hlastS : S.getD m dummyPoly = order.getD j dummyPoly := by
    rw [hS, slice_getD order i m m (le_refl m) him,
      show i + m = j from by omega]
  have hheadS' : S'.getD 0 dummyPoly =
      reverseSubPoly (order.getD j dummyPoly) := by
    rw [hS', reverse_map_getD S 0 (by omega), hSlen,
      show m + 1 - 1 - 0 = m from by omega, hlastS]
  have hlastS' : S'.getD m dummyPoly =
      reverseSubPoly (order.getD i dummyPoly) := by
    rw [hS', reverse_map_getD S m (by omega), hSlen,
      show m + 1 - 1 - m = 0 from by omega, hheadS]
  have hchainS : chainEnd pA S = endOf (order.getD j dummyPoly) := by
    rw [chainEnd_ne_nil S pA hSne, hSlen,
      show m + 1 - 1 = m from by omega, hlastS]
  have hchainS' : chainEnd pA S' =
      endOf (reverseSubPoly (order.getD i dummyPoly)) := by
    rw [chainEnd_ne_nil S' pA hS'ne, hS'len,
      show m + 1 - 1 = m from by omega, hlastS']
  -- middle-block costs
  have hcostS : costFrom pA S =
      distance2D pA (startOf (order.getD i dummyPoly)) +
        segmentTravelCost order i j := by
    rw [costFrom_ne_nil S pA hSne, hheadS]
    congr 1
    rw [show j = i + m from by omega, internal_slice order m i him, hS]
  have hcostS' : costFrom pA S' =
      distance2D pA (startOf (reverseSubPoly (order.getD j dummyPoly))) +
        segmentTravelCostReversed order i j := by
    rw [costFrom_ne_nil S' pA hS'ne, hheadS']
    congr 1
    have := internal_slice_rev order m j hj (by omega)
    rw [show j - m = i from by omega] at this
    rw [hS', hS, ← this]
  -- expand both totals
  have hTot : costFrom origin2 order =
      costFrom origin2 A + costFrom pA S + costFrom (chainEnd pA S) B := by
    conv in costFrom origin2 order => rw [hdecomp]
    rw [costFrom_append, costFrom_append, ← hpA, add_assoc]
  have hTot' : costFrom origin2 (reverseSubSequence order i j) =
      costFrom origin2 A + costFrom pA S' + costFrom (chainEnd pA S') B := by
    rw [hrev, costFrom_append, costFrom_append, ← hpA, add_assoc]
  rw [hTot, hTot']
  simp only [twoOptCosts]
  rw [← hprev]
  by_cases hBnil : j = order.length - 1
  · have hBempty : B = [] := by
      rw [hB]
      apply List.drop_eq_nil_of_le
      omega
    rw [if_pos hBnil, hBempty]
    simp only [costFrom]
    rw [hcostS, hcostS']
    ring
  · have hj1 : j + 1 < order.length := by omega
    have hBne : B ≠ [] := by
      apply List.ne_nil_of_length_pos
      rw [hB, List.length_drop]
      omega
    have hheadB : B.getD 0 dummyPoly = order.getD (j + 1) dummyPoly := by
      rw [hB, getD_drop order (j + 1) hj1]
    rw [if_neg hBnil]
    rw [costFrom_ne_nil B _ hBne, costFrom_ne_nil B _ hBne, hheadB,
      hchainS, hchainS', hcostS, hcostS']
    ring

theorem reverseSubSequence_length (order : List Polyline) (i j : ℕ)
    (hij : i ≤ j) (hj : j < order.length) :
    (reverseSubSequence order i j).length = order.length := by
  simp only [reverseSubSequence, List.length_append, List.length_map,
    List.length_reverse, List.length_take, List.length_drop]
  omega

theorem reverseSubPoly_points_ne_nil (p : Polyline) (h : p.points ≠ []) :
    (reverseSubPoly p).points ≠ [] := by
  unfold reverseSubPoly
  split
  · exact h
  · simpa using h

theorem mem_reverseSubSequence (order : List Polyline) (i j : ℕ)
    (p : Polyline) (hp : p ∈ reverseSubSequence order i j) :
    p ∈ order ∨ ∃ q ∈ order, p = reverseSubPoly q := by
  simp only [reverseSubSequence, List.mem_append] at hp
  rcases hp with (hp | hp) | hp
  · exact Or.inl (List.mem_of_mem_take hp)
  · rw [List.mem_map] at hp
    obtain ⟨q, hq, hpq⟩ := hp
    rw [List.mem_reverse] at hq
    exact Or.inr ⟨q, List.mem_of_mem_drop (List.mem_of_mem_take hq), hpq.symm⟩
  · exact Or.inl (List.mem_of_mem_drop hp)

theorem mem_pairList (n : ℕ) (ij : ℕ × ℕ) (h : ij ∈ pairList n) :
    ij.1 < ij.2 ∧ ij.2 < n := by
  simp only [pairList, List.mem_flatMap, List.mem_map, List.mem_range] at h
  obtain ⟨i, hi, k, hk, rfl⟩ := h
  constructor <;> simp <;> omega

theorem twoOptPairStep_props (n : ℕ) (st : List Polyline × Bool)
    (ij : ℕ × ℕ) (hlen : st.1.length = n) (hij : ij.1 < ij.2) (hj : ij.2 < n) :
    costFrom origin2 (twoOptPairStep n st ij).1 ≤ costFrom origin2 st.1 ∧
      (twoOptPairStep n st ij).1.length = n ∧
      ((∀ p ∈ st.1, p.points ≠ []) →
        ∀ p ∈ (twoOptPairStep n st ij).1, p.points ≠ []) := by
  unfold twoOptPairStep
  by_cases hc : (twoOptCosts n st.1 ij).2 < (twoOptCosts n st.1 ij).1 - 0.001
  · rw [if_pos hc]
    have hj' : ij.2 < st.1.length := by omega
    have hid := reversal_cost_identity st.1 ij.1 ij.2 (le_of_lt hij) hj'
    rw [hlen] at hid
    refine ⟨?_, ?_, ?_⟩
    · rw [show (ij.1, ij.2) = ij from rfl] at hid
      simp only [hid]
      linarith
    · simp only
      rw [reverseSubSequence_length st.1 ij.1 ij.2 (le_of_lt hij) hj', hlen]
    · intro hne p hp
      rcases mem_reverseSubSequence st.1 ij.1 ij.2 p hp with h | ⟨q, hq, rfl⟩
      · exact hne p h
      · exact reverseSubPoly_points_ne_nil q (hne q hq)
  · rw [if_neg hc]
    exact ⟨le_refl _, hlen, fun hne => hne⟩

theorem twoOptPass_fold (n : ℕ) (L : List (ℕ × ℕ))
    (hL : ∀ ij ∈ L, ij.1 < ij.2 ∧ ij.2 < n) :
    ∀ (st : List Polyline × Bool), st.1.length = n →
      (∀ p ∈ st.1, p.points ≠ []) →
      costFrom origin2 (L.foldl (twoOptPairStep n) st).1 ≤
          costFrom origin2 st.1 ∧
        (L.foldl (twoOptPairStep n) st).1.length = n ∧
        (∀ p ∈ (L.foldl (twoOptPairStep n) st).1, p.points ≠ []) := by
  induction L with
  | nil => intro st hlen hne; exact ⟨le_refl _, hlen, hne⟩
  | cons ij rest ih =>
    intro st hlen hne
    obtain ⟨h1, h2⟩ := hL ij (by simp)
    obtain ⟨hc, hl, hn⟩ := twoOptPairStep_props n st ij hlen h1 h2
    have hn' := hn hne
    obtain ⟨ihc, ihl, ihn⟩ := ih (fun q hq => hL q (by simp [hq]))
      (twoOptPairStep n st ij) hl hn'
    exact ⟨le_trans ihc hc, ihl, ihn⟩

theorem twoOptLoop_props (n : ℕ) :
    ∀ (fuel : ℕ) (order : List Polyline), order.length = n →
      (∀ p ∈ order, p.points ≠ []) →
      costFrom origin2 (twoOptLoop n fuel order) ≤ costFrom origin2 order ∧
        (∀ p ∈ twoOptLoop n fuel order, p.points ≠ []) := by
  intro fuel
  induction fuel with
  | zero => intro order _ hne; exact ⟨le_refl _, hne⟩
  | succ fuel ih =>
    intro order hlen hne
    rw [twoOptLoop]
    obtain ⟨hc, hl, hn⟩ := twoOptPass_fold n (pairList n)
      (fun ij hij => mem_pairList n ij hij) (order, false) hlen hne
    by_cases himp : (twoOptPass n order).2
    · rw [if_pos himp]
      obtain ⟨ihc, ihn⟩ := ih (twoOptPass n order).1 hl hn
      exact ⟨le_trans ihc hc, ihn⟩
    · rw [if_neg himp]
      exact ⟨hc, hn⟩

/-! ## Claims C1 and C9 -/

/-- A one-point open polyline on the x-axis. -/
def ptPoly (x : ℝ) : Polyline := ⟨[⟨x, 0⟩], false⟩

/-- **C1** (evidence of the regression): on the three one-point polylines
at x = −3/2, 1, 2 (in this order), the input order costs 5 but the greedy
seed picks 1, then 2, then −3/2, costing 11/2 — `optimizePathOrder`
regresses versus the unoptimized order. -/
theorem C1_optimizer_regresses :
    computeRapidDistance [ptPoly (-3/2), ptPoly 1, ptPoly 2] = 5 ∧
      computeRapidDistance
        (optimizePathOrder [ptPoly (-3/2), ptPoly 1, ptPoly 2]) = 11/2 ∧
      ¬ computeRapidDistance
          (optimizePathOrder [ptPoly (-3/2), ptPoly 1, ptPoly 2]) ≤
        computeRapidDistance [ptPoly (-3/2), ptPoly 1, ptPoly 2] := by
  have hopt : optimizePathOrder [ptPoly (-3/2), ptPoly 1, ptPoly 2] =
      [ptPoly 1, ptPoly 2, ptPoly (-3/2)] := by
    norm_num [optimizePathOrder, greedyOrder, greedyLoop, greedyScan,
      greedyScanStep, ltInf, startOf, endOf, ptPoly, List.getD,
      distance2D_axis, twoOptRefine, origin2, dummyPoly, List.replicate,
      show List.range 3 = [0, 1, 2] from rfl,
      abs_of_nonneg, abs_of_nonpos]
  have h1 : computeRapidDistance [ptPoly (-3/2), ptPoly 1, ptPoly 2] = 5 := by
    norm_num [computeRapidDistance, ptPoly, startOf, endOf, origin2,
      List.getD, distance2D_axis, abs_of_nonneg, abs_of_nonpos]
  have h2 : computeRapidDistance [ptPoly 1, ptPoly 2, ptPoly (-3/2)] =
      11/2 := by
    norm_num [computeRapidDistance, ptPoly, startOf, endOf, origin2,
      List.getD, distance2D_axis, abs_of_nonneg, abs_of_nonpos]
  refine ⟨h1, by rw [hopt]; exact h2, ?_⟩
  rw [hopt, h1, h2]
  norm_num

set_option maxHeartbeats 4000000 in
/-- **C9** (counterexample): on four one-point polylines at x = −3, −2,
4, 1, the implemented 2-opt applies every improving reversal as found
(first pass applies `(0,3)` and converges to `[1, 4, −2, −3]`), while the
claimed best-move-per-pass refinement applies `(2,3)` first and converges
to `[−3, −2, 1, 4]`: the implementation does not apply one best improving
move per pass. -/
theorem C9_counterexample :
    twoOptRefine [ptPoly (-3), ptPoly (-2), ptPoly 4, ptPoly 1] =
        [ptPoly 1, ptPoly 4, ptPoly (-2), ptPoly (-3)] ∧
      twoOptRefineBestPerPass [ptPoly (-3), ptPoly (-2), ptPoly 4, ptPoly 1] =
        [ptPoly (-3), ptPoly (-2), ptPoly 1, ptPoly 4] ∧
      twoOptRefine [ptPoly (-3), ptPoly (-2), ptPoly 4, ptPoly 1] ≠
        twoOptRefineBestPerPass
          [ptPoly (-3), ptPoly (-2), ptPoly 4, ptPoly 1] := by
  have h1 : twoOptRefine [ptPoly (-3), ptPoly (-2), ptPoly 4, ptPoly 1] =
      [ptPoly 1, ptPoly 4, ptPoly (-2), ptPoly (-3)] := by
    norm_num [twoOptRefine, twoOptLoop, twoOptPass, pairList, twoOptPairStep,
      twoOptCosts, segmentTravelCost, segmentTravelCostReversed,
      reverseSubSequence, reverseSubPoly, startOf, endOf, ptPoly, List.getD,
      distance2D_axis, origin2, dummyPoly,
      show List.range 4 = [0, 1, 2, 3] from rfl,
      show List.range 3 = [0, 1, 2] from rfl,
      show List.range 2 = [0, 1] from rfl,
      show List.range 1 = [0] from rfl,
      show List.range 0 = [] from rfl,
      abs_of_nonneg, abs_of_nonpos]
  have h2 : twoOptRefineBestPerPass
      [ptPoly (-3), ptPoly (-2), ptPoly 4, ptPoly 1] =
      [ptPoly (-3), ptPoly (-2), ptPoly 1, ptPoly 4] := by
    norm_num [twoOptRefineBestPerPass, twoOptSpecLoop, twoOptBestMove,
      pairList, twoOptCosts, segmentTravelCost, segmentTravelCostReversed,
      reverseSubSequence, reverseSubPoly, startOf, endOf, ptPoly, List.getD,
      distance2D_axis, origin2, dummyPoly,
      show List.range 4 = [0, 1, 2, 3] from rfl,
      show List.range 3 = [0, 1, 2] from rfl,
      show List.range 2 = [0, 1] from rfl,
      show List.range 1 = [0] from rfl,
      show List.range 0 = [] from rfl,
      abs_of_nonneg, abs_of_nonpos]
  refine ⟨h1, h2, ?_⟩
  rw [h1, h2]
  intro h
  simp only [ptPoly, List.cons.injEq, Polyline.mk.injEq,
    Point2D.mk.injEq] at h
  norm_num at h

/-- **C9** (amended): the implemented 2-opt applies every improving
reversal as it is found during the scan — each reducing the total cost by
more than 0.001mm — so the refined order's total rapid distance never
exceeds that of the order it was given. -/
theorem C9_twoOptRefine_never_increases_cost (order : List Polyline)
    (h : ∀ p ∈ order, p.points ≠ []) :
    computeRapidDistance (twoOptRefine order) ≤
      computeRapidDistance order := by
  obtain ⟨hc, hn⟩ := twoOptLoop_props order.length (min 20 order.length)
    order rfl h
  rw [twoOptRefine, computeRapidDistance_eq_costFrom _ h,
    computeRapidDistance_eq_costFrom _ hn]
  exact hc

/-- Witness for the amended C9 theorem. -/
theorem C9_twoOptRefine_never_increases_cost_witness :
    computeRapidDistance (twoOptRefine [ptPoly 3]) ≤
      computeRapidDistance [ptPoly 3] :=
  C9_twoOptRefine_never_increases_cost [ptPoly 3] (by simp [ptPoly])

/-! ## 2D toolpath ramp entry (`src/lib/engine/path/toolpath.ts`) -/

/-- Result of `createRampEntry`. -/
structure RampResult where
  plungePoints : List Point3D
  resumeIndex : ℕ

/-- First loop of `createRampEntry`: accumulate the XY length segment by
segment (`prev` = previous point, `i` = index of the last processed
point), breaking as soon as the accumulated length reaches `minRampXY`.
Returns `(availableXY, rampEndIdx)`. -/
def rampScan (minRampXY : ℝ) : Point2D → List Point2D → ℝ → ℕ → ℝ × ℕ
  | _, [], acc, i => (acc, i)
  | prev, q :: qs, acc, i =>
    let acc' := acc + distance2D prev q
    if acc' ≥ minRampXY then (acc', i + 1)
    else rampScan minRampXY q qs acc' (i + 1)

/-- Second loop of `createRampEntry`: build the ramp points with Z
interpolated proportionally to XY distance traveled, breaking once full
depth (`t ≥ 1`) is reached. -/
def rampBuild (rampXY totalDrop safeZ : ℝ) :
    Point2D → List Point2D → ℝ → List Point3D
  | _, [], _ => []
  | prev, q :: qs, distSoFar =>
    let distSoFar' := distSoFar + distance2D prev q
    let t := min (distSoFar' / rampXY) 1
    let z := safeZ - t * totalDrop
    if t ≥ 1 then [⟨q.x, q.y, z⟩]
    else ⟨q.x, q.y, z⟩ :: rampBuild rampXY totalDrop safeZ q qs distSoFar'

/-- The "ensure we reach full depth" fix-up of `createRampEntry`: force
the last point to `-cutDepth` when it is off by more than `0.001`. -/
def fixLast (cutDepth : ℝ) (l : List Point3D) : List Point3D :=
  match l.getLast? with
  | none => l
  | some p =>
    if |p.z - (-cutDepth)| > 0.001 then l.dropLast ++ [⟨p.x, p.y, -cutDepth⟩]
    else l

/-- `createRampEntry`: ramp entry along the first edges of a polyline,
falling back to a straight vertical plunge (the `plungeRate` argument is
accepted but unused, as in the source). -/
def createRampEntry (points : List Point2D) (cutDepth safeZ plungeRate : ℝ) :
    RampResult :=
  let totalDrop := safeZ + cutDepth
  let maxRampAngle := (3 : ℝ) * Real.pi / 180
  let minRampXY := totalDrop / Real.tan maxRampAngle
  let p0 := points.getD 0 dummyPt2
  let scan := rampScan minRampXY p0 (points.drop 1) 0 0
  let availableXY := scan.1
  let rampEndIdx := scan.2
  let needsStraightPlunge := points.length < 3 ∨ availableXY < totalDrop * 3 ∨
    rampEndIdx ≥ points.length - 1
  if needsStraightPlunge then
    { plungePoints := [⟨p0.x, p0.y, safeZ⟩, ⟨p0.x, p0.y, -cutDepth⟩]
      resumeIndex := 1 }
  else
    let rampXY := min availableXY minRampXY
    let built := rampBuild rampXY totalDrop safeZ p0
      ((points.drop 1).take rampEndIdx) 0
    { plungePoints := fixLast cutDepth (⟨p0.x, p0.y, safeZ⟩ :: built)
      resumeIndex := rampEndIdx + 1 }

/-- Cumulative XY length of the first `i` segments of a point list. -/
def cumLen (points : List Point2D) : ℕ → ℝ
  | 0 => 0
  | i + 1 => cumLen points i +
      distance2D (points.getD i dummyPt2) (points.getD (i + 1) dummyPt2)

theorem tan3_pos : 0 < Real.tan (3 * Real.pi / 180) := by
  apply Real.tan_pos_of_pos_of_lt_pi_div_two
  · positivity
  · have := Real.pi_pos
    nlinarith

theorem tan3_gt : 0.05 < Real.tan (3 * Real.pi / 180) := by
  have h1 : (0.05 : ℝ) < 3 * Real.pi / 180 := by
    have := Real.pi_gt_3141592
    nlinarith
  have h2 := Real.lt_tan (x := 3 * Real.pi / 180) (by positivity)
    (by have := Real.pi_pos; nlinarith)
  linarith

theorem tan3_lt : Real.tan (3 * Real.pi / 180) < 0.105 := by
  have hpi := Real.pi_pos
  have hpilt := Real.pi_lt_315
  have hx : (0 : ℝ) < 3 * Real.pi / 180 := by positivity
  have hsin : Real.sin (3 * Real.pi / 180) < 3 * Real.pi / 180 :=
    Real.sin_lt hx
  have hcos : Real.cos (Real.pi / 3) < Real.cos (3 * Real.pi / 180) := by
    apply Real.cos_lt_cos_of_nonneg_of_le_pi (by positivity) (by nlinarith)
    nlinarith
  rw [Real.cos_pi_div_three] at hcos
  have hcpos : (0 : ℝ) < Real.cos (3 * Real.pi / 180) := by linarith
  rw [Real.tan_eq_sin_div_cos, div_lt_iff hcpos]
  nlinarith

theorem drop_cons_pt (points : List Point2D) (i : ℕ) (h : i < points.length) :
    points.drop i = points.getD i dummyPt2 :: points.drop (i + 1) := by
  rw [List.getD_eq_getElem _ _ h, List.drop_eq_getElem_cons h]

theorem rampScan_nobreak_aux (points : List Point2D) (minR : ℝ) :
    ∀ (n i : ℕ), points.length - 1 - i = n → i < points.length →
      (∀ k, i < k → k ≤ points.length - 1 → cumLen points k < minR) →
      rampScan minR (points.getD i dummyPt2) (points.drop (i + 1))
          (cumLen points i) i =
        (cumLen points (points.length - 1), points.length - 1) := by
  intro n
  induction n with
  | zero =>
    intro i hn hi _
    have hi' : i = points.length - 1 := by omega
    rw [List.drop_eq_nil_of_le (by omega), rampScan, hi']
  | succ n ih =>
    intro i hn hi hall
    have hi1 : i + 1 < points.length := by omega
    rw [drop_cons_pt points (i + 1) hi1, rampScan]
    have hacc : cumLen points i +
        distance2D (points.getD i dummyPt2) (points.getD (i + 1) dummyPt2) =
        cumLen points (i + 1) := rfl
    simp only [hacc]
    rw [if_neg (not_le.mpr (hall (i + 1) (by omega) (by omega)))]
    exact ih (i + 1) (by omega) hi1 (fun k hk1 hk2 => hall k (by omega) hk2)

theorem rampScan_break_aux (points : List Point2D) (minR : ℝ) :
    ∀ (n i b : ℕ), points.length - 1 - i = n → i < b →
      b ≤ points.length - 1 → minR ≤ cumLen points b →
      (∀ k, i < k → k < b → cumLen points k < minR) →
      rampScan minR (points.getD i dummyPt2) (points.drop (i + 1))
          (cumLen points i) i =
        (cumLen points b, b) := by
  intro n
  induction n with
  | zero => intro i b hn hib hb _ _; omega
  | succ n ih =>
    intro i b hn hib hb hbreak hmin
    have hi1 : i + 1 < points.length := by omega
    rw [drop_cons_pt points (i + 1) hi1, rampScan]
    have hacc : cumLen points i +
        distance2D (points.getD i dummyPt2) (points.getD (i + 1) dummyPt2) =
        cumLen points (i + 1) := rfl
    simp only [hacc]
    by_cases hbe : b = i + 1
    · rw [if_pos (by rw [← hbe] at *; exact hbreak), hbe]
    · rw [if_neg (not_le.mpr (hmin (i + 1) (by omega) (by omega)))]
      exact ih (i + 1) b (by omega) (by omega) hb hbreak
        (fun k hk1 hk2 => hmin k (by omega) hk2)

theorem rampBuild_spec_aux (points : List Point2D)
    (minR totalDrop safeZ : ℝ) (b : ℕ) (hminR : 0 < minR)
    (hblen : b < points.length) (hbreak : minR ≤ cumLen points b)
    (hmin : ∀ k, 1 ≤ k → k < b → cumLen points k < minR) :
    ∀ (n i : ℕ), b - i = n → i < b →
      rampBuild minR totalDrop safeZ (points.getD i dummyPt2)
          ((points.drop (i + 1)).take (b - i)) (cumLen points i) =
        (List.range (b - i)).map (fun k =>
          ⟨(points.getD (i + 1 + k) dummyPt2).x,
            (points.getD (i + 1 + k) dummyPt2).y,
            safeZ - min (cumLen points (i + 1 + k) / minR) 1 * totalDrop⟩) := by
  intro n
  induction n with
  | zero => intro i hn hi; omega
  | succ n ih =>
    intro i hn hi
    have hi1 : i + 1 < points.length := by omega
    rw [drop_cons_pt points (i + 1) hi1]
    rw [show b - i = n + 1 from hn, List.take_succ_cons, rampBuild]
    have hacc : cumLen points i +
        distance2D (points.getD i dummyPt2) (points.getD (i + 1) dummyPt2) =
        cumLen points (i + 1) := rfl
    simp only [hacc]
    by_cases hbe : i + 1 = b
    · have ht : (1 : ℝ) ≤ min (cumLen points (i + 1) / minR) 1 := by
        apply le_min _ (le_refl 1)
        rw [le_div_iff hminR]
        rw [hbe]
        linarith
      rw [if_pos ht]
      have hn0 : n = 0 := by omega
      rw [hn0]
      simp [List.range_succ_eq_map]
    · have hlt : cumLen points (i + 1) < minR := hmin (i + 1) (by omega) (by omega)
      have ht : ¬ (1 : ℝ) ≤ min (cumLen points (i + 1) / minR) 1 := by
        rw [not_le]
        apply lt_of_le_of_lt (min_le_left _ _)
        rw [div_lt_one hminR]
        exact hlt
      rw [if_neg ht]
      have ih' := ih (i + 1) (by omega) (by omega)
      rw [show b - (i + 1) = n from by omega] at ih'
      rw [ih']
      rw [List.range_succ_eq_map]
      simp only [List.map_cons, List.map_map]
      have hmap : ∀ k ∈ List.range n,
          (fun k => (⟨(points.getD (i + 1 + 1 + k) dummyPt2).x,
            (points.getD (i + 1 + 1 + k) dummyPt2).y,
            safeZ - min (cumLen points (i + 1 + 1 + k) / minR) 1 *
              totalDrop⟩ : Point3D)) k =
          ((fun k => (⟨(points.getD (i + 1 + k) dummyPt2).x,
            (points.getD (i + 1 + k) dummyPt2).y,
            safeZ - min (cumLen points (i + 1 + k) / minR) 1 *
              totalDrop⟩ : Point3D)) ∘ Nat.succ) k := by
        intro k _
        simp only [Function.comp_apply]
        rw [show i + 1 + (k + 1) = i + 1 + 1 + k from by omega]
      rw [List.map_congr_left hmap]

theorem rampScan_break (points : List Point2D) (minR : ℝ) (b : ℕ)
    (hb1 : 1 ≤ b) (hble : b ≤ points.length - 1)
    (hbreak : minR ≤ cumLen points b)
    (hmin : ∀ k, 1 ≤ k → k < b → cumLen points k < minR) :
    rampScan minR (points.getD 0 dummyPt2) (points.drop 1) 0 0 =
      (cumLen points b, b) := by
  have h := rampScan_break_aux points minR (points.length - 1) 0 b
    (by omega) (by omega) hble hbreak (fun k hk1 hk2 => hmin k (by omega) hk2)
  simpa [cumLen] using h

theorem rampScan_nobreak (points : List Point2D) (minR : ℝ)
    (hlen : 1 ≤ points.length)
    (hall : ∀ k, 1 ≤ k → k ≤ points.length - 1 → cumLen points k < minR) :
    rampScan minR (points.getD 0 dummyPt2) (points.drop 1) 0 0 =
      (cumLen points (points.length - 1), points.length - 1) := by
  have h := rampScan_nobreak_aux points minR (points.length - 1) 0
    (by omega) (by omega) (fun k hk1 hk2 => hall k (by omega) hk2)
  simpa [cumLen] using h

set_option maxHeartbeats 1000000 in
/-- **C2** (amended): `createRampEntry` emits the straight vertical
two-point plunge at the first XY position unless the cumulative XY length
of the polyline's segments reaches `(safeZ+cutDepth)/tan 3°` strictly
before the last point (at some segment index `≤ length − 2`); when it
does first reach it at index `b ≤ length − 2`, the plunge is the ramp
along the polyline's travel whose Z descends linearly with the
accumulated XY distance (clamped at full depth), resuming cutting at
index `b + 1`.  The claim's threshold of 3× the total drop (together
with ≥ 3 points) is implied by this condition but does not suffice
for it. -/
theorem C2_ramp_characterization (points : List Point2D)
    (cutDepth safeZ plungeRate : ℝ) (hdrop : 0 < safeZ + cutDepth) :
    ((¬ ∃ k, 1 ≤ k ∧ k ≤ points.length - 2 ∧
        (safeZ + cutDepth) / Real.tan (3 * Real.pi / 180) ≤ cumLen points k) →
      createRampEntry points cutDepth safeZ plungeRate =
        ⟨[⟨(points.getD 0 dummyPt2).x, (points.getD 0 dummyPt2).y, safeZ⟩,
          ⟨(points.getD 0 dummyPt2).x, (points.getD 0 dummyPt2).y, -cutDepth⟩],
          1⟩) ∧
    (∀ b, 1 ≤ b → b ≤ points.length - 2 →
      (safeZ + cutDepth) / Real.tan (3 * Real.pi / 180) ≤ cumLen points b →
      (∀ k, 1 ≤ k → k < b →
        cumLen points k < (safeZ + cutDepth) / Real.tan (3 * Real.pi / 180)) →
      createRampEntry points cutDepth safeZ plungeRate =
        ⟨⟨(points.getD 0 dummyPt2).x, (points.getD 0 dummyPt2).y, safeZ⟩ ::
          (List.range b).map (fun k =>
            ⟨(points.getD (k + 1) dummyPt2).x,
              (points.getD (k + 1) dummyPt2).y,
              safeZ - min (cumLen points (k + 1) /
                ((safeZ + cutDepth) / Real.tan (3 * Real.pi / 180))) 1 *
                (safeZ + cutDepth)⟩),
          b + 1⟩) := by
  have hT : 0 < Real.tan (3 * Real.pi / 180) := tan3_pos
  have hTlt : Real.tan (3 * Real.pi / 180) < 0.105 := tan3_lt
  set minR := (safeZ + cutDepth) / Real.tan (3 * Real.pi / 180) with hminRdef
  have hminRpos : 0 < minR := div_pos hdrop hT
  have hminR3 : (safeZ + cutDepth) * 3 ≤ minR := by
    rw [hminRdef, le_div_iff hT]
    nlinarith
  constructor
  · intro hnex
    rw [createRampEntry]
    by_cases hex : ∃ k, 1 ≤ k ∧ k ≤ points.length - 1 ∧ minR ≤ cumLen points k
    · have hspec := Nat.find_spec hex
      set b := Nat.find hex with hbdef
      obtain ⟨hb1, hble, hbreak⟩ := hspec
      have hmin : ∀ k, 1 ≤ k → k < b → cumLen points k < minR := by
        intro k hk1 hkb
        have := Nat.find_min hex hkb
        push_neg at this
        exact this hk1 (by omega)
      rw [rampScan_break points minR b hb1 hble hbreak hmin]
      have hb2 : ¬ (1 ≤ b ∧ b ≤ points.length - 2 ∧ minR ≤ cumLen points b) :=
        fun hc => hnex ⟨b, hc⟩
      have hble2 : points.length - 1 ≤ b := by
        rcases Nat.lt_or_ge b (points.length - 1) with h | h
        · exact absurd ⟨hb1, by omega, hbreak⟩ hb2
        · exact h
      rw [if_pos (Or.inr (Or.inr hble2))]
    · push_neg at hex
      by_cases hlen : 1 ≤ points.length
      · rw [rampScan_nobreak points minR hlen
          (fun k hk1 hk2 => hex k hk1 hk2)]
        rw [if_pos (Or.inr (Or.inr (le_refl _)))]
      · have h0 : points.length = 0 := by omega
        have hd : points.drop 1 = [] := by
          apply List.drop_eq_nil_of_le; omega
        rw [hd, rampScan]
        rw [if_pos (Or.inl (by omega))]
  · intro b hb1 hble hbreak hmin
    have hlen3 : 3 ≤ points.length := by omega
    rw [createRampEntry]
    rw [rampScan_break points minR b hb1 (by omega) hbreak hmin]
    dsimp only
    rw [if_neg (by
      push_neg
      exact ⟨by omega, le_trans hminR3 hbreak, by omega⟩)]
    rw [min_eq_right hbreak]
    have hbuilt := rampBuild_spec_aux points minR (safeZ + cutDepth) safeZ b
      hminRpos (by omega) hbreak hmin b 0 (by omega) (by omega)
    simp only [Nat.sub_zero, Nat.zero_add, cumLen] at hbuilt
    rw [hbuilt]
    have hmapeq : (List.range b).map (fun k =>
        (⟨(points.getD (1 + k) dummyPt2).x, (points.getD (1 + k) dummyPt2).y,
          safeZ - min (cumLen points (1 + k) / minR) 1 *
            (safeZ + cutDepth)⟩ : Point3D)) =
        (List.range b).map (fun k =>
          (⟨(points.getD (k + 1) dummyPt2).x, (points.getD (k + 1) dummyPt2).y,
            safeZ - min (cumLen points (k + 1) / minR) 1 *
              (safeZ + cutDepth)⟩ : Point3D)) := by
      apply List.map_congr_left
      intro k _
      rw [show 1 + k = k + 1 from by omega]
    rw [hmapeq]
    set M := (List.range b).map (fun k =>
      (⟨(points.getD (k + 1) dummyPt2).x, (points.getD (k + 1) dummyPt2).y,
        safeZ - min (cumLen points (k + 1) / minR) 1 *
          (safeZ + cutDepth)⟩ : Point3D)) with hM
    have hMlen : M.length = b := by rw [hM, List.length_map, List.length_range]
    have hlastz : safeZ - min (cumLen points (b - 1 + 1) / minR) 1 *
        (safeZ + cutDepth) = -cutDepth := by
      rw [show b - 1 + 1 = b from by omega]
      rw [min_eq_right ((one_le_div hminRpos).mpr hbreak)]
      ring
    have hgl : (⟨(points.getD 0 dummyPt2).x, (points.getD 0 dummyPt2).y,
        safeZ⟩ :: M : List Point3D).getLast? =
        some ⟨(points.getD (b - 1 + 1) dummyPt2).x,
          (points.getD (b - 1 + 1) dummyPt2).y,
          safeZ - min (cumLen points (b - 1 + 1) / minR) 1 *
            (safeZ + cutDepth)⟩ := by
      rw [List.getLast?_eq_getElem?]
      have hlen' : (⟨(points.getD 0 dummyPt2).x, (points.getD 0 dummyPt2).y,
          safeZ⟩ :: M : List Point3D).length - 1 = b := by
        simp [hMlen]
      rw [hlen']
      have hb' : b - 1 < (List.range b).length := by simp; omega
      rw [show (⟨(points.getD 0 dummyPt2).x, (points.getD 0 dummyPt2).y,
          safeZ⟩ :: M : List Point3D)[b]? = M[b - 1]? from by
        cases hb : b with
        | zero => omega
        | succ m => simp [hb]]
      rw [hM, List.getElem?_map]
      rw [List.getElem?_eq_getElem hb']
      simp
    simp only [fixLast, hgl]
    rw [if_neg (by rw [hlastz]; norm_num)]

/-- **C2** (counterexample): the 3-point polyline (0,0)→(10,0)→(20,0)
with cut depth 1 and safe-Z 5 has cumulative XY length 20 ≥ 3×(total drop
6) and ≥ 3 points, yet `createRampEntry` emits the straight vertical
plunge (both plunge points at the first XY position), not a ramped
plunge: the available length never reaches `6/tan 3° ≈ 115`mm before the
last point. -/
theorem C2_counterexample :
    (3 ≤ ([⟨0, 0⟩, ⟨10, 0⟩, ⟨20, 0⟩] : List Point2D).length) ∧
      cumLen [⟨0, 0⟩, ⟨10, 0⟩, ⟨20, 0⟩] 2 = 20 ∧
      ((5 : ℝ) + 1) * 3 ≤ cumLen [⟨0, 0⟩, ⟨10, 0⟩, ⟨20, 0⟩] 2 ∧
      createRampEntry [⟨0, 0⟩, ⟨10, 0⟩, ⟨20, 0⟩] 1 5 300 =
        ⟨[⟨0, 0, 5⟩, ⟨0, 0, -1⟩], 1⟩ := by
  have hcum1 : cumLen [(⟨0, 0⟩ : Point2D), ⟨10, 0⟩, ⟨20, 0⟩] 1 = 10 := by
    simp [cumLen, List.getD, distance2D_axis]
  have hcum2 : cumLen [(⟨0, 0⟩ : Point2D), ⟨10, 0⟩, ⟨20, 0⟩] 2 = 20 := by
    simp [cumLen, List.getD, distance2D_axis]
    norm_num
  refine ⟨by simp, hcum2, by rw [hcum2]; norm_num, ?_⟩
  have h := (C2_ramp_characterization [⟨0, 0⟩, ⟨10, 0⟩, ⟨20, 0⟩] 1 5 300
    (by norm_num)).1 (by
      rintro ⟨k, hk1, hk2, hk3⟩
      simp at hk2
      have hk : k = 1 := by omega
      subst hk
      rw [hcum1] at hk3
      have h1 := tan3_pos
      have h2 := tan3_lt
      rw [div_le_iff h1] at hk3
      nlinarith)
  simpa [List.getD] using h

/-- Witness for the amended C2 theorem: a 2-point polyline always takes
the straight-plunge branch. -/
theorem C2_ramp_characterization_witness :
    createRampEntry [⟨0, 0⟩, ⟨1, 0⟩] 1 5 300 =
      ⟨[⟨0, 0, 5⟩, ⟨0, 0, -1⟩], 1⟩ := by
  have h := (C2_ramp_characterization [⟨0, 0⟩, ⟨1, 0⟩] 1 5 300
    (by norm_num)).1 (by
      rintro ⟨k, hk1, hk2, _⟩
      simp at hk2
      omega)
  simpa [List.getD] using h

/-! ## Tool and machine configuration (`src/lib/types/tool.ts`,
`src/lib/types/machine.ts`) -/

/-- `ToolType`. -/
inductive ToolType where
  | flat_end
  | ball_nose
  | v_bit

/-- `ToolConfig`. -/
structure ToolConfig where
  type : ToolType
  diameter : ℝ
  angle : ℝ
  spindleSpeed : ℝ
  feedRate : ℝ
  plungeRate : ℝ

/-- The nine-string-literal union `OriginPosition`. -/
inductive OriginPosition where
  | front_left
  | front_center
  | front_right
  | left
  | center
  | right
  | back_left
  | back_center
  | back_right

/-- The string literal denoted by each `OriginPosition` member. -/
def originPositionString : OriginPosition → String
  | .front_left => "front-left"
  | .front_center => "front-center"
  | .front_right => "front-right"
  | .left => "left"
  | .center => "center"
  | .right => "right"
  | .back_left => "back-left"
  | .back_center => "back-center"
  | .back_right => "back-right"

/-- JavaScript `String.prototype.includes`: substring containment. -/
def strIncludes (s pat : String) : Prop := pat.toList <:+: s.toList

/-- JavaScript `String.prototype.startsWith`. -/
def strStartsWith (s pat : String) : Prop := pat.toList <+: s.toList

/-- `MachineConfig`. -/
structure MachineConfig where
  safeZ : ℝ
  originX : ℝ
  originY : ℝ
  originPosition : OriginPosition

/-- `computeOriginOffsets` from `machine.ts`: G-code origin offsets from
an origin position and stock dimensions. -/
def computeOriginOffsets (position : OriginPosition)
    (stockWidth stockHeight : ℝ) : ℝ × ℝ :=
  let s := originPositionString position
  let colX := if strIncludes s "left" then 0
    else if strIncludes s "right" then -stockWidth
    else -stockWidth / 2
  let isfront := strStartsWith s "front"
  let isback := strStartsWith s "back"
  let rowY := if isfront then 0 else if isback then -stockHeight
    else -stockHeight / 2
  (colX, rowY)

/-! ## Arc-fitting optimizer (`arc-fitting.ts`) -/

/-- Placeholder 3D point for out-of-bounds reads. -/
def dummyPt3 : Point3D := ⟨0, 0, 0⟩

/-- An `OptimizedSegment`: a linear target point or a fitted arc. -/
inductive OptimizedSegment where
  | linear (x y z : ℝ)
  | arc (startX startY endX endY centerI centerJ z : ℝ) (clockwise : Bool)

/-- Circle through three points returned by `fitCircle`. -/
structure CircleFit where
  cx : ℝ
  cy : ℝ
  r : ℝ

/-- `fitCircle`: perpendicular-bisector circle through three points, or
`none` for (near-)collinear triples. -/
def fitCircle (x1 y1 x2 y2 x3 y3 : ℝ) : Option CircleFit :=
  let d := 2 * (x1 * (y2 - y3) + x2 * (y3 - y1) + x3 * (y1 - y2))
  if |d| < 1e-10 then none
  else
    let ux := ((x1 * x1 + y1 * y1) * (y2 - y3) + (x2 * x2 + y2 * y2) * (y3 - y1)
      + (x3 * x3 + y3 * y3) * (y1 - y2)) / d
    let uy := ((x1 * x1 + y1 * y1) * (x3 - x2) + (x2 * x2 + y2 * y2) * (x1 - x3)
      + (x3 * x3 + y3 * y3) * (x2 - x1)) / d
    some ⟨ux, uy, Real.sqrt ((x1 - ux) * (x1 - ux) + (y1 - uy) * (y1 - uy))⟩

/-- `isClockwise`: negative cross product of `(p2-p1) × (p3-p1)`. -/
def isClockwise (x1 y1 x2 y2 x3 y3 : ℝ) : Bool :=
  if (x2 - x1) * (y3 - y1) - (y2 - y1) * (x3 - x1) < 0 then true else false

/-- `pointOnArc`: the point's distance to the center is within `tolerance`
of the radius. -/
def pointOnArc (px py cx cy r tolerance : ℝ) : Prop :=
  |Real.sqrt ((px - cx) * (px - cx) + (py - cy) * (py - cy)) - r| ≤ tolerance

/-- The arc-extension loop of `detectArcs`: starting at `j` (with `acc`
the last known good index, `j = acc + 1`), extend while Z stays within
tolerance and points stay on the fitted circle. -/
def extendArcLoop (points : List Point3D) (cx cy r z0 tol : ℝ) :
    ℕ → ℕ → ℕ → ℕ
  | 0, _, acc => acc
  | fuel + 1, j, acc =>
    if j < points.length then
      if |(points.getD j dummyPt3).z - z0| > tol then acc
      else if ¬ pointOnArc (points.getD j dummyPt3).x
          (points.getD j dummyPt3).y cx cy r tol then acc
      else extendArcLoop points cx cy r z0 tol fuel (j + 1) j
    else acc

/-- The body of `detectArcs`'s `while (i < points.length)` loop, with the
fuel standing in for the loop's progress measure (`i` strictly increases
each iteration as long as `minArcPoints ≥ 1`). -/
def detectArcsLoop (points : List Point3D) (tolerance : ℝ)
    (minArcPoints : ℕ) (maxRadius : ℝ) : ℕ → ℕ → List OptimizedSegment
  | 0, _ => []
  | fuel + 1, i =>
    if i < points.length then
      if i + minArcPoints - 1 ≥ points.length then
        (points.drop i).map fun p => .linear p.x p.y p.z
      else
        let mid := min (i + minArcPoints / 2) (points.length - 2)
        let en := min (i + minArcPoints - 1) (points.length - 1)
        let pi' := points.getD i dummyPt3
        let asLinear : List OptimizedSegment :=
          .linear pi'.x pi'.y pi'.z ::
            detectArcsLoop points tolerance minArcPoints maxRadius fuel (i + 1)
        match fitCircle pi'.x pi'.y (points.getD mid dummyPt3).x
          (points.getD mid dummyPt3).y (points.getD en dummyPt3).x
          (points.getD en dummyPt3).y with
        | none => asLinear
        | some circle =>
          if circle.r > maxRadius ∨ circle.r < tolerance then asLinear
          else
            let z0 := pi'.z
            if hsz : ∀ j, i ≤ j → j ≤ en →
                |(points.getD j dummyPt3).z - z0| ≤ tolerance then
              let arcEnd := extendArcLoop points circle.cx circle.cy circle.r
                z0 tolerance points.length (en + 1) en
              if arcEnd - i + 1 < minArcPoints then asLinear
              else if hall : ∀ j, i + 1 ≤ j → j < arcEnd →
                  pointOnArc (points.getD j dummyPt3).x
                    (points.getD j dummyPt3).y circle.cx circle.cy circle.r
                    tolerance then
                let pe := points.getD arcEnd dummyPt3
                let cw := isClockwise pi'.x pi'.y
                  (points.getD (i + 1) dummyPt3).x
                  (points.getD (i + 1) dummyPt3).y pe.x pe.y
                .arc pi'.x pi'.y pe.x pe.y (circle.cx - pi'.x)
                    (circle.cy - pi'.y) z0 cw ::
                  detectArcsLoop points tolerance minArcPoints maxRadius fuel
                    (arcEnd + 1)
              else asLinear
            else asLinear
    else []

/-- `detectArcs`: replace runs of same-depth points lying on a circle by
arc segments. -/
def detectArcs (points : List Point3D) (tolerance : ℝ := 0.01)
    (minArcPoints : ℕ := 4) (maxRadius : ℝ := 1000) :
    List OptimizedSegment :=
  if points.length < 2 then points.map fun p => .linear p.x p.y p.z
  else detectArcsLoop points tolerance minArcPoints maxRadius
    points.length 0

/-- "The segment ends at point `p`": a linear segment targeting exactly
`p`, or an arc whose end XY is `p`'s and whose Z (the run's first-point Z)
is within the fitting tolerance of `p.z`. -/
def endsAt (seg : OptimizedSegment) (p : Point3D) (tol : ℝ) : Prop :=
  match seg with
  | .linear x y z => x = p.x ∧ y = p.y ∧ z = p.z
  | .arc _ _ ex ey _ _ z _ => ex = p.x ∧ ey = p.y ∧ |z - p.z| ≤ tol

theorem getLastD_cons_of_ne_nil (a : OptimizedSegment)
    (l : List OptimizedSegment) (d : OptimizedSegment) (h : l ≠ []) :
    (a :: l).getLastD d = l.getLastD d := by
  cases l with
  | nil => exact absurd rfl h
  | cons b m => rfl

theorem detectArcsLoop_out (points : List Point3D) (tol : ℝ) (minA : ℕ)
    (maxR : ℝ) (fuel i : ℕ) (h : ¬ i < points.length) :
    detectArcsLoop points tol minA maxR fuel i = [] := by
  cases fuel with
  | zero => rfl
  | succ fuel => rw [detectArcsLoop, if_neg h]

theorem extendArcLoop_inv (points : List Point3D) (cx cy r z0 tol : ℝ) :
    ∀ (fuel j acc : ℕ), j = acc + 1 → acc < points.length →
      |(points.getD acc dummyPt3).z - z0| ≤ tol →
      acc ≤ extendArcLoop points cx cy r z0 tol fuel j acc ∧
        extendArcLoop points cx cy r z0 tol fuel j acc < points.length ∧
        |(points.getD (extendArcLoop points cx cy r z0 tol fuel j acc)
          dummyPt3).z - z0| ≤ tol := by
  intro fuel
  induction fuel with
  | zero => intro j acc _ hacc hz; exact ⟨le_refl _, hacc, hz⟩
  | succ fuel ih =>
    intro j acc hj hacc hz
    rw [extendArcLoop]
    by_cases hjl : j < points.length
    · rw [if_pos hjl]
      by_cases hzj : |(points.getD j dummyPt3).z - z0| > tol
      · rw [if_pos hzj]; exact ⟨le_refl _, hacc, hz⟩
      · rw [if_neg hzj]
        by_cases harc : pointOnArc (points.getD j dummyPt3).x
            (points.getD j dummyPt3).y cx cy r tol
        · rw [if_neg (by simpa using harc)]
          obtain ⟨h1, h2, h3⟩ := ih (j + 1) j rfl hjl (by linarith [not_lt.mp hzj])
          exact ⟨by omega, h2, h3⟩
        · rw [if_pos (by simpa using harc)]
          exact ⟨le_refl _, hacc, hz⟩
    · rw [if_neg hjl]; exact ⟨le_refl _, hacc, hz⟩

theorem getLastD_drop_map (points : List Point3D) (i : ℕ)
    (hi : i < points.length) (d : OptimizedSegment) :
    ((points.drop i).map fun p => OptimizedSegment.linear p.x p.y p.z).getLastD
        d =
      .linear (points.getD (points.length - 1) dummyPt3).x
        (points.getD (points.length - 1) dummyPt3).y
        (points.getD (points.length - 1) dummyPt3).z := by
  have hlen : ((points.drop i).map
      fun p => OptimizedSegment.linear p.x p.y p.z).length =
      points.length - i := by simp
  have hne : 0 < points.length - i := by omega
  rw [List.getLastD_eq_getLast?, List.getLast?_eq_getElem?]
  rw [hlen, List.getElem?_map, List.getElem?_drop]
  rw [show i + (points.length - i - 1) = points.length - 1 from by omega]
  rw [List.getElem?_eq_getElem (by omega : points.length - 1 < points.length)]
  rw [List.getD_eq_getElem _ _ (by omega : points.length - 1 < points.length)]
  rfl

set_option maxHeartbeats 1000000 in
/-- Loop invariant for C10: from any in-range index, the produced list is
nonempty and its last element ends at the last input point. -/
theorem detectArcsLoop_last (points : List Point3D) (tol : ℝ) (minA : ℕ)
    (maxR : ℝ) (hminA : 1 ≤ minA) :
    ∀ (fuel i : ℕ), i < points.length → points.length - i ≤ fuel →
      detectArcsLoop points tol minA maxR fuel i ≠ [] ∧
        endsAt ((detectArcsLoop points tol minA maxR fuel i).getLastD
          (.linear 0 0 0)) (points.getD (points.length - 1) dummyPt3) tol := by
  intro fuel
  induction fuel with
  | zero => intro i hi hf; omega
  | succ fuel ih =>
    intro i hi hf
    rw [detectArcsLoop, if_pos hi]
    by_cases hguard : i + minA - 1 ≥ points.length
    · rw [if_pos hguard]
      refine ⟨by simp [List.ne_nil_of_length_pos]; omega, ?_⟩
      rw [getLastD_drop_map points i hi]
      exact ⟨rfl, rfl, rfl⟩
    · rw [if_neg hguard]
      dsimp only
      -- the recurring "emit one linear point and advance" result
      have hlin : (OptimizedSegment.linear (points.getD i dummyPt3).x
            (points.getD i dummyPt3).y (points.getD i dummyPt3).z ::
            detectArcsLoop points tol minA maxR fuel (i + 1)) ≠ [] ∧
          endsAt ((OptimizedSegment.linear (points.getD i dummyPt3).x
            (points.getD i dummyPt3).y (points.getD i dummyPt3).z ::
            detectArcsLoop points tol minA maxR fuel (i + 1)).getLastD
            (.linear 0 0 0)) (points.getD (points.length - 1) dummyPt3)
            tol := by
        by_cases hnext : i + 1 < points.length
        · obtain ⟨h1, h2⟩ := ih (i + 1) hnext (by omega)
          exact ⟨by simp, by rwa [getLastD_cons_of_ne_nil _ _ _ h1]⟩
        · have hi1 : i = points.length - 1 := by omega
          rw [detectArcsLoop_out points tol minA maxR fuel (i + 1) hnext]
          refine ⟨by simp, ?_⟩
          rw [hi1]
          exact ⟨rfl, rfl, rfl⟩
      split
      · exact hlin
      · next circle _ =>
        split
        · exact hlin
        · -- radius acceptable; same-Z gate
          by_cases hsz : ∀ j, i ≤ j →
              j ≤ min (i + minA - 1) (points.length - 1) →
              |(points.getD j dummyPt3).z - (points.getD i dummyPt3).z| ≤ tol
          · rw [dif_pos hsz]
            set en := min (i + minA - 1) (points.length - 1) with hen
            set arcEnd := extendArcLoop points circle.cx circle.cy circle.r
              (points.getD i dummyPt3).z tol points.length (en + 1) en
              with harcEnd
            have hinv := extendArcLoop_inv points circle.cx circle.cy circle.r
              (points.getD i dummyPt3).z tol points.length (en + 1) en rfl
              (by omega) (hsz en (by omega) (le_refl _))
            rw [← harcEnd] at hinv
            obtain ⟨hae1, hae2, hae3⟩ := hinv
            by_cases hcount : arcEnd - i + 1 < minA
            · rw [if_pos hcount]; exact hlin
            · rw [if_neg hcount]
              by_cases hall : ∀ j, i + 1 ≤ j → j < arcEnd →
                  pointOnArc (points.getD j dummyPt3).x
                    (points.getD j dummyPt3).y circle.cx circle.cy circle.r
                    tol
              · rw [dif_pos hall]
                by_cases hnext : arcEnd + 1 < points.length
                · obtain ⟨h1, h2⟩ := ih (arcEnd + 1) hnext (by omega)
                  exact ⟨by simp, by rwa [getLastD_cons_of_ne_nil _ _ _ h1]⟩
                · have hl : arcEnd = points.length - 1 := by omega
                  rw [detectArcsLoop_out points tol minA maxR fuel (arcEnd + 1)
                    hnext]
                  refine ⟨by simp, ?_⟩
                  rw [← hl]
                  refine ⟨rfl, rfl, ?_⟩
                  have := hae3
                  rw [abs_sub_comm] at this
                  exact this
              · rw [dif_neg hall]; exact hlin
          · rw [dif_neg hsz]; exact hlin

/-- **C10**: for every non-empty point sequence, the last element of
`detectArcs` ends at the last input point — a linear segment with exactly
its coordinates, or an arc whose end XY equals its XY and whose Z (the Z
of the run's first point) is within the fitting tolerance of its Z. -/
theorem C10_detectArcs_ends_at_last (points : List Point3D)
    (tol maxR : ℝ) (minA : ℕ) (hne : points ≠ []) (hminA : 1 ≤ minA) :
    detectArcs points tol minA maxR ≠ [] ∧
      endsAt ((detectArcs points tol minA maxR).getLastD (.linear 0 0 0))
        (points.getD (points.length - 1) dummyPt3) tol := by
  rw [detectArcs]
  by_cases hlen : points.length < 2
  · rw [if_pos hlen]
    have h1 : points.length = 1 := by
      have := List.length_pos.mpr hne
      omega
    match points, h1 with
    | [p], _ =>
      refine ⟨by simp, ?_⟩
      exact ⟨rfl, rfl, rfl⟩
  · rw [if_neg hlen]
    exact detectArcsLoop_last points tol minA maxR hminA points.length 0
      (by omega) (by omega)

/-- Witness for C10. -/
theorem C10_detectArcs_ends_at_last_witness :
    detectArcs [(⟨1, 2, 3⟩ : Point3D)] 0.01 4 1000 ≠ [] ∧
      endsAt ((detectArcs [(⟨1, 2, 3⟩ : Point3D)] 0.01 4 1000).getLastD
        (.linear 0 0 0))
        (([(⟨1, 2, 3⟩ : Point3D)]).getD (([(⟨1, 2, 3⟩ : Point3D)]).length - 1)
          dummyPt3) 0.01 :=
  C10_detectArcs_ends_at_last [⟨1, 2, 3⟩] 0.01 1000 4 (by simp) (by omega)

/-! ## G-code emitter (`generator.ts`, SVG-pipeline `generateGCode`)

The model covers the segment-driven body of `generateGCode`: each emitted
motion line is recorded as a `GLine` carrying its command and its target
position (the emitter's tracked `lastX/lastY/lastZ` values, i.e. the
pre-rounding coordinates).  The fixed header/footer text is not part of
the model. -/

/-- `MoveType` from `toolpath.ts`. -/
inductive MoveType where
  | rapid
  | cut
  | plunge
  | retract
deriving DecidableEq

/-- A toolpath segment: ordered points plus one move kind. -/
structure ToolPathSegment where
  points : List Point3D
  moveType : MoveType

/-- A toolpath: ordered segments (aggregate stats omitted — no claim
mentions them). -/
structure ToolPath where
  segments : List ToolPathSegment

/-- Motion commands. -/
inductive GCmd where
  | g0
  | g1
  | g2
  | g3
deriving DecidableEq

/-- One emitted motion line: command and target position. -/
structure GLine where
  cmd : GCmd
  x : ℝ
  y : ℝ
  z : ℝ

/-- Modal emitter state: `lastX/lastY/lastZ/lastF`, `none` = JS `null`. -/
structure GState where
  lastX : Option ℝ
  lastY : Option ℝ
  lastZ : Option ℝ
  lastF : Option ℝ

/-- `COORD_TOLERANCE`. -/
def COORD_TOLERANCE : ℝ := 0.0005

/-- A coordinate field is emitted when there is no tracked value yet or the
value moved by more than the tolerance. -/
def coordChanged (last : Option ℝ) (v : ℝ) : Prop :=
  match last with
  | none => True
  | some l => |v - l| > COORD_TOLERANCE

/-- The duplicate-position skip check (`lastX !== null && ...`); the
`getD 0` reads model the non-null assertions `lastY!`/`lastZ!`. -/
def skipPos (st : GState) (x y z : ℝ) : Prop :=
  st.lastX ≠ none ∧ |x - st.lastX.getD 0| < COORD_TOLERANCE ∧
    |y - st.lastY.getD 0| < COORD_TOLERANCE ∧
    |z - st.lastZ.getD 0| < COORD_TOLERANCE

/-- `formatCutMove`: a `G1` line when any coordinate or the feed changed;
also returns the new modal feed. -/
def formatCutMove (st : GState) (x y z feedRate : ℝ) :
    Option GLine × Option ℝ :=
  ((if coordChanged st.lastX x ∨ coordChanged st.lastY y ∨
      coordChanged st.lastZ z ∨ st.lastF ≠ some feedRate
    then some ⟨.g1, x, y, z⟩ else none),
   if st.lastF ≠ some feedRate then some feedRate else st.lastF)

/-- `formatMove`: rapid lines need a changed coordinate; plunge and
retract lines are always emitted (they always carry a `Z` field). -/
def formatMove (moveType : MoveType) (st : GState) (x y z : ℝ)
    (toolConfig : ToolConfig) : Option GLine × Option ℝ :=
  match moveType with
  | .rapid =>
    ((if coordChanged st.lastX x ∨ coordChanged st.lastY y ∨
        coordChanged st.lastZ z
      then some ⟨.g0, x, y, z⟩ else none), st.lastF)
  | .plunge =>
    (some ⟨.g1, x, y, z⟩,
     if st.lastF ≠ some toolConfig.plungeRate then some toolConfig.plungeRate
     else st.lastF)
  | .cut => formatCutMove st x y z toolConfig.feedRate
  | .retract => (some ⟨.g0, x, y, z⟩, st.lastF)

/-- Standard per-point processing of `generateGCode` (non-arc path):
apply the origin offset, skip duplicate positions, emit via `formatMove`,
update the modal state. -/
def processStdPoint (toolConfig : ToolConfig) (machineConfig : MachineConfig)
    (moveType : MoveType) (st : GState) (pt : Point3D) :
    GState × Option GLine :=
  let x := pt.x + machineConfig.originX
  let y := pt.y + machineConfig.originY
  let z := pt.z
  if skipPos st x y z then (st, none)
  else
    let fm := formatMove moveType st x y z toolConfig
    ({ lastX := some x, lastY := some y, lastZ := some z
       lastF := if fm.1.isSome then fm.2 else st.lastF }, fm.1)

/-- Per-element processing of an arc-fitted cut segment: arcs emit
unconditionally (no duplicate-position check); linear elements behave
like cut points. -/
def processArcSeg (toolConfig : ToolConfig) (machineConfig : MachineConfig)
    (st : GState) (seg : OptimizedSegment) : GState × Option GLine :=
  match seg with
  | .arc _ _ endX endY _ _ z cw =>
    let x := endX + machineConfig.originX
    let y := endY + machineConfig.originY
    let newF := if st.lastF ≠ some toolConfig.feedRate
      then some toolConfig.feedRate else st.lastF
    ({ lastX := some x, lastY := some y, lastZ := some z, lastF := newF },
     some ⟨if cw then .g2 else .g3, x, y, z⟩)
  | .linear lx ly lz =>
    let x := lx + machineConfig.originX
    let y := ly + machineConfig.originY
    let z := lz
    if skipPos st x y z then (st, none)
    else
      let fm := formatCutMove st x y z toolConfig.feedRate
      ({ lastX := some x, lastY := some y, lastZ := some z
         lastF := if fm.1.isSome then fm.2 else st.lastF }, fm.1)

/-- Fold one emission step into the accumulated (state, lines). -/
def stepFold {α : Type} (f : GState → α → GState × Option GLine)
    (acc : GState × List GLine) (a : α) : GState × List GLine :=
  let r := f acc.1 a
  (r.1, acc.2 ++ r.2.toList)

/-- Process one toolpath segment: cut segments with at least 4 points go
through `detectArcs` first; everything else point by point. -/
def processSegment (toolConfig : ToolConfig) (machineConfig : MachineConfig)
    (st : GState) (segment : ToolPathSegment) : GState × List GLine :=
  if segment.moveType = .cut ∧ segment.points.length ≥ 4 then
    (detectArcs segment.points).foldl
      (stepFold (processArcSeg toolConfig machineConfig)) (st, [])
  else
    segment.points.foldl
      (stepFold (processStdPoint toolConfig machineConfig segment.moveType))
      (st, [])

/-- The motion lines emitted by the body of `generateGCode`, in order. -/
def generateGCodeMotion (toolPath : ToolPath) (toolConfig : ToolConfig)
    (machineConfig : MachineConfig) : List GLine :=
  (toolPath.segments.foldl (fun acc seg =>
    let r := processSegment toolConfig machineConfig acc.1 seg
    (r.1, acc.2 ++ r.2)) ((⟨none, none, none, none⟩ : GState), [])).2

/-! ### Origin-offset equivariance of the emitter -/

/-- Shift a motion line's XY target (Z untouched). -/
def shiftLine (ox oy : ℝ) (l : GLine) : GLine := ⟨l.cmd, l.x + ox, l.y + oy, l.z⟩

/-- Shift the tracked XY state (Z and feed untouched). -/
def shiftState (ox oy : ℝ) (st : GState) : GState :=
  ⟨st.lastX.map (· + ox), st.lastY.map (· + oy), st.lastZ, st.lastF⟩

/-- States reachable by the emitter: the three position coordinates are
tracked together. -/
def WFState (st : GState) : Prop :=
  st.lastX ≠ none → (st.lastY ≠ none ∧ st.lastZ ≠ none)

theorem coordChanged_shift (o : Option ℝ) (v s : ℝ) :
    coordChanged (o.map (· + s)) (v + s) ↔ coordChanged o v := by
  cases o with
  | none => simp [coordChanged]
  | some l =>
    show (|v + s - (l + s)| > COORD_TOLERANCE) ↔ _
    rw [show v + s - (l + s) = v - l from by ring]
    rfl

theorem skipPos_shift (st : GState) (x y z s t : ℝ) (hwf : WFState st) :
    skipPos (shiftState s t st) (x + s) (y + t) z ↔ skipPos st x y z := by
  cases hX : st.lastX with
  | none =>
    simp [skipPos, shiftState, hX]
  | some lx =>
    obtain ⟨hY, hZ⟩ := hwf (by rw [hX]; simp)
    obtain ⟨ly, hY⟩ : ∃ v, st.lastY = some v := by
      cases hY' : st.lastY with
      | none => exact absurd hY' hY
      | some v => exact ⟨v, rfl⟩
    obtain ⟨lz, hZ⟩ : ∃ v, st.lastZ = some v := by
      cases hZ' : st.lastZ with
      | none => exact absurd hZ' hZ
      | some v => exact ⟨v, rfl⟩
    simp only [skipPos, shiftState, hX, hY, hZ, Option.map, Option.getD,
      ne_eq, reduceCtorEq, not_false_eq_true, true_and]
    rw [show x + s - (lx + s) = x - lx from by ring,
      show y + t - (ly + t) = y - ly from by ring]

theorem formatMove_shift (mt : MoveType) (st : GState) (x y z s t : ℝ)
    (tc : ToolConfig) :
    formatMove mt (shiftState s t st) (x + s) (y + t) z tc =
      ((formatMove mt st x y z tc).1.map (shiftLine s t),
        (formatMove mt st x y z tc).2) := by
  have hcx := coordChanged_shift st.lastX x s
  have hcy := coordChanged_shift st.lastY y t
  cases mt <;>
    simp only [formatMove, formatCutMove, shiftState, hcx, hcy] <;>
    first
      | (split <;> simp [shiftLine])
      | simp [shiftLine]

theorem processStdPoint_shift (tc : ToolConfig) (sz s t : ℝ)
    (pos : OriginPosition) (mt : MoveType) (st : GState) (pt : Point3D)
    (hwf : WFState st) :
    processStdPoint tc ⟨sz, s, t, pos⟩ mt (shiftState s t st) pt =
      ((shiftState s t (processStdPoint tc ⟨sz, 0, 0, pos⟩ mt st pt).1),
        (processStdPoint tc ⟨sz, 0, 0, pos⟩ mt st pt).2.map (shiftLine s t)) ∧
      WFState (processStdPoint tc ⟨sz, 0, 0, pos⟩ mt st pt).1 := by
  have hisSome : ∀ (o : Option GLine),
      (o.map (shiftLine s t)).isSome = o.isSome := by
    intro o; cases o <;> rfl
  unfold processStdPoint
  simp only [add_zero]
  by_cases hskip : skipPos st pt.x pt.y pt.z
  · rw [if_pos ((skipPos_shift st pt.x pt.y pt.z s t hwf).mpr hskip),
      if_pos hskip]
    exact ⟨rfl, hwf⟩
  · rw [if_neg (fun hc =>
      hskip ((skipPos_shift st pt.x pt.y pt.z s t hwf).mp hc)),
      if_neg hskip]
    rw [formatMove_shift]
    refine ⟨?_, ?_⟩
    · rw [hisSome]
      simp only [shiftState, Option.map]
    · intro _
      simp

theorem processArcSeg_shift (tc : ToolConfig) (sz s t : ℝ)
    (pos : OriginPosition) (st : GState) (seg : OptimizedSegment)
    (hwf : WFState st) :
    processArcSeg tc ⟨sz, s, t, pos⟩ (shiftState s t st) seg =
      ((shiftState s t (processArcSeg tc ⟨sz, 0, 0, pos⟩ st seg).1),
        (processArcSeg tc ⟨sz, 0, 0, pos⟩ st seg).2.map (shiftLine s t)) ∧
      WFState (processArcSeg tc ⟨sz, 0, 0, pos⟩ st seg).1 := by
  have hisSome : ∀ (o : Option GLine),
      (o.map (shiftLine s t)).isSome = o.isSome := by
    intro o; cases o <;> rfl
  cases seg with
  | arc sx sy ex ey ci cj z cw =>
    simp only [processArcSeg, add_zero, shiftState]
    refine ⟨?_, by intro _; simp⟩
    simp [shiftLine]
  | linear lx ly lz =>
    simp only [processArcSeg, add_zero]
    by_cases hskip : skipPos st lx ly lz
    · rw [if_pos ((skipPos_shift st lx ly lz s t hwf).mpr hskip),
        if_pos hskip]
      exact ⟨rfl, hwf⟩
    · rw [if_neg (fun hc => hskip ((skipPos_shift st lx ly lz s t hwf).mp hc)),
        if_neg hskip]
      have hfm := formatMove_shift .cut st lx ly lz s t tc
      simp only [formatMove] at hfm
      rw [hfm]
      refine ⟨?_, by intro _; simp⟩
      rw [hisSome]
      simp only [shiftState, Option.map]

theorem foldl_stepFold_shift {α : Type} (s t : ℝ)
    (f0 fs : GState → α → GState × Option GLine)
    (hstep : ∀ st a, WFState st →
      fs (shiftState s t st) a =
        ((shiftState s t (f0 st a).1), (f0 st a).2.map (shiftLine s t)) ∧
        WFState (f0 st a).1) :
    ∀ (L : List α) (st : GState) (acc : List GLine), WFState st →
      L.foldl (stepFold fs) (shiftState s t st, acc.map (shiftLine s t)) =
        ((shiftState s t (L.foldl (stepFold f0) (st, acc)).1),
          (L.foldl (stepFold f0) (st, acc)).2.map (shiftLine s t)) ∧
        WFState (L.foldl (stepFold f0) (st, acc)).1 := by
  intro L
  induction L with
  | nil => intro st acc hwf; exact ⟨rfl, hwf⟩
  | cons a rest ih =>
    intro st acc hwf
    obtain ⟨hs, hw⟩ := hstep st a hwf
    simp only [List.foldl_cons, stepFold, hs]
    have htl : ((f0 st a).2.map (shiftLine s t)).toList =
        ((f0 st a).2.toList).map (shiftLine s t) := by
      cases (f0 st a).2 <;> rfl
    rw [htl, ← List.map_append]
    exact ih (f0 st a).1 (acc ++ (f0 st a).2.toList) hw

theorem processSegment_shift (tc : ToolConfig) (sz s t : ℝ)
    (pos : OriginPosition) (st : GState) (seg : ToolPathSegment)
    (hwf : WFState st) :
    processSegment tc ⟨sz, s, t, pos⟩ (shiftState s t st) seg =
      ((shiftState s t (processSegment tc ⟨sz, 0, 0, pos⟩ st seg).1),
        (processSegment tc ⟨sz, 0, 0, pos⟩ st seg).2.map (shiftLine s t)) ∧
      WFState (processSegment tc ⟨sz, 0, 0, pos⟩ st seg).1 := by
  unfold processSegment
  split
  · have h := foldl_stepFold_shift s t (processArcSeg tc ⟨sz, 0, 0, pos⟩)
      (processArcSeg tc ⟨sz, s, t, pos⟩)
      (fun st a hw => processArcSeg_shift tc sz s t pos st a hw)
      (detectArcs seg.points) st [] hwf
    simpa using h
  · have h := foldl_stepFold_shift s t
      (processStdPoint tc ⟨sz, 0, 0, pos⟩ seg.moveType)
      (processStdPoint tc ⟨sz, s, t, pos⟩ seg.moveType)
      (fun st a hw => processStdPoint_shift tc sz s t pos seg.moveType st a hw)
      seg.points st [] hwf
    simpa using h

theorem generateGCodeMotion_shift_aux (tc : ToolConfig) (sz s t : ℝ)
    (pos : OriginPosition) :
    ∀ (segs : List ToolPathSegment) (st : GState) (acc : List GLine),
      WFState st →
      segs.foldl (fun acc seg =>
          let r := processSegment tc ⟨sz, s, t, pos⟩ acc.1 seg
          (r.1, acc.2 ++ r.2))
        (shiftState s t st, acc.map (shiftLine s t)) =
      ((shiftState s t (segs.foldl (fun acc seg =>
          let r := processSegment tc ⟨sz, 0, 0, pos⟩ acc.1 seg
          (r.1, acc.2 ++ r.2)) (st, acc)).1),
        (segs.foldl (fun acc seg =>
          let r := processSegment tc ⟨sz, 0, 0, pos⟩ acc.1 seg
          (r.1, acc.2 ++ r.2)) (st, acc)).2.map (shiftLine s t)) := by
  intro segs
  induction segs with
  | nil => intro st acc _; rfl
  | cons seg rest ih =>
    intro st acc hwf
    obtain ⟨hs, hw⟩ := processSegment_shift tc sz s t pos st seg hwf
    simp only [List.foldl_cons, hs]
    rw [← List.map_append]
    exact ih (processSegment tc ⟨sz, 0, 0, pos⟩ st seg).1
      (acc ++ (processSegment tc ⟨sz, 0, 0, pos⟩ st seg).2) hw

/-- C8: the nine origin anchors map to the deterministic offset table
(X: 0 / -width/2 / -width for left/center/right; Y: 0 / -height/2 /
-height for front / vertical-center row / back); the offsets shift every
emitted X and Y and never Z (the motion output with offsets (ox, oy) is
exactly the zero-offset output with (ox, oy) added to each line's X and Y);
in particular origin `center` on 200x200 stock gives (-100, -100) and the
design point (100, 100) emits with target (0, 0). -/
theorem C8_origin_offsets :
    (∀ w h : ℝ,
      computeOriginOffsets .front_left w h = (0, 0) ∧
      computeOriginOffsets .front_center w h = (-w / 2, 0) ∧
      computeOriginOffsets .front_right w h = (-w, 0) ∧
      computeOriginOffsets .left w h = (0, -h / 2) ∧
      computeOriginOffsets .center w h = (-w / 2, -h / 2) ∧
      computeOriginOffsets .right w h = (-w, -h / 2) ∧
      computeOriginOffsets .back_left w h = (0, -h) ∧
      computeOriginOffsets .back_center w h = (-w / 2, -h) ∧
      computeOriginOffsets .back_right w h = (-w, -h)) ∧
    (∀ (tp : ToolPath) (tc : ToolConfig) (sz ox oy : ℝ)
        (pos : OriginPosition),
      generateGCodeMotion tp tc ⟨sz, ox, oy, pos⟩ =
        (generateGCodeMotion tp tc ⟨sz, 0, 0, pos⟩).map (shiftLine ox oy)) ∧
    (computeOriginOffsets .center 200 200 = (-100, -100) ∧
      ∀ tc : ToolConfig,
        generateGCodeMotion ⟨[⟨[⟨100, 100, -1⟩], .rapid⟩]⟩ tc
          ⟨5, -100, -100, .center⟩ = [⟨.g0, 0, 0, -1⟩]) := by
  have htab : ∀ w h : ℝ,
      computeOriginOffsets .front_left w h = (0, 0) ∧
      computeOriginOffsets .front_center w h = (-w / 2, 0) ∧
      computeOriginOffsets .front_right w h = (-w, 0) ∧
      computeOriginOffsets .left w h = (0, -h / 2) ∧
      computeOriginOffsets .center w h = (-w / 2, -h / 2) ∧
      computeOriginOffsets .right w h = (-w, -h / 2) ∧
      computeOriginOffsets .back_left w h = (0, -h) ∧
      computeOriginOffsets .back_center w h = (-w / 2, -h) ∧
      computeOriginOffsets .back_right w h = (-w, -h) := by
    intro w h
    refine ⟨?_, ?_, ?_, ?_, ?_, ?_, ?_, ?_, ?_⟩ <;>
      simp only [computeOriginOffsets, originPositionString]
    · rw [if_pos (show strIncludes "front-left" "left" by unfold strIncludes; decide),
        if_pos (show strStartsWith "front-left" "front" by unfold strStartsWith; decide)]
    · rw [if_neg (show ¬strIncludes "front-center" "left" by unfold strIncludes; decide),
        if_neg (show ¬strIncludes "front-center" "right" by unfold strIncludes; decide),
        if_pos (show strStartsWith "front-center" "front" by unfold strStartsWith; decide)]
    · rw [if_neg (show ¬strIncludes "front-right" "left" by unfold strIncludes; decide),
        if_pos (show strIncludes "front-right" "right" by unfold strIncludes; decide),
        if_pos (show strStartsWith "front-right" "front" by unfold strStartsWith; decide)]
    · rw [if_pos (show strIncludes "left" "left" by unfold strIncludes; decide),
        if_neg (show ¬strStartsWith "left" "front" by unfold strStartsWith; decide),
        if_neg (show ¬strStartsWith "left" "back" by unfold strStartsWith; decide)]
    · rw [if_neg (show ¬strIncludes "center" "left" by unfold strIncludes; decide),
        if_neg (show ¬strIncludes "center" "right" by unfold strIncludes; decide),
        if_neg (show ¬strStartsWith "center" "front" by unfold strStartsWith; decide),
        if_neg (show ¬strStartsWith "center" "back" by unfold strStartsWith; decide)]
    · rw [if_neg (show ¬strIncludes "right" "left" by unfold strIncludes; decide),
        if_pos (show strIncludes "right" "right" by unfold strIncludes; decide),
        if_neg (show ¬strStartsWith "right" "front" by unfold strStartsWith; decide),
        if_neg (show ¬strStartsWith "right" "back" by unfold strStartsWith; decide)]
    · rw [if_pos (show strIncludes "back-left" "left" by unfold strIncludes; decide),
        if_neg (show ¬strStartsWith "back-left" "front" by unfold strStartsWith; decide),
        if_pos (show strStartsWith "back-left" "back" by unfold strStartsWith; decide)]
    · rw [if_neg (show ¬strIncludes "back-center" "left" by unfold strIncludes; decide),
        if_neg (show ¬strIncludes "back-center" "right" by unfold strIncludes; decide),
        if_neg (show ¬strStartsWith "back-center" "front" by unfold strStartsWith; decide),
        if_pos (show strStartsWith "back-center" "back" by unfold strStartsWith; decide)]
    · rw [if_neg (show ¬strIncludes "back-right" "left" by unfold strIncludes; decide),
        if_pos (show strIncludes "back-right" "right" by unfold strIncludes; decide),
        if_neg (show ¬strStartsWith "back-right" "front" by unfold strStartsWith; decide),
        if_pos (show strStartsWith "back-right" "back" by unfold strStartsWith; decide)]
  refine ⟨htab, ?_, ?_, ?_⟩
  · intro tp tc sz ox oy pos
    have h := generateGCodeMotion_shift_aux tc sz ox oy pos tp.segments
      ⟨none, none, none, none⟩ [] (fun hx => absurd rfl hx)
    exact congrArg Prod.snd h
  · have h := (htab 200 200).2.2.2.2.1
    rw [h]
    norm_num
  · intro tc
    simp only [generateGCodeMotion, List.foldl_cons, List.foldl_nil,
      processSegment, stepFold, processStdPoint, skipPos, formatMove,
      coordChanged]
    norm_num

/-! ## Drop cutter (`drop-cutter.ts`) -/

/-- A `Triangle` from `stl.ts`. -/
structure Triangle where
  v0 : Point3D
  v1 : Point3D
  v2 : Point3D

/-- `ZMapConfig` from `stl.ts`. -/
structure ZMapConfig where
  resolution : ℝ
  gridWidth : ℕ
  gridHeight : ℕ
  physicalWidth : ℝ
  physicalHeight : ℝ

/-- The recurring `if (z > maxZ) maxZ = z` update, with `none` standing
for the JavaScript `-Infinity` sentinel. -/
def maxCand (maxZ : Option ℝ) (z : ℝ) : Option ℝ :=
  match maxZ with
  | none => some z
  | some v => if z > v then some z else some v

/-- `inTriXY` from `drop-cutter.ts`: point-in-triangle via cross-product
signs. -/
def inTriXY (px py ax ay bx bY cx cy : ℝ) : Prop :=
  let d1 := (px - bx) * (ay - bY) - (ax - bx) * (py - bY)
  let d2 := (px - cx) * (bY - cy) - (bx - cx) * (py - cy)
  let d3 := (px - ax) * (cy - ay) - (cx - ax) * (py - ay)
  let hasNeg := d1 < 0 ∨ d2 < 0 ∨ d3 < 0
  let hasPos := d1 > 0 ∨ d2 > 0 ∨ d3 > 0
  ¬(hasNeg ∧ hasPos)

/-- `planeZAt`: Z on the triangle plane, `none` (JS `-Infinity`) for
near-vertical triangles. -/
def planeZAt (px py v0x v0y v0z v1x v1y v1z v2x v2y v2z : ℝ) : Option ℝ :=
  let e1x := v1x - v0x
  let e1y := v1y - v0y
  let e1z := v1z - v0z
  let e2x := v2x - v0x
  let e2y := v2y - v0y
  let e2z := v2z - v0z
  let nz := e1x * e2y - e1y * e2x
  if |nz| < 1e-10 then none
  else
    let nx := e1y * e2z - e1z * e2y
    let ny := e1z * e2x - e1x * e2z
    some (v0z + (-nx * (px - v0x) - ny * (py - v0y)) / nz)

/-- `edgeFlatZ`: clamped closest point on the edge, flat-endmill contact. -/
def edgeFlatZ (px py ax ay az bx bY bz rSq : ℝ) (maxZ : Option ℝ) :
    Option ℝ :=
  let edx := bx - ax
  let edy := bY - ay
  let lenSq := edx * edx + edy * edy
  let t0 := ((px - ax) * edx + (py - ay) * edy) / lenSq
  let t := if lenSq > 1e-20 then (if t0 < 0 then 0 else if t0 > 1 then 1
    else t0) else 0
  let cx := ax + t * edx
  let cy := ay + t * edy
  let dx := cx - px
  let dy := cy - py
  if dx * dx + dy * dy > rSq then maxZ
  else maxCand maxZ (az + t * (bz - az))

/-- `edgeBallZ`: ball-nose edge contact
`edgeZ - radius + sqrt(rSq - dSq)`. -/
def edgeBallZ (px py ax ay az bx bY bz radius rSq : ℝ) (maxZ : Option ℝ) :
    Option ℝ :=
  let edx := bx - ax
  let edy := bY - ay
  let lenSq := edx * edx + edy * edy
  let t0 := ((px - ax) * edx + (py - ay) * edy) / lenSq
  let t := if lenSq > 1e-20 then (if t0 < 0 then 0 else if t0 > 1 then 1
    else t0) else 0
  let cx := ax + t * edx
  let cy := ay + t * edy
  let dx := cx - px
  let dy := cy - py
  let dSq := dx * dx + dy * dy
  if dSq ≥ rSq then maxZ
  else
    let edgeZ := az + t * (bz - az)
    maxCand maxZ (edgeZ - radius + Real.sqrt (rSq - dSq))

/-- `edgeVBitZ`: V-bit edge contact `edgeZ - sqrt(dSq)/tanHalf`. -/
def edgeVBitZ (px py ax ay az bx bY bz rSq tanHalf : ℝ)
    (maxZ : Option ℝ) : Option ℝ :=
  let edx := bx - ax
  let edy := bY - ay
  let lenSq := edx * edx + edy * edy
  let t0 := ((px - ax) * edx + (py - ay) * edy) / lenSq
  let t := if lenSq > 1e-20 then (if t0 < 0 then 0 else if t0 > 1 then 1
    else t0) else 0
  let cx := ax + t * edx
  let cy := ay + t * edy
  let dx := cx - px
  let dy := cy - py
  let dSq := dx * dx + dy * dy
  if dSq ≥ rSq then maxZ
  else
    let edgeZ := az + t * (bz - az)
    maxCand maxZ (edgeZ - Real.sqrt dSq / tanHalf)

/-- The per-vertex check of `dropFlatFast`. -/
def vertexFlatZ (px py vx vy vz rSq : ℝ) (maxZ : Option ℝ) : Option ℝ :=
  let dx := vx - px
  let dy := vy - py
  if dx * dx + dy * dy ≤ rSq then maxCand maxZ vz
  else maxZ

/-- The per-vertex check of `dropBallFast`. -/
def vertexBallZ (px py vx vy vz radius rSq : ℝ) (maxZ : Option ℝ) :
    Option ℝ :=
  let dx := vx - px
  let dy := vy - py
  let dSq := dx * dx + dy * dy
  if dSq < rSq then maxCand maxZ (vz - radius + Real.sqrt (rSq - dSq))
  else maxZ

/-- The per-vertex check of `dropVBitFast`. -/
def vertexVBitZ (px py vx vy vz rSq tanHalf : ℝ) (maxZ : Option ℝ) :
    Option ℝ :=
  let dx := vx - px
  let dy := vy - py
  let dSq := dx * dx + dy * dy
  if dSq < rSq then maxCand maxZ (vz - Real.sqrt dSq / tanHalf)
  else maxZ

/-- The edge and vertex checks of `dropFlatFast` (the code after the
possible early face return). -/
def dropFlatRest (px py : ℝ) (tri : Triangle) (rSq : ℝ) : Option ℝ :=
  let m1 := edgeFlatZ px py tri.v0.x tri.v0.y tri.v0.z tri.v1.x tri.v1.y
    tri.v1.z rSq none
  let m2 := edgeFlatZ px py tri.v1.x tri.v1.y tri.v1.z tri.v2.x tri.v2.y
    tri.v2.z rSq m1
  let m3 := edgeFlatZ px py tri.v2.x tri.v2.y tri.v2.z tri.v0.x tri.v0.y
    tri.v0.z rSq m2
  let m4 := vertexFlatZ px py tri.v0.x tri.v0.y tri.v0.z rSq m3
  let m5 := vertexFlatZ px py tri.v1.x tri.v1.y tri.v1.z rSq m4
  vertexFlatZ px py tri.v2.x tri.v2.y tri.v2.z rSq m5

/-- `dropFlatFast`: face check with early return, then edges and
vertices. -/
def dropFlatFast (px py : ℝ) (tri : Triangle) (radius rSq : ℝ) :
    Option ℝ :=
  if inTriXY px py tri.v0.x tri.v0.y tri.v1.x tri.v1.y tri.v2.x tri.v2.y then
    match planeZAt px py tri.v0.x tri.v0.y tri.v0.z tri.v1.x tri.v1.y
      tri.v1.z tri.v2.x tri.v2.y tri.v2.z with
    | some z => some z
    | none => dropFlatRest px py tri rSq
  else dropFlatRest px py tri rSq

/-- The face-check candidate of `dropBallFast` (inline normal with the
two-stage verticality guard). -/
def ballFaceCand (px py : ℝ) (tri : Triangle) : Option ℝ :=
  if inTriXY px py tri.v0.x tri.v0.y tri.v1.x tri.v1.y tri.v2.x tri.v2.y then
    let e1x := tri.v1.x - tri.v0.x
    let e1y := tri.v1.y - tri.v0.y
    let e1z := tri.v1.z - tri.v0.z
    let e2x := tri.v2.x - tri.v0.x
    let e2y := tri.v2.y - tri.v0.y
    let e2z := tri.v2.z - tri.v0.z
    let nx := e1y * e2z - e1z * e2y
    let ny := e1z * e2x - e1x * e2z
    let nz := e1x * e2y - e1y * e2x
    if |nz| > 1e-10 then
      let nLenSq := nx * nx + ny * ny + nz * nz
      if nz * nz / nLenSq > 1e-8 then
        maxCand none
          (tri.v0.z + (-nx * (px - tri.v0.x) - ny * (py - tri.v0.y)) / nz)
      else none
    else none
  else none

/-- `dropBallFast`: face, edge and vertex candidates combined by running
maximum. -/
def dropBallFast (px py : ℝ) (tri : Triangle) (radius rSq : ℝ) :
    Option ℝ :=
  let m0 := ballFaceCand px py tri
  let m1 := edgeBallZ px py tri.v0.x tri.v0.y tri.v0.z tri.v1.x tri.v1.y
    tri.v1.z radius rSq m0
  let m2 := edgeBallZ px py tri.v1.x tri.v1.y tri.v1.z tri.v2.x tri.v2.y
    tri.v2.z radius rSq m1
  let m3 := edgeBallZ px py tri.v2.x tri.v2.y tri.v2.z tri.v0.x tri.v0.y
    tri.v0.z radius rSq m2
  let m4 := vertexBallZ px py tri.v0.x tri.v0.y tri.v0.z radius rSq m3
  let m5 := vertexBallZ px py tri.v1.x tri.v1.y tri.v1.z radius rSq m4
  vertexBallZ px py tri.v2.x tri.v2.y tri.v2.z radius rSq m5

/-- The face-check candidate of `dropVBitFast`. -/
def vbitFaceCand (px py : ℝ) (tri : Triangle) : Option ℝ :=
  if inTriXY px py tri.v0.x tri.v0.y tri.v1.x tri.v1.y tri.v2.x tri.v2.y then
    match planeZAt px py tri.v0.x tri.v0.y tri.v0.z tri.v1.x tri.v1.y
      tri.v1.z tri.v2.x tri.v2.y tri.v2.z with
    | some pz => maxCand none pz
    | none => none
  else none

/-- `dropVBitFast`. -/
def dropVBitFast (px py : ℝ) (tri : Triangle) (radius rSq tanHalf : ℝ) :
    Option ℝ :=
  let m0 := vbitFaceCand px py tri
  let m1 := edgeVBitZ px py tri.v0.x tri.v0.y tri.v0.z tri.v1.x tri.v1.y
    tri.v1.z rSq tanHalf m0
  let m2 := edgeVBitZ px py tri.v1.x tri.v1.y tri.v1.z tri.v2.x tri.v2.y
    tri.v2.z rSq tanHalf m1
  let m3 := edgeVBitZ px py tri.v2.x tri.v2.y tri.v2.z tri.v0.x tri.v0.y
    tri.v0.z rSq tanHalf m2
  let m4 := vertexVBitZ px py tri.v0.x tri.v0.y tri.v0.z rSq tanHalf m3
  let m5 := vertexVBitZ px py tri.v1.x tri.v1.y tri.v1.z rSq tanHalf m4
  vertexVBitZ px py tri.v2.x tri.v2.y tri.v2.z rSq tanHalf m5

/-- `dropCutterOnTriangle`: the unaccelerated single-triangle contact
height (`none` = JS `-Infinity`, no contact). -/
def dropCutterOnTriangle (px py : ℝ) (tri : Triangle)
    (toolConfig : ToolConfig) (toolRadius : ℝ) : Option ℝ :=
  let rSq := toolRadius * toolRadius
  match toolConfig.type with
  | .flat_end => dropFlatFast px py tri toolRadius rSq
  | .ball_nose => dropBallFast px py tri toolRadius rSq
  | .v_bit => dropVBitFast px py tri toolRadius rSq
      (Real.tan (degToRad (toolConfig.angle / 2)))

/-- JavaScript `(x | 0)`: truncation toward zero. -/
def jsTrunc (x : ℝ) : ℤ := if 0 ≤ x then ⌊x⌋ else ⌈x⌉

/-- Per-triangle `Math.max(z0, z1, z2)` used for the early-exit prune. -/
def triMaxZ (tri : Triangle) : ℝ := max tri.v0.z (max tri.v1.z tri.v2.z)

/-- Triangle bounding-box extents (`Math.min/max` over the vertices). -/
def triMinX (tri : Triangle) : ℝ := min tri.v0.x (min tri.v1.x tri.v2.x)

def triMaxX (tri : Triangle) : ℝ := max tri.v0.x (max tri.v1.x tri.v2.x)

def triMinY (tri : Triangle) : ℝ := min tri.v0.y (min tri.v1.y tri.v2.y)

def triMaxY (tri : Triangle) : ℝ := max tri.v0.y (max tri.v1.y tri.v2.y)

/-- The prune test `triMaxZ[ti] <= maxZ` (false against `-Infinity`). -/
def leOpt (x : ℝ) : Option ℝ → Prop
  | none => False
  | some v => x ≤ v

/-- Membership of a triangle in bucket `(r, c)`: the push loop of
`computeHeightMapOptimized` inserts triangle `t` into exactly the buckets
satisfying this predicate (grid-overlap check, then the clamped
radius-expanded bounding-box index ranges). -/
def inBucket (toolRadius invCell pw ph : ℝ) (bCols bRows r c : ℤ)
    (tri : Triangle) : Prop :=
  let minX := triMinX tri - toolRadius
  let minY := triMinY tri - toolRadius
  let maxX := triMaxX tri + toolRadius
  let maxY := triMaxY tri + toolRadius
  ¬(maxX < 0 ∨ minX > pw ∨ maxY < 0 ∨ minY > ph) ∧
  max 0 (jsTrunc (minX * invCell)) ≤ c ∧
  c ≤ min (bCols - 1) (jsTrunc (maxX * invCell)) ∧
  max 0 (jsTrunc (minY * invCell)) ≤ r ∧
  r ≤ min (bRows - 1) (jsTrunc (maxY * invCell))

/-- The inner bucket loop: fold with the `triMaxZ` early-exit prune and
the running maximum. -/
def pruneFold (f : Triangle → Option ℝ) (ts : List Triangle) : Option ℝ :=
  ts.foldl (fun maxZ tri =>
    if leOpt (triMaxZ tri) maxZ then maxZ
    else match f tri with
      | none => maxZ
      | some z => maxCand maxZ z) none

/-- The value `computeHeightMapOptimized` stores at grid cell
`(gx, gy)` (non-empty triangle list): bucket lookup, pruned scan,
`-Infinity` normalised to 0. -/
def cellValueOptimized (tris : List Triangle) (config : ZMapConfig)
    (toolConfig : ToolConfig) (gx gy : ℕ) : ℝ :=
  let toolRadius := toolConfig.diameter / 2
  let cellSize := max (toolRadius * 4)
    (max config.physicalWidth config.physicalHeight / 32)
  let invCell := 1 / cellSize
  let bCols : ℤ := max 1 (jsTrunc (config.physicalWidth * invCell) + 2)
  let bRows : ℤ := max 1 (jsTrunc (config.physicalHeight * invCell) + 2)
  let xScale := if 1 < config.gridWidth then
    config.physicalWidth / ((config.gridWidth - 1 : ℕ) : ℝ) else 0
  let yScale := if 1 < config.gridHeight then
    config.physicalHeight / ((config.gridHeight - 1 : ℕ) : ℝ) else 0
  let px := (gx : ℝ) * xScale
  let py := (gy : ℝ) * yScale
  let bRow := min (bRows - 1) (max 0 (jsTrunc (py * invCell)))
  let bCol := min (bCols - 1) (max 0 (jsTrunc (px * invCell)))
  let bucket := tris.filter fun t =>
    decide (inBucket toolRadius invCell config.physicalWidth
      config.physicalHeight bCols bRows bRow bCol t)
  match pruneFold (fun t => dropCutterOnTriangle px py t toolConfig
    toolRadius) bucket with
  | none => 0
  | some m => m

/-- The height-map cell value of `computeHeightMap` /
`computeHeightMapOptimized` (empty input fills 0). -/
def computeHeightMapValue (tris : List Triangle) (config : ZMapConfig)
    (toolConfig : ToolConfig) (gx gy : ℕ) : ℝ :=
  if tris.length = 0 then 0
  else cellValueOptimized tris config toolConfig gx gy

/-- Maximum on `Option ℝ` with `none` as `-Infinity`. -/
def maxOptD : Option ℝ → Option ℝ → Option ℝ
  | none, b => b
  | some a, none => some a
  | some a, some b => some (max a b)

/-- Modelled from the spec: each cell equals the maximum over all
triangles of the unaccelerated `dropCutterOnTriangle` at the cell XY
position, with no-contact cells normalised to 0. -/
def specCellValue (tris : List Triangle) (config : ZMapConfig)
    (toolConfig : ToolConfig) (gx gy : ℕ) : ℝ :=
  let xScale := if 1 < config.gridWidth then
    config.physicalWidth / ((config.gridWidth - 1 : ℕ) : ℝ) else 0
  let yScale := if 1 < config.gridHeight then
    config.physicalHeight / ((config.gridHeight - 1 : ℕ) : ℝ) else 0
  let px := (gx : ℝ) * xScale
  let py := (gy : ℝ) * yScale
  match tris.foldl (fun m t => maxOptD m (dropCutterOnTriangle px py t
    toolConfig (toolConfig.diameter / 2))) none with
  | none => 0
  | some m => m

theorem maxCand_some_eq (v z : ℝ) : maxCand (some v) z = some (max v z) := by
  show (if z > v then some z else some v) = some (max v z)
  split
  · rw [max_eq_right (le_of_lt (by assumption))]
  · rw [max_eq_left (le_of_not_lt (by assumption))]

theorem maxCand_mem (m : Option ℝ) (z v : ℝ) (h : maxCand m z = some v) :
    v = z ∨ m = some v := by
  cases m with
  | none =>
    rw [show maxCand none z = some z from rfl] at h
    left; exact (Option.some_inj.mp h).symm
  | some w =>
    rw [show maxCand (some w) z = if z > w then some z else some w from rfl]
      at h
    split at h
    · left; exact (Option.some_inj.mp h).symm
    · right; rw [Option.some_inj.mp h]

theorem maxCand_ne_none (m : Option ℝ) (z : ℝ) : maxCand m z ≠ none := by
  cases m with
  | none =>
    rw [show maxCand none z = some z from rfl]
    simp
  | some w =>
    rw [show maxCand (some w) z = if z > w then some z else some w from rfl]
    split <;> simp

theorem clamp01 (lenSq t0 : ℝ) :
    0 ≤ (if lenSq > 1e-20 then (if t0 < 0 then 0 else if t0 > 1 then 1
      else t0) else (0:ℝ)) ∧
    (if lenSq > 1e-20 then (if t0 < 0 then 0 else if t0 > 1 then 1
      else t0) else (0:ℝ)) ≤ 1 := by
  split_ifs <;> constructor <;> linarith

theorem seg_coord_bounds (a b t : ℝ) (ht0 : 0 ≤ t) (ht1 : t ≤ 1) :
    min a b ≤ a + t * (b - a) ∧ a + t * (b - a) ≤ max a b := by
  rcases le_total a b with h | h
  · rw [min_eq_left h, max_eq_right h]
    constructor <;> nlinarith
  · rw [min_eq_right h, max_eq_left h]
    constructor <;> nlinarith

theorem near_coord_bounds (c p r sq : ℝ) (hr : 0 ≤ r)
    (h : (c - p) * (c - p) ≤ sq) (hsq : sq ≤ r * r) :
    c - r ≤ p ∧ p ≤ c + r := by
  constructor <;> nlinarith

theorem bary_sum (px py ax ay bx bY cx cy : ℝ) :
    ((px - bx) * (ay - bY) - (ax - bx) * (py - bY)) +
    ((px - cx) * (bY - cy) - (bx - cx) * (py - cy)) +
    ((px - ax) * (cy - ay) - (cx - ax) * (py - ay)) =
      (bx - ax) * (cy - ay) - (bY - ay) * (cx - ax) := by ring

theorem bary_coord (px py ax ay bx bY cx cy va vb vc X : ℝ)
    (hin : inTriXY px py ax ay bx bY cx cy)
    (hnz : (bx - ax) * (cy - ay) - (bY - ay) * (cx - ax) ≠ 0)
    (hX : X * ((bx - ax) * (cy - ay) - (bY - ay) * (cx - ax)) =
      ((px - cx) * (bY - cy) - (bx - cx) * (py - cy)) * va +
      ((px - ax) * (cy - ay) - (cx - ax) * (py - ay)) * vb +
      ((px - bx) * (ay - bY) - (ax - bx) * (py - bY)) * vc) :
    min va (min vb vc) ≤ X ∧ X ≤ max va (max vb vc) := by
  set d1 := (px - bx) * (ay - bY) - (ax - bx) * (py - bY) with hd1
  set d2 := (px - cx) * (bY - cy) - (bx - cx) * (py - cy) with hd2
  set d3 := (px - ax) * (cy - ay) - (cx - ax) * (py - ay) with hd3
  have hS : d1 + d2 + d3 = (bx - ax) * (cy - ay) - (bY - ay) * (cx - ax) := by
    rw [hd1, hd2, hd3]; ring
  unfold inTriXY at hin
  rw [← hS] at hnz hX
  have hM1 : va ≤ max va (max vb vc) := le_max_left _ _
  have hM2 : vb ≤ max va (max vb vc) :=
    le_trans (le_max_left _ _) (le_max_right _ _)
  have hM3 : vc ≤ max va (max vb vc) :=
    le_trans (le_max_right _ _) (le_max_right _ _)
  have hm1 : min va (min vb vc) ≤ va := min_le_left _ _
  have hm2 : min va (min vb vc) ≤ vb :=
    le_trans (min_le_right _ _) (min_le_left _ _)
  have hm3 : min va (min vb vc) ≤ vc :=
    le_trans (min_le_right _ _) (min_le_right _ _)
  rcases lt_trichotomy (d1 + d2 + d3) 0 with hS0 | hS0 | hS0
  · have hpos : ¬(d1 > 0 ∨ d2 > 0 ∨ d3 > 0) := by
      intro hp
      exact hin ⟨by
        by_contra hneg
        push_neg at hneg
        obtain ⟨h1, h2, h3⟩ := hneg
        linarith, hp⟩
    push_neg at hpos
    obtain ⟨h1, h2, h3⟩ := hpos
    constructor
    · nlinarith
    · nlinarith
  · exact absurd hS0 hnz
  · have hneg : ¬(d1 < 0 ∨ d2 < 0 ∨ d3 < 0) := by
      intro hn
      exact hin ⟨hn, by
        by_contra hp
        push_neg at hp
        obtain ⟨h1, h2, h3⟩ := hp
        linarith⟩
    push_neg at hneg
    obtain ⟨h1, h2, h3⟩ := hneg
    constructor
    · nlinarith
    · nlinarith

theorem edgeFlatZ_le (px py ax ay az bx bY bz rSq B : ℝ) (m : Option ℝ)
    (hm : ∀ v, m = some v → v ≤ B) (ha : az ≤ B) (hb : bz ≤ B) :
    ∀ v, edgeFlatZ px py ax ay az bx bY bz rSq m = some v → v ≤ B := by
  intro v h
  unfold edgeFlatZ at h
  dsimp only at h
  set t := (if (bx - ax) * (bx - ax) + (bY - ay) * (bY - ay) > 1e-20 then
      (if ((px - ax) * (bx - ax) + (py - ay) * (bY - ay)) /
          ((bx - ax) * (bx - ax) + (bY - ay) * (bY - ay)) < 0 then (0:ℝ)
        else if ((px - ax) * (bx - ax) + (py - ay) * (bY - ay)) /
          ((bx - ax) * (bx - ax) + (bY - ay) * (bY - ay)) > 1 then 1
        else ((px - ax) * (bx - ax) + (py - ay) * (bY - ay)) /
          ((bx - ax) * (bx - ax) + (bY - ay) * (bY - ay)))
    else 0) with ht
  have hc : 0 ≤ t ∧ t ≤ 1 := by
    rw [ht]
    exact clamp01 _ _
  split at h
  · exact hm v h
  · rcases maxCand_mem _ _ _ h with hv | hv
    · rw [hv]
      calc az + t * (bz - az) ≤ max az bz :=
            (seg_coord_bounds az bz t hc.1 hc.2).2
        _ ≤ B := max_le ha hb
    · exact hm v hv

theorem edgeFlatZ_fire (px py ax ay az bx bY bz rSq : ℝ) (m : Option ℝ)
    (h : edgeFlatZ px py ax ay az bx bY bz rSq m ≠ none) :
    m ≠ none ∨
    ∃ t, 0 ≤ t ∧ t ≤ 1 ∧
      (ax + t * (bx - ax) - px) * (ax + t * (bx - ax) - px) +
      (ay + t * (bY - ay) - py) * (ay + t * (bY - ay) - py) ≤ rSq := by
  unfold edgeFlatZ at h
  dsimp only at h
  set t := (if (bx - ax) * (bx - ax) + (bY - ay) * (bY - ay) > 1e-20 then
      (if ((px - ax) * (bx - ax) + (py - ay) * (bY - ay)) /
          ((bx - ax) * (bx - ax) + (bY - ay) * (bY - ay)) < 0 then (0:ℝ)
        else if ((px - ax) * (bx - ax) + (py - ay) * (bY - ay)) /
          ((bx - ax) * (bx - ax) + (bY - ay) * (bY - ay)) > 1 then 1
        else ((px - ax) * (bx - ax) + (py - ay) * (bY - ay)) /
          ((bx - ax) * (bx - ax) + (bY - ay) * (bY - ay)))
    else 0) with ht
  have hc : 0 ≤ t ∧ t ≤ 1 := by
    rw [ht]
    exact clamp01 _ _
  split at h
  · exact Or.inl h
  · exact Or.inr ⟨t, hc.1, hc.2, le_of_not_lt (by assumption)⟩

theorem edgeBallZ_le (px py ax ay az bx bY bz radius rSq B : ℝ)
    (m : Option ℝ) (hr : 0 ≤ radius) (hrsq : rSq = radius * radius)
    (hm : ∀ v, m = some v → v ≤ B) (ha : az ≤ B) (hb : bz ≤ B) :
    ∀ v, edgeBallZ px py ax ay az bx bY bz radius rSq m = some v →
      v ≤ B := by
  intro v h
  unfold edgeBallZ at h
  dsimp only at h
  set t := (if (bx - ax) * (bx - ax) + (bY - ay) * (bY - ay) > 1e-20 then
      (if ((px - ax) * (bx - ax) + (py - ay) * (bY - ay)) /
          ((bx - ax) * (bx - ax) + (bY - ay) * (bY - ay)) < 0 then (0:ℝ)
        else if ((px - ax) * (bx - ax) + (py - ay) * (bY - ay)) /
          ((bx - ax) * (bx - ax) + (bY - ay) * (bY - ay)) > 1 then 1
        else ((px - ax) * (bx - ax) + (py - ay) * (bY - ay)) /
          ((bx - ax) * (bx - ax) + (bY - ay) * (bY - ay)))
    else 0) with ht
  have hc : 0 ≤ t ∧ t ≤ 1 := by
    rw [ht]
    exact clamp01 _ _
  split at h
  · exact hm v h
  · rcases maxCand_mem _ _ _ h with hv | hv
    · rw [hv]
      have hsqrt : Real.sqrt (rSq - ((ax + t * (bx - ax) - px) *
          (ax + t * (bx - ax) - px) + (ay + t * (bY - ay) - py) *
          (ay + t * (bY - ay) - py))) ≤ radius := by
        calc Real.sqrt (rSq - ((ax + t * (bx - ax) - px) *
              (ax + t * (bx - ax) - px) + (ay + t * (bY - ay) - py) *
              (ay + t * (bY - ay) - py))) ≤ Real.sqrt rSq := by
              apply Real.sqrt_le_sqrt
              nlinarith [mul_self_nonneg (ax + t * (bx - ax) - px),
                mul_self_nonneg (ay + t * (bY - ay) - py)]
          _ = radius := by rw [hrsq, Real.sqrt_mul_self hr]
      have hseg : az + t * (bz - az) ≤ max az bz :=
        (seg_coord_bounds az bz t hc.1 hc.2).2
      have hB : max az bz ≤ B := max_le ha hb
      linarith
    · exact hm v hv

theorem edgeBallZ_fire (px py ax ay az bx bY bz radius rSq : ℝ)
    (m : Option ℝ)
    (h : edgeBallZ px py ax ay az bx bY bz radius rSq m ≠ none) :
    m ≠ none ∨
    ∃ t, 0 ≤ t ∧ t ≤ 1 ∧
      (ax + t * (bx - ax) - px) * (ax + t * (bx - ax) - px) +
      (ay + t * (bY - ay) - py) * (ay + t * (bY - ay) - py) ≤ rSq := by
  unfold edgeBallZ at h
  dsimp only at h
  set t := (if (bx - ax) * (bx - ax) + (bY - ay) * (bY - ay) > 1e-20 then
      (if ((px - ax) * (bx - ax) + (py - ay) * (bY - ay)) /
          ((bx - ax) * (bx - ax) + (bY - ay) * (bY - ay)) < 0 then (0:ℝ)
        else if ((px - ax) * (bx - ax) + (py - ay) * (bY - ay)) /
          ((bx - ax) * (bx - ax) + (bY - ay) * (bY - ay)) > 1 then 1
        else ((px - ax) * (bx - ax) + (py - ay) * (bY - ay)) /
          ((bx - ax) * (bx - ax) + (bY - ay) * (bY - ay)))
    else 0) with ht
  have hc : 0 ≤ t ∧ t ≤ 1 := by
    rw [ht]
    exact clamp01 _ _
  split at h
  · exact Or.inl h
  · exact Or.inr ⟨t, hc.1, hc.2, le_of_lt (lt_of_not_ge (by assumption))⟩

theorem edgeVBitZ_le (px py ax ay az bx bY bz rSq tanHalf B : ℝ)
    (m : Option ℝ) (ht2 : 0 < tanHalf)
    (hm : ∀ v, m = some v → v ≤ B) (ha : az ≤ B) (hb : bz ≤ B) :
    ∀ v, edgeVBitZ px py ax ay az bx bY bz rSq tanHalf m = some v →
      v ≤ B := by
  intro v h
  unfold edgeVBitZ at h
  dsimp only at h
  set t := (if (bx - ax) * (bx - ax) + (bY - ay) * (bY - ay) > 1e-20 then
      (if ((px - ax) * (bx - ax) + (py - ay) * (bY - ay)) /
          ((bx - ax) * (bx - ax) + (bY - ay) * (bY - ay)) < 0 then (0:ℝ)
        else if ((px - ax) * (bx - ax) + (py - ay) * (bY - ay)) /
          ((bx - ax) * (bx - ax) + (bY - ay) * (bY - ay)) > 1 then 1
        else ((px - ax) * (bx - ax) + (py - ay) * (bY - ay)) /
          ((bx - ax) * (bx - ax) + (bY - ay) * (bY - ay)))
    else 0) with ht
  have hc : 0 ≤ t ∧ t ≤ 1 := by
    rw [ht]
    exact clamp01 _ _
  split at h
  · exact hm v h
  · rcases maxCand_mem _ _ _ h with hv | hv
    · rw [hv]
      have hdiv : 0 ≤ Real.sqrt ((ax + t * (bx - ax) - px) *
          (ax + t * (bx - ax) - px) + (ay + t * (bY - ay) - py) *
          (ay + t * (bY - ay) - py)) / tanHalf :=
        div_nonneg (Real.sqrt_nonneg _) (le_of_lt ht2)
      have hseg : az + t * (bz - az) ≤ max az bz :=
        (seg_coord_bounds az bz t hc.1 hc.2).2
      have hB : max az bz ≤ B := max_le ha hb
      linarith
    · exact hm v hv

theorem edgeVBitZ_fire (px py ax ay az bx bY bz rSq tanHalf : ℝ)
    (m : Option ℝ)
    (h : edgeVBitZ px py ax ay az bx bY bz rSq tanHalf m ≠ none) :
    m ≠ none ∨
    ∃ t, 0 ≤ t ∧ t ≤ 1 ∧
      (ax + t * (bx - ax) - px) * (ax + t * (bx - ax) - px) +
      (ay + t * (bY - ay) - py) * (ay + t * (bY - ay) - py) ≤ rSq := by
  unfold edgeVBitZ at h
  dsimp only at h
  set t := (if (bx - ax) * (bx - ax) + (bY - ay) * (bY - ay) > 1e-20 then
      (if ((px - ax) * (bx - ax) + (py - ay) * (bY - ay)) /
          ((bx - ax) * (bx - ax) + (bY - ay) * (bY - ay)) < 0 then (0:ℝ)
        else if ((px - ax) * (bx - ax) + (py - ay) * (bY - ay)) /
          ((bx - ax) * (bx - ax) + (bY - ay) * (bY - ay)) > 1 then 1
        else ((px - ax) * (bx - ax) + (py - ay) * (bY - ay)) /
          ((bx - ax) * (bx - ax) + (bY - ay) * (bY - ay)))
    else 0) with ht
  have hc : 0 ≤ t ∧ t ≤ 1 := by
    rw [ht]
    exact clamp01 _ _
  split at h
  · exact Or.inl h
  · exact Or.inr ⟨t, hc.1, hc.2, le_of_lt (lt_of_not_ge (by assumption))⟩

theorem vertexFlatZ_le (px py vx vy vz rSq B : ℝ) (m : Option ℝ)
    (hm : ∀ v, m = some v → v ≤ B) (hv : vz ≤ B) :
    ∀ v, vertexFlatZ px py vx vy vz rSq m = some v → v ≤ B := by
  intro v h
  unfold vertexFlatZ at h
  dsimp only at h
  split at h
  · rcases maxCand_mem _ _ _ h with h' | h'
    · rw [h']; exact hv
    · exact hm v h'
  · exact hm v h

theorem vertexFlatZ_fire (px py vx vy vz rSq : ℝ) (m : Option ℝ)
    (h : vertexFlatZ px py vx vy vz rSq m ≠ none) :
    m ≠ none ∨ (vx - px) * (vx - px) + (vy - py) * (vy - py) ≤ rSq := by
  unfold vertexFlatZ at h
  dsimp only at h
  split at h
  · exact Or.inr (by assumption)
  · exact Or.inl h

theorem vertexBallZ_le (px py vx vy vz radius rSq B : ℝ) (m : Option ℝ)
    (hr : 0 ≤ radius) (hrsq : rSq = radius * radius)
    (hm : ∀ v, m = some v → v ≤ B) (hv : vz ≤ B) :
    ∀ v, vertexBallZ px py vx vy vz radius rSq m = some v → v ≤ B := by
  intro v h
  unfold vertexBallZ at h
  dsimp only at h
  split at h
  · rcases maxCand_mem _ _ _ h with h' | h'
    · rw [h']
      have hsqrt : Real.sqrt (rSq - ((vx - px) * (vx - px) +
          (vy - py) * (vy - py))) ≤ radius := by
        calc Real.sqrt _ ≤ Real.sqrt rSq := by
              apply Real.sqrt_le_sqrt
              nlinarith [mul_self_nonneg (vx - px), mul_self_nonneg (vy - py)]
          _ = radius := by rw [hrsq, Real.sqrt_mul_self hr]
      linarith
    · exact hm v h'
  · exact hm v h

theorem vertexBallZ_fire (px py vx vy vz radius rSq : ℝ) (m : Option ℝ)
    (h : vertexBallZ px py vx vy vz radius rSq m ≠ none) :
    m ≠ none ∨ (vx - px) * (vx - px) + (vy - py) * (vy - py) ≤ rSq := by
  unfold vertexBallZ at h
  dsimp only at h
  split at h
  · exact Or.inr (le_of_lt (by assumption))
  · exact Or.inl h

theorem vertexVBitZ_le (px py vx vy vz rSq tanHalf B : ℝ) (m : Option ℝ)
    (ht : 0 < tanHalf)
    (hm : ∀ v, m = some v → v ≤ B) (hv : vz ≤ B) :
    ∀ v, vertexVBitZ px py vx vy vz rSq tanHalf m = some v → v ≤ B := by
  intro v h
  unfold vertexVBitZ at h
  dsimp only at h
  split at h
  · rcases maxCand_mem _ _ _ h with h' | h'
    · rw [h']
      have hdiv : 0 ≤ Real.sqrt ((vx - px) * (vx - px) +
          (vy - py) * (vy - py)) / tanHalf :=
        div_nonneg (Real.sqrt_nonneg _) (le_of_lt ht)
      linarith
    · exact hm v h'
  · exact hm v h

theorem vertexVBitZ_fire (px py vx vy vz rSq tanHalf : ℝ) (m : Option ℝ)
    (h : vertexVBitZ px py vx vy vz rSq tanHalf m ≠ none) :
    m ≠ none ∨ (vx - px) * (vx - px) + (vy - py) * (vy - py) ≤ rSq := by
  unfold vertexVBitZ at h
  dsimp only at h
  split at h
  · exact Or.inr (le_of_lt (by assumption))
  · exact Or.inl h

theorem near_seg_bounds (px py ax ay bx bY r sq : ℝ) (hr : 0 ≤ r)
    (hsq : sq ≤ r * r)
    (h : ∃ t, 0 ≤ t ∧ t ≤ 1 ∧
      (ax + t * (bx - ax) - px) * (ax + t * (bx - ax) - px) +
      (ay + t * (bY - ay) - py) * (ay + t * (bY - ay) - py) ≤ sq) :
    min ax bx - r ≤ px ∧ px ≤ max ax bx + r ∧
    min ay bY - r ≤ py ∧ py ≤ max ay bY + r := by
  obtain ⟨t, ht0, ht1, hd⟩ := h
  have hcx := seg_coord_bounds ax bx t ht0 ht1
  have hcy := seg_coord_bounds ay bY t ht0 ht1
  have hx := near_coord_bounds (ax + t * (bx - ax)) px r sq hr
    (by nlinarith [mul_self_nonneg (ay + t * (bY - ay) - py)]) hsq
  have hy := near_coord_bounds (ay + t * (bY - ay)) py r sq hr
    (by nlinarith [mul_self_nonneg (ax + t * (bx - ax) - px)]) hsq
  exact ⟨by linarith [hcx.1, hx.1], by linarith [hcx.2, hx.2],
    by linarith [hcy.1, hy.1], by linarith [hcy.2, hy.2]⟩

theorem near_vertex_bounds (px py vx vy r sq : ℝ) (hr : 0 ≤ r)
    (hsq : sq ≤ r * r)
    (h : (vx - px) * (vx - px) + (vy - py) * (vy - py) ≤ sq) :
    vx - r ≤ px ∧ px ≤ vx + r ∧ vy - r ≤ py ∧ py ≤ vy + r := by
  have hx := near_coord_bounds vx px r sq hr
    (by nlinarith [mul_self_nonneg (vy - py)]) hsq
  have hy := near_coord_bounds vy py r sq hr
    (by nlinarith [mul_self_nonneg (vx - px)]) hsq
  exact ⟨hx.1, hx.2, hy.1, hy.2⟩

theorem planeZAt_some (px py v0x v0y v0z v1x v1y v1z v2x v2y v2z z : ℝ)
    (h : planeZAt px py v0x v0y v0z v1x v1y v1z v2x v2y v2z = some z) :
    ((v1x - v0x) * (v2y - v0y) - (v1y - v0y) * (v2x - v0x)) ≠ 0 ∧
    z * ((v1x - v0x) * (v2y - v0y) - (v1y - v0y) * (v2x - v0x)) =
      ((px - v2x) * (v1y - v2y) - (v1x - v2x) * (py - v2y)) * v0z +
      ((px - v0x) * (v2y - v0y) - (v2x - v0x) * (py - v0y)) * v1z +
      ((px - v1x) * (v0y - v1y) - (v0x - v1x) * (py - v1y)) * v2z := by
  unfold planeZAt at h
  dsimp only at h
  split at h
  · exact absurd h (by simp)
  · rename_i hlt
    have hnz : (v1x - v0x) * (v2y - v0y) - (v1y - v0y) * (v2x - v0x) ≠ 0 := by
      intro h0
      apply hlt
      rw [h0]
      norm_num
    refine ⟨hnz, ?_⟩
    have hz := (Option.some_inj.mp h).symm
    rw [hz]
    field_simp
    ring

theorem face_bounds (px py : ℝ) (tri : Triangle) (z : ℝ)
    (hin : inTriXY px py tri.v0.x tri.v0.y tri.v1.x tri.v1.y tri.v2.x
      tri.v2.y)
    (h : planeZAt px py tri.v0.x tri.v0.y tri.v0.z tri.v1.x tri.v1.y
      tri.v1.z tri.v2.x tri.v2.y tri.v2.z = some z) :
    z ≤ triMaxZ tri ∧ triMinX tri ≤ px ∧ px ≤ triMaxX tri ∧
    triMinY tri ≤ py ∧ py ≤ triMaxY tri := by
  obtain ⟨hnz, hid⟩ := planeZAt_some px py tri.v0.x tri.v0.y tri.v0.z
    tri.v1.x tri.v1.y tri.v1.z tri.v2.x tri.v2.y tri.v2.z z h
  have hz := bary_coord px py tri.v0.x tri.v0.y tri.v1.x tri.v1.y tri.v2.x
    tri.v2.y tri.v0.z tri.v1.z tri.v2.z z hin hnz hid
  have hx := bary_coord px py tri.v0.x tri.v0.y tri.v1.x tri.v1.y tri.v2.x
    tri.v2.y tri.v0.x tri.v1.x tri.v2.x px hin hnz (by ring)
  have hy := bary_coord px py tri.v0.x tri.v0.y tri.v1.x tri.v1.y tri.v2.x
    tri.v2.y tri.v0.y tri.v1.y tri.v2.y py hin hnz (by ring)
  exact ⟨hz.2, hx.1, hx.2, hy.1, hy.2⟩

theorem ballFaceCand_bounds (px py : ℝ) (tri : Triangle) (z : ℝ)
    (h : ballFaceCand px py tri = some z) :
    z ≤ triMaxZ tri ∧ triMinX tri ≤ px ∧ px ≤ triMaxX tri ∧
    triMinY tri ≤ py ∧ py ≤ triMaxY tri := by
  unfold ballFaceCand at h
  dsimp only at h
  split at h
  case isFalse => exact absurd h (by simp)
  case isTrue hin =>
  split at h
  case isFalse => exact absurd h (by simp)
  case isTrue hgt =>
  split at h
  case isFalse => exact absurd h (by simp)
  case isTrue =>
  have hnz : (tri.v1.x - tri.v0.x) * (tri.v2.y - tri.v0.y) -
      (tri.v1.y - tri.v0.y) * (tri.v2.x - tri.v0.x) ≠ 0 := by
    intro h0
    rw [h0] at hgt
    norm_num at hgt
  have hz := (Option.some_inj.mp h).symm
  have hid : z * ((tri.v1.x - tri.v0.x) * (tri.v2.y - tri.v0.y) -
      (tri.v1.y - tri.v0.y) * (tri.v2.x - tri.v0.x)) =
      ((px - tri.v2.x) * (tri.v1.y - tri.v2.y) -
        (tri.v1.x - tri.v2.x) * (py - tri.v2.y)) * tri.v0.z +
      ((px - tri.v0.x) * (tri.v2.y - tri.v0.y) -
        (tri.v2.x - tri.v0.x) * (py - tri.v0.y)) * tri.v1.z +
      ((px - tri.v1.x) * (tri.v0.y - tri.v1.y) -
        (tri.v0.x - tri.v1.x) * (py - tri.v1.y)) * tri.v2.z := by
    rw [hz]
    field_simp
    ring
  have hzB := bary_coord px py tri.v0.x tri.v0.y tri.v1.x tri.v1.y tri.v2.x
    tri.v2.y tri.v0.z tri.v1.z tri.v2.z z hin hnz hid
  have hx := bary_coord px py tri.v0.x tri.v0.y tri.v1.x tri.v1.y tri.v2.x
    tri.v2.y tri.v0.x tri.v1.x tri.v2.x px hin hnz (by ring)
  have hy := bary_coord px py tri.v0.x tri.v0.y tri.v1.x tri.v1.y tri.v2.x
    tri.v2.y tri.v0.y tri.v1.y tri.v2.y py hin hnz (by ring)
  exact ⟨hzB.2, hx.1, hx.2, hy.1, hy.2⟩

theorem vbitFaceCand_bounds (px py : ℝ) (tri : Triangle) (z : ℝ)
    (h : vbitFaceCand px py tri = some z) :
    z ≤ triMaxZ tri ∧ triMinX tri ≤ px ∧ px ≤ triMaxX tri ∧
    triMinY tri ≤ py ∧ py ≤ triMaxY tri := by
  unfold vbitFaceCand at h
  split at h
  case isFalse => exact absurd h (by simp)
  case isTrue hin =>
  cases hpz : planeZAt px py tri.v0.x tri.v0.y tri.v0.z tri.v1.x tri.v1.y
      tri.v1.z tri.v2.x tri.v2.y tri.v2.z with
  | none => rw [hpz] at h; exact absurd h (by simp)
  | some pz =>
    rw [hpz] at h
    rw [show (match some pz with
      | some pz => maxCand none pz
      | none => none) = some pz from rfl] at h
    rw [← Option.some_inj.mp h]
    exact face_bounds px py tri pz hin hpz

theorem seg_bbox_in_tri (px py ax ay bx bY r sq : ℝ) (tri : Triangle)
    (hr : 0 ≤ r) (hsq : sq ≤ r * r)
    (hax : triMinX tri ≤ ax) (hbx : triMinX tri ≤ bx)
    (hax' : ax ≤ triMaxX tri) (hbx' : bx ≤ triMaxX tri)
    (hay : triMinY tri ≤ ay) (hby : triMinY tri ≤ bY)
    (hay' : ay ≤ triMaxY tri) (hby' : bY ≤ triMaxY tri)
    (h : ∃ t, 0 ≤ t ∧ t ≤ 1 ∧
      (ax + t * (bx - ax) - px) * (ax + t * (bx - ax) - px) +
      (ay + t * (bY - ay) - py) * (ay + t * (bY - ay) - py) ≤ sq) :
    triMinX tri - r ≤ px ∧ px ≤ triMaxX tri + r ∧
    triMinY tri - r ≤ py ∧ py ≤ triMaxY tri + r := by
  obtain ⟨h1, h2, h3, h4⟩ := near_seg_bounds px py ax ay bx bY r sq hr hsq h
  have e1 : triMinX tri ≤ min ax bx := le_min hax hbx
  have e2 : max ax bx ≤ triMaxX tri := max_le hax' hbx'
  have e3 : triMinY tri ≤ min ay bY := le_min hay hby
  have e4 : max ay bY ≤ triMaxY tri := max_le hay' hby'
  exact ⟨by linarith, by linarith, by linarith, by linarith⟩

theorem vertex_bbox_in_tri (px py vx vy r sq : ℝ) (tri : Triangle)
    (hr : 0 ≤ r) (hsq : sq ≤ r * r)
    (hvx : triMinX tri ≤ vx) (hvx' : vx ≤ triMaxX tri)
    (hvy : triMinY tri ≤ vy) (hvy' : vy ≤ triMaxY tri)
    (h : (vx - px) * (vx - px) + (vy - py) * (vy - py) ≤ sq) :
    triMinX tri - r ≤ px ∧ px ≤ triMaxX tri + r ∧
    triMinY tri - r ≤ py ∧ py ≤ triMaxY tri + r := by
  obtain ⟨h1, h2, h3, h4⟩ := near_vertex_bounds px py vx vy r sq hr hsq h
  exact ⟨by linarith, by linarith, by linarith, by linarith⟩

theorem triMaxZ_v0 (tri : Triangle) : tri.v0.z ≤ triMaxZ tri :=
  le_max_left _ _

theorem triMaxZ_v1 (tri : Triangle) : tri.v1.z ≤ triMaxZ tri :=
  le_trans (le_max_left _ _) (le_max_right _ _)

theorem triMaxZ_v2 (tri : Triangle) : tri.v2.z ≤ triMaxZ tri :=
  le_trans (le_max_right _ _) (le_max_right _ _)

theorem triMinX_v0 (tri : Triangle) : triMinX tri ≤ tri.v0.x :=
  min_le_left _ _

theorem triMinX_v1 (tri : Triangle) : triMinX tri ≤ tri.v1.x :=
  le_trans (min_le_right _ _) (min_le_left _ _)

theorem triMinX_v2 (tri : Triangle) : triMinX tri ≤ tri.v2.x :=
  le_trans (min_le_right _ _) (min_le_right _ _)

theorem triMaxX_v0 (tri : Triangle) : tri.v0.x ≤ triMaxX tri :=
  le_max_left _ _

theorem triMaxX_v1 (tri : Triangle) : tri.v1.x ≤ triMaxX tri :=
  le_trans (le_max_left _ _) (le_max_right _ _)

theorem triMaxX_v2 (tri : Triangle) : tri.v2.x ≤ triMaxX tri :=
  le_trans (le_max_right _ _) (le_max_right _ _)

theorem triMinY_v0 (tri : Triangle) : triMinY tri ≤ tri.v0.y :=
  min_le_left _ _

theorem triMinY_v1 (tri : Triangle) : triMinY tri ≤ tri.v1.y :=
  le_trans (min_le_right _ _) (min_le_left _ _)

theorem triMinY_v2 (tri : Triangle) : triMinY tri ≤ tri.v2.y :=
  le_trans (min_le_right _ _) (min_le_right _ _)

theorem triMaxY_v0 (tri : Triangle) : tri.v0.y ≤ triMaxY tri :=
  le_max_left _ _

theorem triMaxY_v1 (tri : Triangle) : tri.v1.y ≤ triMaxY tri :=
  le_trans (le_max_left _ _) (le_max_right _ _)

theorem triMaxY_v2 (tri : Triangle) : tri.v2.y ≤ triMaxY tri :=
  le_trans (le_max_right _ _) (le_max_right _ _)

theorem dropFlatRest_le (px py : ℝ) (tri : Triangle) (rSq : ℝ) :
    ∀ v, dropFlatRest px py tri rSq = some v → v ≤ triMaxZ tri := by
  have h0 : ∀ v, (none : Option ℝ) = some v → v ≤ triMaxZ tri := by
    intro v hv
    exact absurd hv (by simp)
  have h1 := edgeFlatZ_le px py tri.v0.x tri.v0.y tri.v0.z tri.v1.x tri.v1.y
    tri.v1.z rSq (triMaxZ tri) none h0 (triMaxZ_v0 tri) (triMaxZ_v1 tri)
  have h2 := edgeFlatZ_le px py tri.v1.x tri.v1.y tri.v1.z tri.v2.x tri.v2.y
    tri.v2.z rSq (triMaxZ tri) _ h1 (triMaxZ_v1 tri) (triMaxZ_v2 tri)
  have h3 := edgeFlatZ_le px py tri.v2.x tri.v2.y tri.v2.z tri.v0.x tri.v0.y
    tri.v0.z rSq (triMaxZ tri) _ h2 (triMaxZ_v2 tri) (triMaxZ_v0 tri)
  have h4 := vertexFlatZ_le px py tri.v0.x tri.v0.y tri.v0.z rSq
    (triMaxZ tri) _ h3 (triMaxZ_v0 tri)
  have h5 := vertexFlatZ_le px py tri.v1.x tri.v1.y tri.v1.z rSq
    (triMaxZ tri) _ h4 (triMaxZ_v1 tri)
  have h6 := vertexFlatZ_le px py tri.v2.x tri.v2.y tri.v2.z rSq
    (triMaxZ tri) _ h5 (triMaxZ_v2 tri)
  intro v hv
  unfold dropFlatRest at hv
  exact h6 v hv

theorem dropFlatFast_le (px py : ℝ) (tri : Triangle) (radius rSq : ℝ) :
    ∀ v, dropFlatFast px py tri radius rSq = some v → v ≤ triMaxZ tri := by
  intro v h
  unfold dropFlatFast at h
  split at h
  case isTrue hin =>
    cases hpz : planeZAt px py tri.v0.x tri.v0.y tri.v0.z tri.v1.x tri.v1.y
        tri.v1.z tri.v2.x tri.v2.y tri.v2.z with
    | none =>
      rw [hpz] at h
      exact dropFlatRest_le px py tri rSq v h
    | some z =>
      rw [hpz] at h
      rw [← Option.some_inj.mp h]
      exact (face_bounds px py tri z hin hpz).1
  case isFalse =>
    exact dropFlatRest_le px py tri rSq v h

theorem dropFlatRest_bbox (px py : ℝ) (tri : Triangle) (radius rSq : ℝ)
    (hr : 0 ≤ radius) (hrsq : rSq = radius * radius)
    (h : dropFlatRest px py tri rSq ≠ none) :
    triMinX tri - radius ≤ px ∧ px ≤ triMaxX tri + radius ∧
    triMinY tri - radius ≤ py ∧ py ≤ triMaxY tri + radius := by
  have hsq : rSq ≤ radius * radius := le_of_eq hrsq
  unfold dropFlatRest at h
  rcases vertexFlatZ_fire px py tri.v2.x tri.v2.y tri.v2.z rSq _ h
    with h5 | hc
  swap
  · exact vertex_bbox_in_tri px py tri.v2.x tri.v2.y radius rSq tri hr hsq
      (triMinX_v2 tri) (triMaxX_v2 tri) (triMinY_v2 tri) (triMaxY_v2 tri) hc
  rcases vertexFlatZ_fire px py tri.v1.x tri.v1.y tri.v1.z rSq _ h5
    with h4 | hc
  swap
  · exact vertex_bbox_in_tri px py tri.v1.x tri.v1.y radius rSq tri hr hsq
      (triMinX_v1 tri) (triMaxX_v1 tri) (triMinY_v1 tri) (triMaxY_v1 tri) hc
  rcases vertexFlatZ_fire px py tri.v0.x tri.v0.y tri.v0.z rSq _ h4
    with h3 | hc
  swap
  · exact vertex_bbox_in_tri px py tri.v0.x tri.v0.y radius rSq tri hr hsq
      (triMinX_v0 tri) (triMaxX_v0 tri) (triMinY_v0 tri) (triMaxY_v0 tri) hc
  rcases edgeFlatZ_fire px py tri.v2.x tri.v2.y tri.v2.z tri.v0.x tri.v0.y
      tri.v0.z rSq _ h3 with h2 | hc
  swap
  · exact seg_bbox_in_tri px py tri.v2.x tri.v2.y tri.v0.x tri.v0.y radius
      rSq tri hr hsq (triMinX_v2 tri) (triMinX_v0 tri) (triMaxX_v2 tri)
      (triMaxX_v0 tri) (triMinY_v2 tri) (triMinY_v0 tri) (triMaxY_v2 tri)
      (triMaxY_v0 tri) hc
  rcases edgeFlatZ_fire px py tri.v1.x tri.v1.y tri.v1.z tri.v2.x tri.v2.y
      tri.v2.z rSq _ h2 with h1 | hc
  swap
  · exact seg_bbox_in_tri px py tri.v1.x tri.v1.y tri.v2.x tri.v2.y radius
      rSq tri hr hsq (triMinX_v1 tri) (triMinX_v2 tri) (triMaxX_v1 tri)
      (triMaxX_v2 tri) (triMinY_v1 tri) (triMinY_v2 tri) (triMaxY_v1 tri)
      (triMaxY_v2 tri) hc
  rcases edgeFlatZ_fire px py tri.v0.x tri.v0.y tri.v0.z tri.v1.x tri.v1.y
      tri.v1.z rSq _ h1 with h0 | hc
  swap
  · exact seg_bbox_in_tri px py tri.v0.x tri.v0.y tri.v1.x tri.v1.y radius
      rSq tri hr hsq (triMinX_v0 tri) (triMinX_v1 tri) (triMaxX_v0 tri)
      (triMaxX_v1 tri) (triMinY_v0 tri) (triMinY_v1 tri) (triMaxY_v0 tri)
      (triMaxY_v1 tri) hc
  exact absurd rfl h0

theorem face_bbox_pad (px py : ℝ) (tri : Triangle) (radius : ℝ)
    (hr : 0 ≤ radius)
    (hb : triMinX tri ≤ px ∧ px ≤ triMaxX tri ∧
      triMinY tri ≤ py ∧ py ≤ triMaxY tri) :
    triMinX tri - radius ≤ px ∧ px ≤ triMaxX tri + radius ∧
    triMinY tri - radius ≤ py ∧ py ≤ triMaxY tri + radius := by
  obtain ⟨h1, h2, h3, h4⟩ := hb
  exact ⟨by linarith, by linarith, by linarith, by linarith⟩

theorem dropFlatFast_bbox (px py : ℝ) (tri : Triangle) (radius rSq : ℝ)
    (hr : 0 ≤ radius) (hrsq : rSq = radius * radius)
    (h : dropFlatFast px py tri radius rSq ≠ none) :
    triMinX tri - radius ≤ px ∧ px ≤ triMaxX tri + radius ∧
    triMinY tri - radius ≤ py ∧ py ≤ triMaxY tri + radius := by
  unfold dropFlatFast at h
  split at h
  case isTrue hin =>
    cases hpz : planeZAt px py tri.v0.x tri.v0.y tri.v0.z tri.v1.x tri.v1.y
        tri.v1.z tri.v2.x tri.v2.y tri.v2.z with
    | none =>
      rw [hpz] at h
      exact dropFlatRest_bbox px py tri radius rSq hr hrsq h
    | some z =>
      have hf := face_bounds px py tri z hin hpz
      exact face_bbox_pad px py tri radius hr ⟨hf.2.1, hf.2.2.1,
        hf.2.2.2.1, hf.2.2.2.2⟩
  case isFalse =>
    exact dropFlatRest_bbox px py tri radius rSq hr hrsq h

theorem dropBallFast_le (px py : ℝ) (tri : Triangle) (radius rSq : ℝ)
    (hr : 0 ≤ radius) (hrsq : rSq = radius * radius) :
    ∀ v, dropBallFast px py tri radius rSq = some v → v ≤ triMaxZ tri := by
  have h0 : ∀ v, ballFaceCand px py tri = some v → v ≤ triMaxZ tri :=
    fun v hv => (ballFaceCand_bounds px py tri v hv).1
  have h1 := edgeBallZ_le px py tri.v0.x tri.v0.y tri.v0.z tri.v1.x tri.v1.y
    tri.v1.z radius rSq (triMaxZ tri) _ hr hrsq h0 (triMaxZ_v0 tri)
    (triMaxZ_v1 tri)
  have h2 := edgeBallZ_le px py tri.v1.x tri.v1.y tri.v1.z tri.v2.x tri.v2.y
    tri.v2.z radius rSq (triMaxZ tri) _ hr hrsq h1 (triMaxZ_v1 tri)
    (triMaxZ_v2 tri)
  have h3 := edgeBallZ_le px py tri.v2.x tri.v2.y tri.v2.z tri.v0.x tri.v0.y
    tri.v0.z radius rSq (triMaxZ tri) _ hr hrsq h2 (triMaxZ_v2 tri)
    (triMaxZ_v0 tri)
  have h4 := vertexBallZ_le px py tri.v0.x tri.v0.y tri.v0.z radius rSq
    (triMaxZ tri) _ hr hrsq h3 (triMaxZ_v0 tri)
  have h5 := vertexBallZ_le px py tri.v1.x tri.v1.y tri.v1.z radius rSq
    (triMaxZ tri) _ hr hrsq h4 (triMaxZ_v1 tri)
  have h6 := vertexBallZ_le px py tri.v2.x tri.v2.y tri.v2.z radius rSq
    (triMaxZ tri) _ hr hrsq h5 (triMaxZ_v2 tri)
  intro v hv
  unfold dropBallFast at hv
  exact h6 v hv

theorem dropBallFast_bbox (px py : ℝ) (tri : Triangle) (radius rSq : ℝ)
    (hr : 0 ≤ radius) (hrsq : rSq = radius * radius)
    (h : dropBallFast px py tri radius rSq ≠ none) :
    triMinX tri - radius ≤ px ∧ px ≤ triMaxX tri + radius ∧
    triMinY tri - radius ≤ py ∧ py ≤ triMaxY tri + radius := by
  have hsq : rSq ≤ radius * radius := le_of_eq hrsq
  unfold dropBallFast at h
  rcases vertexBallZ_fire px py tri.v2.x tri.v2.y tri.v2.z radius rSq _ h
    with h5 | hc
  swap
  · exact vertex_bbox_in_tri px py tri.v2.x tri.v2.y radius rSq tri hr hsq
      (triMinX_v2 tri) (triMaxX_v2 tri) (triMinY_v2 tri) (triMaxY_v2 tri) hc
  rcases vertexBallZ_fire px py tri.v1.x tri.v1.y tri.v1.z radius rSq _ h5
    with h4 | hc
  swap
  · exact vertex_bbox_in_tri px py tri.v1.x tri.v1.y radius rSq tri hr hsq
      (triMinX_v1 tri) (triMaxX_v1 tri) (triMinY_v1 tri) (triMaxY_v1 tri) hc
  rcases vertexBallZ_fire px py tri.v0.x tri.v0.y tri.v0.z radius rSq _ h4
    with h3 | hc
  swap
  · exact vertex_bbox_in_tri px py tri.v0.x tri.v0.y radius rSq tri hr hsq
      (triMinX_v0 tri) (triMaxX_v0 tri) (triMinY_v0 tri) (triMaxY_v0 tri) hc
  rcases edgeBallZ_fire px py tri.v2.x tri.v2.y tri.v2.z tri.v0.x tri.v0.y
      tri.v0.z radius rSq _ h3 with h2 | hc
  swap
  · exact seg_bbox_in_tri px py tri.v2.x tri.v2.y tri.v0.x tri.v0.y radius
      rSq tri hr hsq (triMinX_v2 tri) (triMinX_v0 tri) (triMaxX_v2 tri)
      (triMaxX_v0 tri) (triMinY_v2 tri) (triMinY_v0 tri) (triMaxY_v2 tri)
      (triMaxY_v0 tri) hc
  rcases edgeBallZ_fire px py tri.v1.x tri.v1.y tri.v1.z tri.v2.x tri.v2.y
      tri.v2.z radius rSq _ h2 with h1 | hc
  swap
  · exact seg_bbox_in_tri px py tri.v1.x tri.v1.y tri.v2.x tri.v2.y radius
      rSq tri hr hsq (triMinX_v1 tri) (triMinX_v2 tri) (triMaxX_v1 tri)
      (triMaxX_v2 tri) (triMinY_v1 tri) (triMinY_v2 tri) (triMaxY_v1 tri)
      (triMaxY_v2 tri) hc
  rcases edgeBallZ_fire px py tri.v0.x tri.v0.y tri.v0.z tri.v1.x tri.v1.y
      tri.v1.z radius rSq _ h1 with h0 | hc
  swap
  · exact seg_bbox_in_tri px py tri.v0.x tri.v0.y tri.v1.x tri.v1.y radius
      rSq tri hr hsq (triMinX_v0 tri) (triMinX_v1 tri) (triMaxX_v0 tri)
      (triMaxX_v1 tri) (triMinY_v0 tri) (triMinY_v1 tri) (triMaxY_v0 tri)
      (triMaxY_v1 tri) hc
  cases hfc : ballFaceCand px py tri with
  | none => exact absurd hfc h0
  | some z =>
    have hb := ballFaceCand_bounds px py tri z hfc
    exact face_bbox_pad px py tri radius hr ⟨hb.2.1, hb.2.2.1, hb.2.2.2.1,
      hb.2.2.2.2⟩

theorem dropVBitFast_le (px py : ℝ) (tri : Triangle)
    (radius rSq tanHalf : ℝ) (ht2 : 0 < tanHalf) :
    ∀ v, dropVBitFast px py tri radius rSq tanHalf = some v →
      v ≤ triMaxZ tri := by
  have h0 : ∀ v, vbitFaceCand px py tri = some v → v ≤ triMaxZ tri :=
    fun v hv => (vbitFaceCand_bounds px py tri v hv).1
  have h1 := edgeVBitZ_le px py tri.v0.x tri.v0.y tri.v0.z tri.v1.x tri.v1.y
    tri.v1.z rSq tanHalf (triMaxZ tri) _ ht2 h0 (triMaxZ_v0 tri)
    (triMaxZ_v1 tri)
  have h2 := edgeVBitZ_le px py tri.v1.x tri.v1.y tri.v1.z tri.v2.x tri.v2.y
    tri.v2.z rSq tanHalf (triMaxZ tri) _ ht2 h1 (triMaxZ_v1 tri)
    (triMaxZ_v2 tri)
  have h3 := edgeVBitZ_le px py tri.v2.x tri.v2.y tri.v2.z tri.v0.x tri.v0.y
    tri.v0.z rSq tanHalf (triMaxZ tri) _ ht2 h2 (triMaxZ_v2 tri)
    (triMaxZ_v0 tri)
  have h4 := vertexVBitZ_le px py tri.v0.x tri.v0.y tri.v0.z rSq tanHalf
    (triMaxZ tri) _ ht2 h3 (triMaxZ_v0 tri)
  have h5 := vertexVBitZ_le px py tri.v1.x tri.v1.y tri.v1.z rSq tanHalf
    (triMaxZ tri) _ ht2 h4 (triMaxZ_v1 tri)
  have h6 := vertexVBitZ_le px py tri.v2.x tri.v2.y tri.v2.z rSq tanHalf
    (triMaxZ tri) _ ht2 h5 (triMaxZ_v2 tri)
  intro v hv
  unfold dropVBitFast at hv
  exact h6 v hv

theorem dropVBitFast_bbox (px py : ℝ) (tri : Triangle)
    (radius rSq tanHalf : ℝ) (hr : 0 ≤ radius)
    (hrsq : rSq = radius * radius)
    (h : dropVBitFast px py tri radius rSq tanHalf ≠ none) :
    triMinX tri - radius ≤ px ∧ px ≤ triMaxX tri + radius ∧
    triMinY tri - radius ≤ py ∧ py ≤ triMaxY tri + radius := by
  have hsq : rSq ≤ radius * radius := le_of_eq hrsq
  unfold dropVBitFast at h
  rcases vertexVBitZ_fire px py tri.v2.x tri.v2.y tri.v2.z rSq tanHalf _ h
    with h5 | hc
  swap
  · exact vertex_bbox_in_tri px py tri.v2.x tri.v2.y radius rSq tri hr hsq
      (triMinX_v2 tri) (triMaxX_v2 tri) (triMinY_v2 tri) (triMaxY_v2 tri) hc
  rcases vertexVBitZ_fire px py tri.v1.x tri.v1.y tri.v1.z rSq tanHalf _ h5
    with h4 | hc
  swap
  · exact vertex_bbox_in_tri px py tri.v1.x tri.v1.y radius rSq tri hr hsq
      (triMinX_v1 tri) (triMaxX_v1 tri) (triMinY_v1 tri) (triMaxY_v1 tri) hc
  rcases vertexVBitZ_fire px py tri.v0.x tri.v0.y tri.v0.z rSq tanHalf _ h4
    with h3 | hc
  swap
  · exact vertex_bbox_in_tri px py tri.v0.x tri.v0.y radius rSq tri hr hsq
      (triMinX_v0 tri) (triMaxX_v0 tri) (triMinY_v0 tri) (triMaxY_v0 tri) hc
  rcases edgeVBitZ_fire px py tri.v2.x tri.v2.y tri.v2.z tri.v0.x tri.v0.y
      tri.v0.z rSq tanHalf _ h3 with h2 | hc
  swap
  · exact seg_bbox_in_tri px py tri.v2.x tri.v2.y tri.v0.x tri.v0.y radius
      rSq tri hr hsq (triMinX_v2 tri) (triMinX_v0 tri) (triMaxX_v2 tri)
      (triMaxX_v0 tri) (triMinY_v2 tri) (triMinY_v0 tri) (triMaxY_v2 tri)
      (triMaxY_v0 tri) hc
  rcases edgeVBitZ_fire px py tri.v1.x tri.v1.y tri.v1.z tri.v2.x tri.v2.y
      tri.v2.z rSq tanHalf _ h2 with h1 | hc
  swap
  · exact seg_bbox_in_tri px py tri.v1.x tri.v1.y tri.v2.x tri.v2.y radius
      rSq tri hr hsq (triMinX_v1 tri) (triMinX_v2 tri) (triMaxX_v1 tri)
      (triMaxX_v2 tri) (triMinY_v1 tri) (triMinY_v2 tri) (triMaxY_v1 tri)
      (triMaxY_v2 tri) hc
  rcases edgeVBitZ_fire px py tri.v0.x tri.v0.y tri.v0.z tri.v1.x tri.v1.y
      tri.v1.z rSq tanHalf _ h1 with h0 | hc
  swap
  · exact seg_bbox_in_tri px py tri.v0.x tri.v0.y tri.v1.x tri.v1.y radius
      rSq tri hr hsq (triMinX_v0 tri) (triMinX_v1 tri) (triMaxX_v0 tri)
      (triMaxX_v1 tri) (triMinY_v0 tri) (triMinY_v1 tri) (triMaxY_v0 tri)
      (triMaxY_v1 tri) hc
  cases hfc : vbitFaceCand px py tri with
  | none => exact absurd hfc h0
  | some z =>
    have hb := vbitFaceCand_bounds px py tri z hfc
    exact face_bbox_pad px py tri radius hr ⟨hb.2.1, hb.2.2.1, hb.2.2.2.1,
      hb.2.2.2.2⟩

theorem dropCutterOnTriangle_le (px py : ℝ) (tri : Triangle)
    (toolConfig : ToolConfig) (toolRadius : ℝ) (hr : 0 ≤ toolRadius)
    (htan : toolConfig.type = ToolType.v_bit →
      0 < Real.tan (degToRad (toolConfig.angle / 2))) :
    ∀ v, dropCutterOnTriangle px py tri toolConfig toolRadius = some v →
      v ≤ triMaxZ tri := by
  intro v hv
  unfold dropCutterOnTriangle at hv
  cases htp : toolConfig.type with
  | flat_end =>
    rw [htp] at hv
    exact dropFlatFast_le px py tri toolRadius _ v hv
  | ball_nose =>
    rw [htp] at hv
    exact dropBallFast_le px py tri toolRadius _ hr rfl v hv
  | v_bit =>
    rw [htp] at hv
    exact dropVBitFast_le px py tri toolRadius _ _ (htan htp) v hv

theorem dropCutterOnTriangle_bbox (px py : ℝ) (tri : Triangle)
    (toolConfig : ToolConfig) (toolRadius : ℝ) (hr : 0 ≤ toolRadius)
    (h : dropCutterOnTriangle px py tri toolConfig toolRadius ≠ none) :
    triMinX tri - toolRadius ≤ px ∧ px ≤ triMaxX tri + toolRadius ∧
    triMinY tri - toolRadius ≤ py ∧ py ≤ triMaxY tri + toolRadius := by
  unfold dropCutterOnTriangle at h
  cases htp : toolConfig.type with
  | flat_end =>
    rw [htp] at h
    exact dropFlatFast_bbox px py tri toolRadius _ hr rfl h
  | ball_nose =>
    rw [htp] at h
    exact dropBallFast_bbox px py tri toolRadius _ hr rfl h
  | v_bit =>
    rw [htp] at h
    exact dropVBitFast_bbox px py tri toolRadius _ _ hr rfl h

theorem jsTrunc_mono {x y : ℝ} (h : x ≤ y) : jsTrunc x ≤ jsTrunc y := by
  unfold jsTrunc
  split_ifs with hx hy
  · exact Int.floor_le_floor h
  · exact absurd (le_trans hx h) hy
  · have hx' : x ≤ 0 := le_of_lt (lt_of_not_ge hx)
    have h1 : (⌈x⌉ : ℤ) ≤ 0 := Int.ceil_le.mpr (by exact_mod_cast hx')
    have h2 : (0 : ℤ) ≤ ⌊y⌋ := Int.floor_nonneg.mpr (by assumption)
    omega
  · exact Int.ceil_le_ceil h

theorem jsTrunc_nonneg {x : ℝ} (h : 0 ≤ x) : 0 ≤ jsTrunc x := by
  unfold jsTrunc
  rw [if_pos h]
  exact Int.floor_nonneg.mpr h

theorem gridCoord_bounds (n g : ℕ) (L : ℝ) (hL : 0 ≤ L) (hn : n < g) :
    0 ≤ (n : ℝ) * (if 1 < g then L / ((g - 1 : ℕ) : ℝ) else 0) ∧
    (n : ℝ) * (if 1 < g then L / ((g - 1 : ℕ) : ℝ) else 0) ≤ L := by
  split_ifs with hg
  · have hg1 : (0:ℝ) < ((g - 1 : ℕ) : ℝ) := by
      have h1 : 1 ≤ g - 1 := by omega
      have h2 : (1:ℝ) ≤ ((g - 1 : ℕ) : ℝ) := by exact_mod_cast h1
      linarith
    have hscale : 0 ≤ L / ((g - 1 : ℕ) : ℝ) := div_nonneg hL (le_of_lt hg1)
    refine ⟨mul_nonneg (Nat.cast_nonneg n) hscale, ?_⟩
    have hn' : (n : ℝ) ≤ ((g - 1 : ℕ) : ℝ) := by
      have : n ≤ g - 1 := by omega
      exact_mod_cast this
    have hDL : ((g - 1 : ℕ) : ℝ) * (L / ((g - 1 : ℕ) : ℝ)) = L := by
      rw [mul_div_assoc', mul_comm]
      exact mul_div_cancel_right₀ L (ne_of_gt hg1)
    calc (n:ℝ) * (L / ((g - 1 : ℕ) : ℝ))
          ≤ ((g - 1 : ℕ) : ℝ) * (L / ((g - 1 : ℕ) : ℝ)) :=
            mul_le_mul_of_nonneg_right hn' hscale
      _ = L := hDL
  · simp [hL]

theorem mem_bucket_of_contact (tri : Triangle)
    (toolRadius invCell pw ph : ℝ) (bCols bRows : ℤ) (px py : ℝ)
    (hinv : 0 < invCell)
    (hpx0 : 0 ≤ px) (hpxw : px ≤ pw) (hpy0 : 0 ≤ py) (hpyh : py ≤ ph)
    (hbCols : bCols = max 1 (jsTrunc (pw * invCell) + 2))
    (hbRows : bRows = max 1 (jsTrunc (ph * invCell) + 2))
    (hx1 : triMinX tri - toolRadius ≤ px)
    (hx2 : px ≤ triMaxX tri + toolRadius)
    (hy1 : triMinY tri - toolRadius ≤ py)
    (hy2 : py ≤ triMaxY tri + toolRadius) :
    inBucket toolRadius invCell pw ph bCols bRows
      (min (bRows - 1) (max 0 (jsTrunc (py * invCell))))
      (min (bCols - 1) (max 0 (jsTrunc (px * invCell)))) tri := by
  unfold inBucket
  have tminx_le_tpx : jsTrunc ((triMinX tri - toolRadius) * invCell) ≤
      jsTrunc (px * invCell) :=
    jsTrunc_mono (mul_le_mul_of_nonneg_right hx1 (le_of_lt hinv))
  have tpx_le_tmaxx : jsTrunc (px * invCell) ≤
      jsTrunc ((triMaxX tri + toolRadius) * invCell) :=
    jsTrunc_mono (mul_le_mul_of_nonneg_right hx2 (le_of_lt hinv))
  have tpx_le_tpw : jsTrunc (px * invCell) ≤ jsTrunc (pw * invCell) :=
    jsTrunc_mono (mul_le_mul_of_nonneg_right hpxw (le_of_lt hinv))
  have tpx_nonneg : 0 ≤ jsTrunc (px * invCell) :=
    jsTrunc_nonneg (mul_nonneg hpx0 (le_of_lt hinv))
  have tminy_le_tpy : jsTrunc ((triMinY tri - toolRadius) * invCell) ≤
      jsTrunc (py * invCell) :=
    jsTrunc_mono (mul_le_mul_of_nonneg_right hy1 (le_of_lt hinv))
  have tpy_le_tmaxy : jsTrunc (py * invCell) ≤
      jsTrunc ((triMaxY tri + toolRadius) * invCell) :=
    jsTrunc_mono (mul_le_mul_of_nonneg_right hy2 (le_of_lt hinv))
  have tpy_le_tph : jsTrunc (py * invCell) ≤ jsTrunc (ph * invCell) :=
    jsTrunc_mono (mul_le_mul_of_nonneg_right hpyh (le_of_lt hinv))
  have tpy_nonneg : 0 ≤ jsTrunc (py * invCell) :=
    jsTrunc_nonneg (mul_nonneg hpy0 (le_of_lt hinv))
  refine ⟨?_, by omega, by omega, by omega, by omega⟩
  push_neg
  refine ⟨by linarith, by linarith, by linarith, by linarith⟩

theorem pruneFold_eq (f : Triangle → Option ℝ)
    (hsound : ∀ t v, f t = some v → v ≤ triMaxZ t) (ts : List Triangle) :
    pruneFold f ts = ts.foldl (fun m t => maxOptD m (f t)) none := by
  unfold pruneFold
  have hstep : ∀ (m : Option ℝ) (t : Triangle),
      (if leOpt (triMaxZ t) m then m
       else match f t with
         | none => m
         | some z => maxCand m z) = maxOptD m (f t) := by
    intro m t
    split
    case isTrue hle =>
      cases m with
      | none => exact absurd hle (by unfold leOpt; simp)
      | some v =>
        cases hft : f t with
        | none => rfl
        | some z =>
          have hz := hsound t z hft
          have hvz : z ≤ v := le_trans hz hle
          show _ = some (max v z)
          rw [max_eq_left hvz]
    case isFalse hle =>
      cases hft : f t with
      | none => cases m <;> rfl
      | some z =>
        cases m with
        | none => rfl
        | some v => exact maxCand_some_eq v z
  have : ∀ (ts : List Triangle) (m : Option ℝ),
      ts.foldl (fun maxZ tri =>
        if leOpt (triMaxZ tri) maxZ then maxZ
        else match f tri with
          | none => maxZ
          | some z => maxCand maxZ z) m =
      ts.foldl (fun m t => maxOptD m (f t)) m := by
    intro ts
    induction ts with
    | nil => intro m; rfl
    | cons t rest ih =>
      intro m
      simp only [List.foldl_cons]
      rw [hstep m t]
      exact ih _
  exact this ts none

theorem foldl_maxOptD_filter (f : Triangle → Option ℝ)
    (P : Triangle → Prop)
    (hnone : ∀ t, ¬P t → f t = none) :
    ∀ (ts : List Triangle) (m : Option ℝ),
      (ts.filter fun t => decide (P t)).foldl
        (fun m t => maxOptD m (f t)) m =
      ts.foldl (fun m t => maxOptD m (f t)) m := by
  intro ts
  induction ts with
  | nil => intro m; rfl
  | cons t rest ih =>
    intro m
    by_cases hP : P t
    · rw [List.filter_cons_of_pos (by simpa using hP)]
      simp only [List.foldl_cons]
      exact ih _
    · rw [List.filter_cons_of_neg (by simpa using hP)]
      simp only [List.foldl_cons]
      rw [hnone t hP]
      have : maxOptD m none = m := by cases m <;> rfl
      rw [this]
      exact ih m

theorem cell_equiv_aux (tris : List Triangle) (toolConfig : ToolConfig)
    (toolRadius invCell pw ph : ℝ) (bCols bRows : ℤ) (px py : ℝ)
    (hr : 0 ≤ toolRadius)
    (htan : toolConfig.type = ToolType.v_bit →
      0 < Real.tan (degToRad (toolConfig.angle / 2)))
    (hinv : 0 < invCell) (hpx0 : 0 ≤ px) (hpxw : px ≤ pw)
    (hpy0 : 0 ≤ py) (hpyh : py ≤ ph)
    (hbCols : bCols = max 1 (jsTrunc (pw * invCell) + 2))
    (hbRows : bRows = max 1 (jsTrunc (ph * invCell) + 2)) :
    (match pruneFold
        (fun t => dropCutterOnTriangle px py t toolConfig toolRadius)
        (tris.filter fun t => decide (inBucket toolRadius invCell pw ph
          bCols bRows
          (min (bRows - 1) (max 0 (jsTrunc (py * invCell))))
          (min (bCols - 1) (max 0 (jsTrunc (px * invCell)))) t)) with
      | none => 0
      | some m => m) =
    (match tris.foldl (fun m t => maxOptD m
        (dropCutterOnTriangle px py t toolConfig toolRadius)) none with
      | none => 0
      | some m => m) := by
  have hsound : ∀ t v,
      dropCutterOnTriangle px py t toolConfig toolRadius = some v →
      v ≤ triMaxZ t :=
    fun t v hv =>
      dropCutterOnTriangle_le px py t toolConfig toolRadius hr htan v hv
  have hnone : ∀ t, ¬inBucket toolRadius invCell pw ph bCols bRows
      (min (bRows - 1) (max 0 (jsTrunc (py * invCell))))
      (min (bCols - 1) (max 0 (jsTrunc (px * invCell)))) t →
      dropCutterOnTriangle px py t toolConfig toolRadius = none := by
    intro t hnb
    by_contra hne
    obtain ⟨b1, b2, b3, b4⟩ :=
      dropCutterOnTriangle_bbox px py t toolConfig toolRadius hr hne
    exact hnb (mem_bucket_of_contact t toolRadius invCell pw ph bCols bRows
      px py hinv hpx0 hpxw hpy0 hpyh hbCols hbRows b1 b2 b3 b4)
  rw [pruneFold_eq _ hsound, foldl_maxOptD_filter _ _ hnone]

/-- C3: for every triangle set, grid configuration with in-range cell
`(gx, gy)` and nonnegative physical extents, and tool with positive
diameter (V-bit half-angle with positive tangent), the bucket-grid
accelerated height map cell equals the maximum over all triangles of the
unaccelerated `dropCutterOnTriangle` at the cell's XY position, with
no-contact cells normalised to 0. -/
theorem C3_bucket_grid_equiv (tris : List Triangle) (config : ZMapConfig)
    (toolConfig : ToolConfig) (gx gy : ℕ)
    (hgx : gx < config.gridWidth) (hgy : gy < config.gridHeight)
    (hpw : 0 ≤ config.physicalWidth) (hph : 0 ≤ config.physicalHeight)
    (hdia : 0 < toolConfig.diameter)
    (htan : toolConfig.type = ToolType.v_bit →
      0 < Real.tan (degToRad (toolConfig.angle / 2))) :
    computeHeightMapValue tris config toolConfig gx gy =
      specCellValue tris config toolConfig gx gy := by
  unfold computeHeightMapValue
  split
  case isTrue h0 =>
    have h1 := List.length_eq_zero.mp h0
    subst h1
    rfl
  case isFalse =>
    unfold cellValueOptimized specCellValue
    have hr : 0 ≤ toolConfig.diameter / 2 := by linarith
    have hcs : 0 < max (toolConfig.diameter / 2 * 4)
        (max config.physicalWidth config.physicalHeight / 32) :=
      lt_max_of_lt_left (by linarith)
    have hinv : 0 < 1 / max (toolConfig.diameter / 2 * 4)
        (max config.physicalWidth config.physicalHeight / 32) :=
      one_div_pos.mpr hcs
    have hpx := gridCoord_bounds gx config.gridWidth config.physicalWidth
      hpw hgx
    have hpy := gridCoord_bounds gy config.gridHeight config.physicalHeight
      hph hgy
    exact cell_equiv_aux tris toolConfig (toolConfig.diameter / 2)
      (1 / max (toolConfig.diameter / 2 * 4)
        (max config.physicalWidth config.physicalHeight / 32))
      config.physicalWidth config.physicalHeight _ _ _ _
      hr htan hinv hpx.1 hpx.2 hpy.1 hpy.2 rfl rfl

/-- C4: the ball-nose edge-contact height: for every horizontal edge
feature at height `featureZ` contacted at clamped closest-point distance
`d < r`, `edgeBallZ` yields exactly `featureZ - r + sqrt(r^2 - d^2)`; and
concretely a radius-3 ball at horizontal offset 2 from a flat feature at
Z=0 contacts at `-3 + sqrt(5)` (computed through the whole
`dropBallFast`). -/
theorem C4_ball_contact_formula :
    (∀ px py ax ay bx bY featureZ radius d : ℝ,
      0 ≤ radius → 0 ≤ d → d < radius →
      ((ax + (if (bx - ax) * (bx - ax) + (bY - ay) * (bY - ay) > 1e-20 then
          (if ((px - ax) * (bx - ax) + (py - ay) * (bY - ay)) /
              ((bx - ax) * (bx - ax) + (bY - ay) * (bY - ay)) < 0 then (0:ℝ)
            else if ((px - ax) * (bx - ax) + (py - ay) * (bY - ay)) /
              ((bx - ax) * (bx - ax) + (bY - ay) * (bY - ay)) > 1 then 1
            else ((px - ax) * (bx - ax) + (py - ay) * (bY - ay)) /
              ((bx - ax) * (bx - ax) + (bY - ay) * (bY - ay)))
        else 0) * (bx - ax) - px) *
       (ax + (if (bx - ax) * (bx - ax) + (bY - ay) * (bY - ay) > 1e-20 then
          (if ((px - ax) * (bx - ax) + (py - ay) * (bY - ay)) /
              ((bx - ax) * (bx - ax) + (bY - ay) * (bY - ay)) < 0 then (0:ℝ)
            else if ((px - ax) * (bx - ax) + (py - ay) * (bY - ay)) /
              ((bx - ax) * (bx - ax) + (bY - ay) * (bY - ay)) > 1 then 1
            else ((px - ax) * (bx - ax) + (py - ay) * (bY - ay)) /
              ((bx - ax) * (bx - ax) + (bY - ay) * (bY - ay)))
        else 0) * (bx - ax) - px) +
       (ay + (if (bx - ax) * (bx - ax) + (bY - ay) * (bY - ay) > 1e-20 then
          (if ((px - ax) * (bx - ax) + (py - ay) * (bY - ay)) /
              ((bx - ax) * (bx - ax) + (bY - ay) * (bY - ay)) < 0 then (0:ℝ)
            else if ((px - ax) * (bx - ax) + (py - ay) * (bY - ay)) /
              ((bx - ax) * (bx - ax) + (bY - ay) * (bY - ay)) > 1 then 1
            else ((px - ax) * (bx - ax) + (py - ay) * (bY - ay)) /
              ((bx - ax) * (bx - ax) + (bY - ay) * (bY - ay)))
        else 0) * (bY - ay) - py) *
       (ay + (if (bx - ax) * (bx - ax) + (bY - ay) * (bY - ay) > 1e-20 then
          (if ((px - ax) * (bx - ax) + (py - ay) * (bY - ay)) /
              ((bx - ax) * (bx - ax) + (bY - ay) * (bY - ay)) < 0 then (0:ℝ)
            else if ((px - ax) * (bx - ax) + (py - ay) * (bY - ay)) /
              ((bx - ax) * (bx - ax) + (bY - ay) * (bY - ay)) > 1 then 1
            else ((px - ax) * (bx - ax) + (py - ay) * (bY - ay)) /
              ((bx - ax) * (bx - ax) + (bY - ay) * (bY - ay)))
        else 0) * (bY - ay) - py) = d * d) →
      edgeBallZ px py ax ay featureZ bx bY featureZ radius
        (radius * radius) none =
        some (featureZ - radius + Real.sqrt (radius * radius - d * d))) ∧
    dropBallFast 5 0 ⟨⟨0, 2, 0⟩, ⟨10, 2, 0⟩, ⟨10, 12, 0⟩⟩ 3 9 =
      some (-3 + Real.sqrt 5) := by
  constructor
  · intro px py ax ay bx bY featureZ radius d hr hd hdr hdist
    unfold edgeBallZ
    dsimp only
    rw [if_neg (by rw [hdist]; push_neg; nlinarith)]
    rw [hdist]
    rw [show featureZ + _ * (featureZ - featureZ) = featureZ from by ring]
    rfl
  · norm_num [dropBallFast, edgeBallZ, vertexBallZ, ballFaceCand, maxCand,
      inTriXY]

/-- Witness for C4: edge (0,2)-(10,2) at Z=0, tool at (5,0), radius 3,
offset d=2. -/
theorem C4_ball_contact_formula_witness :
    edgeBallZ 5 0 0 2 0 10 2 0 3 (3 * 3) none =
      some (0 - 3 + Real.sqrt (3 * 3 - 2 * 2)) :=
  C4_ball_contact_formula.1 5 0 0 2 10 2 0 3 2 (by norm_num) (by norm_num) (by norm_num)
    (by norm_num)

/-- Witness for C3: a one-triangle map on a 2x2 grid with a flat-end
tool. -/
theorem C3_bucket_grid_equiv_witness :
    computeHeightMapValue [⟨⟨0, 0, 1⟩, ⟨1, 0, 1⟩, ⟨0, 1, 1⟩⟩]
        ⟨1, 2, 2, 1, 1⟩ ⟨.flat_end, 2, 0, 12000, 800, 300⟩ 1 1 =
      specCellValue [⟨⟨0, 0, 1⟩, ⟨1, 0, 1⟩, ⟨0, 1, 1⟩⟩]
        ⟨1, 2, 2, 1, 1⟩ ⟨.flat_end, 2, 0, 12000, 800, 300⟩ 1 1 :=
  C3_bucket_grid_equiv _ _ _ 1 1 (by norm_num) (by norm_num) (by norm_num)
    (by norm_num) (by norm_num) (by simp)

/-! ### C5: consecutive duplicate motion targets -/

/-- Modelled from the spec: the emitted motion lines never contain two
consecutive lines whose target X, Y and Z coincide within the rounding
tolerance. -/
def noConsecutiveDuplicate (ls : List GLine) : Prop :=
  ∀ i, i + 1 < ls.length →
    ¬(|(ls.getD (i + 1) ⟨.g0, 0, 0, 0⟩).x - (ls.getD i ⟨.g0, 0, 0, 0⟩).x|
        ≤ COORD_TOLERANCE ∧
      |(ls.getD (i + 1) ⟨.g0, 0, 0, 0⟩).y - (ls.getD i ⟨.g0, 0, 0, 0⟩).y|
        ≤ COORD_TOLERANCE ∧
      |(ls.getD (i + 1) ⟨.g0, 0, 0, 0⟩).z - (ls.getD i ⟨.g0, 0, 0, 0⟩).z|
        ≤ COORD_TOLERANCE)

theorem sqrt_twentyfive : Real.sqrt 25 = 5 := by
  rw [show (25:ℝ) = 5 * 5 from by norm_num,
    Real.sqrt_mul_self (by norm_num : (0:ℝ) ≤ 5)]

theorem pointOnArc_radius5 (px py : ℝ)
    (hsum : (px - 0) * (px - 0) + (py - 0) * (py - 0) = 25) :
    pointOnArc px py 0 0 5 (1/100) := by
  unfold pointOnArc
  rw [hsum, sqrt_twentyfive]
  norm_num

theorem fitCircle_circle5 : fitCircle 5 0 (-5) 0 0 (-5) = some ⟨0, 0, 5⟩ := by
  simp only [fitCircle]
  rw [if_neg (by norm_num)]
  norm_num [CircleFit.mk.injEq]
  rw [show (25:ℝ) = 5 * 5 from by norm_num,
    Real.sqrt_mul_self (by norm_num : (0:ℝ) ≤ 5)]

theorem extendArcLoop_circle5 : extendArcLoop
    [(⟨5, 0, -1⟩ : Point3D), ⟨0, 5, -1⟩, ⟨-5, 0, -1⟩, ⟨0, -5, -1⟩, ⟨5, 0, -1⟩]
    0 0 5 (-1) (1/100) 5 4 3 = 4 := by
  rw [show (5:ℕ) = 4 + 1 from rfl, extendArcLoop]
  norm_num [List.getD_cons_zero, List.getD_cons_succ]
  rw [if_pos (pointOnArc_radius5 5 0 (by norm_num))]
  rw [show (4:ℕ) = 3 + 1 from rfl, extendArcLoop]
  norm_num

theorem detectArcs_circle5 :
    detectArcs [(⟨5, 0, -1⟩ : Point3D), ⟨0, 5, -1⟩, ⟨-5, 0, -1⟩, ⟨0, -5, -1⟩,
      ⟨5, 0, -1⟩] (1/100) 4 1000 = [.arc 5 0 5 0 (-5) 0 (-1) false] := by
  unfold detectArcs
  rw [show ([(⟨5, 0, -1⟩ : Point3D), ⟨0, 5, -1⟩, ⟨-5, 0, -1⟩, ⟨0, -5, -1⟩,
      ⟨5, 0, -1⟩]).length = 5 from rfl]
  rw [if_neg (by norm_num), show (5:ℕ) = 4 + 1 from rfl]
  rw [detectArcsLoop]
  rw [if_pos (by norm_num), if_neg (by norm_num)]
  norm_num [List.getD_cons_zero, List.getD_cons_succ]
  rw [fitCircle_circle5]
  dsimp only
  norm_num
  rw [extendArcLoop_circle5]
  split
  next hsz =>
    norm_num [List.getElem?_cons_succ, List.getElem?_cons_zero, isClockwise]
    split
    next hall =>
      rw [show (4:ℕ) = 3 + 1 from rfl, detectArcsLoop]
      norm_num
    next hall =>
      exact absurd (by
        intro j h1 h2
        interval_cases j <;>
          exact pointOnArc_radius5 _ _ (by
            norm_num [List.getElem?_cons_succ, List.getElem?_cons_zero])) hall
  next hsz =>
    exact absurd (by
      intro j hj
      interval_cases j <;>
        norm_num [List.getElem?_cons_succ, List.getElem?_cons_zero]) hsz

/-- C5: refuted by a full-circle cut.  A plunge to (5,0,-1) followed by a
closed circular cut through (5,0), (0,5), (-5,0), (0,-5), (5,0) at depth
-1 is arc-fitted to a single full-circle G3 whose end target equals its
start, so the motion output ends with two consecutive lines whose target
X, Y and Z are exactly equal: the arc branch of the emitter never applies
the duplicate-position check. -/
theorem C5_counterexample :
    generateGCodeMotion
        ⟨[⟨[⟨5, 0, 5⟩, ⟨5, 0, -1⟩], .plunge⟩,
          ⟨[⟨5, 0, -1⟩, ⟨0, 5, -1⟩, ⟨-5, 0, -1⟩, ⟨0, -5, -1⟩, ⟨5, 0, -1⟩],
            .cut⟩]⟩
        ⟨.flat_end, 3.175, 0, 12000, 800, 300⟩ ⟨5, 0, 0, .front_left⟩ =
      [⟨.g1, 5, 0, 5⟩, ⟨.g1, 5, 0, -1⟩, ⟨.g3, 5, 0, -1⟩] ∧
    ¬ noConsecutiveDuplicate
      [⟨.g1, 5, 0, 5⟩, ⟨.g1, 5, 0, -1⟩, ⟨.g3, 5, 0, -1⟩] := by
  constructor
  · simp only [generateGCodeMotion, List.foldl_cons, List.foldl_nil,
      processSegment]
    norm_num
    rw [detectArcs_circle5]
    norm_num [stepFold, processStdPoint, skipPos, formatMove, coordChanged,
      processArcSeg, formatCutMove, COORD_TOLERANCE, abs_of_nonneg,
      abs_of_nonpos]
  · intro h
    have h1 := h 1 (by norm_num)
    apply h1
    norm_num [List.getD, COORD_TOLERANCE]

/-- C5 (amended): the duplicate suppression the emitter actually performs:
a standard point whose offset target coincides with the tracked position
within the 0.0005 tolerance is skipped outright (state unchanged, no line
emitted), and likewise for linear elements of arc-fitted cut runs; fitted
arc segments are emitted unconditionally, which is what admits the
counterexample's duplicate target. -/
theorem C5_duplicate_suppression :
    (∀ (tc : ToolConfig) (mc : MachineConfig) (mt : MoveType) (st : GState)
        (pt : Point3D),
      skipPos st (pt.x + mc.originX) (pt.y + mc.originY) pt.z →
      processStdPoint tc mc mt st pt = (st, none)) ∧
    (∀ (tc : ToolConfig) (mc : MachineConfig) (st : GState) (lx ly lz : ℝ),
      skipPos st (lx + mc.originX) (ly + mc.originY) lz →
      processArcSeg tc mc st (.linear lx ly lz) = (st, none)) := by
  constructor
  · intro tc mc mt st pt h
    unfold processStdPoint
    rw [if_pos h]
  · intro tc mc st lx ly lz h
    unfold processArcSeg
    dsimp only
    rw [if_pos h]

/-- Witness for the amended C5: a concrete duplicate point is skipped. -/
theorem C5_duplicate_suppression_witness :
    processStdPoint ⟨.flat_end, 3.175, 0, 12000, 800, 300⟩
        ⟨5, 0, 0, .front_left⟩ .cut
        ⟨some 1, some 2, some 3, some 800⟩ ⟨1, 2, 3⟩ =
      (⟨some 1, some 2, some 3, some 800⟩, none) :=
  C5_duplicate_suppression.1 ⟨.flat_end, 3.175, 0, 12000, 800, 300⟩
    ⟨5, 0, 0, .front_left⟩ .cut ⟨some 1, some 2, some 3, some 800⟩ ⟨1, 2, 3⟩
    (by
      unfold skipPos
      refine ⟨by simp, ?_, ?_, ?_⟩ <;> norm_num [COORD_TOLERANCE])

/-- Witness for C7: a 3-point collinear run simplifies to its endpoints. -/
theorem C7_collinear_simplifies_witness :
    simplifyPolyline ⟨[⟨0, 0⟩, ⟨1, 0⟩, ⟨2, 0⟩], false⟩ (0.05 : ℝ) =
      ⟨[⟨0, 0⟩, ⟨2, 0⟩], false⟩ := by
  have h := C7_collinear_simplifies ⟨[⟨0, 0⟩, ⟨1, 0⟩, ⟨2, 0⟩], false⟩
    (0.05 : ℝ) (by norm_num) (by simp)
    (by
      intro i h1 h2
      simp only [List.length_cons, List.length_nil] at h2
      have hi : i = 1 := by omega
      subst hi
      simp only [perpendicularDistance, List.getD]
      norm_num)
  simpa using h

end

end SimpleCnc
